import Mathlib

/-!
# ux-dev: device registry (drivers/device.c) and framebuffer console (drivers/video/video.c)

A shallow embedding of the two drivers and the properties of their specification.
Globals of the C files become fields of a state record; C arrays and pointed-to memory
become functions from a word index to the stored value; machine integers are naturals
reduced modulo their width where the C arithmetic can wrap.
-/

namespace Device

/-- Device classes of device.h; DEV_NULL marks an empty slot. -/
inductive dev_type_t where
  | DEV_NULL
  | DEV_CHAR
  | DEV_BLOCK
deriving DecidableEq, Repr

/-- Record struct device_operations of device.h. A function pointer is none when it is NULL
and otherwise carries the address of the routine; name is the char[8] field as bytes. -/
structure dev_op_t where
  write : Option Nat
  read : Option Nat
  type : dev_type_t
  name : List Nat
deriving DecidableEq, Repr

/-- Constant DEVICE_COUNT_DEFAULT of device.h. -/
def DEVICE_COUNT_DEFAULT : Int := 256

/-- The sentinel dummy of device.c: name is "null" padded with NUL to 8 bytes. -/
def dummy : dev_op_t :=
  { write := none, read := none, type := dev_type_t.DEV_NULL,
    name := [110, 117, 108, 108, 0, 0, 0, 0] }

/-- Globals of device.c: device_max and the memory device_list points to. -/
structure DeviceState where
  device_max : Int
  device_list : Nat → dev_op_t

/-- Assignment to one element of an array held as a function. -/
def poke {α : Type} (m : Nat → α) (i : Nat) (v : α) : Nat → α :=
  fun k => if k = i then v else m k

/-- The state of device.c before init_device runs: device_max has its initialiser. -/
def boot (mem : Nat → dev_op_t) : DeviceState :=
  { device_max := DEVICE_COUNT_DEFAULT, device_list := mem }

/-- Loop of init_device: n iterations left, next index i. -/
def init_device_loop (d : Nat → dev_op_t) : Nat → Nat → (Nat → dev_op_t)
  | 0, _ => d
  | n + 1, i => init_device_loop (poke d i dummy) n (i + 1)

/-- Function init_device; fresh is the content of the block malloc returns. -/
def init_device (st : DeviceState) (fresh : Nat → dev_op_t) (device_list_length : Int) :
    DeviceState :=
  let device_max := if device_list_length > 0 then device_list_length else st.device_max
  { device_max := device_max,
    device_list := init_device_loop fresh device_max.toNat 0 }

/-- Loop of device_register: n iterations left, next index i. -/
def device_register_loop (st : DeviceState) (op : dev_op_t) : Nat → Nat → DeviceState × Int
  | 0, _ => (st, -1)
  | n + 1, i =>
    if (st.device_list i).type = dev_type_t.DEV_NULL then
      ({ st with device_list := poke st.device_list i op }, (i : Int))
    else device_register_loop st op n (i + 1)

/-- Function device_register: the new state and the returned int. -/
def device_register (st : DeviceState) (op : dev_op_t) : DeviceState × Int :=
  device_register_loop st op st.device_max.toNat 0

/-- Function device_find_number. -/
def device_find_number (st : DeviceState) (number : Int) : dev_op_t :=
  if number ≥ 0 ∧ number < st.device_max then st.device_list number.toNat else dummy

/-- Modelled from the spec: strncmp of the kernel's string.h, which is not among the sources.
The spec calls it a bounded prefix comparison; this is the C library function: compare at
most n bytes, stop at the first difference or at a NUL common to both. A string is the list
of its bytes and reads as NUL past its end. -/
def strncmp : List Nat → List Nat → Nat → Int
  | _, _, 0 => 0
  | s1, s2, n + 1 =>
    if s1.headD 0 ≠ s2.headD 0 then (s1.headD 0 : Int) - (s2.headD 0 : Int)
    else if s1.headD 0 = 0 then 0
    else strncmp s1.tail s2.tail n

/-- Loop of device_find_name: n iterations left, next index i; sizeof of the name field is 8. -/
def device_find_name_loop (st : DeviceState) (name : List Nat) : Nat → Nat → dev_op_t
  | 0, _ => dummy
  | n + 1, i =>
    if strncmp (st.device_list i).name name 8 = 0 then st.device_list i
    else device_find_name_loop st name n (i + 1)

/-- Function device_find_name. -/
def device_find_name (st : DeviceState) (name : List Nat) : dev_op_t :=
  device_find_name_loop st name st.device_max.toNat 0

/-- Loop of device_find_type: n iterations left, next index i. -/
def device_find_type_loop (st : DeviceState) (type : dev_type_t) : Nat → Nat → dev_op_t
  | 0, _ => dummy
  | n + 1, i =>
    if (st.device_list i).type = type then st.device_list i
    else device_find_type_loop st type n (i + 1)

/-- Function device_find_type. -/
def device_find_type (st : DeviceState) (type : dev_type_t) : dev_op_t :=
  device_find_type_loop st type st.device_max.toNat 0

/-- A run of device_register calls, one per record, with the returned values in order. -/
def register_all (st : DeviceState) : List dev_op_t → DeviceState × List Int
  | [] => (st, [])
  | op :: ops =>
    let r := device_register st op
    let rest := register_all r.1 ops
    (rest.1, r.2 :: rest.2)

/-- The first n bytes of a C string: what precedes its first NUL, cut to n bytes. -/
def cstr_prefix (n : Nat) (s : List Nat) : List Nat :=
  (s.takeWhile (fun c => decide (c ≠ 0))).take n

/-- Table shape reached by registrations alone: the slots below k are occupied and the slots
from k up to the capacity m are empty. -/
def filled (st : DeviceState) (k m : Nat) : Prop :=
  st.device_max = (m : Int) ∧
  (∀ j, j < k → (st.device_list j).type ≠ dev_type_t.DEV_NULL) ∧
  (∀ j, k ≤ j → j < m → (st.device_list j).type = dev_type_t.DEV_NULL)

/-- A record of type DEV_NULL that is not the sentinel: name "zero". -/
def null_typed : dev_op_t :=
  { write := some 1, read := none, type := dev_type_t.DEV_NULL,
    name := [122, 101, 114, 111, 0, 0, 0, 0] }

/-- A character device named "tty0". -/
def tty0 : dev_op_t :=
  { write := some 4096, read := some 4112, type := dev_type_t.DEV_CHAR,
    name := [116, 116, 121, 48, 0, 0, 0, 0] }

/-- A block device named "hda". -/
def hda : dev_op_t :=
  { write := some 8192, read := some 8208, type := dev_type_t.DEV_BLOCK,
    name := [104, 100, 97, 0, 0, 0, 0, 0] }

/-- Memory in which every record is the sentinel. -/
def blank : Nat → dev_op_t := fun _ => dummy

end Device

namespace Video

/-- Conversion to uint32_t. -/
def u32 (n : Nat) : Nat := n % 4294967296

/-- Conversion to uint64_t. -/
def u64 (n : Nat) : Nat := n % 18446744073709551616

/-- Subtraction of two uint32_t values. -/
def sub32 (a b : Nat) : Nat := (a + 4294967296 - b) % 4294967296

/-- Subtraction of two uint64_t values. -/
def sub64 (a b : Nat) : Nat := (a + 18446744073709551616 - b) % 18446744073709551616

/-- Macro MAX of video.c. -/
def MAX (a b : Nat) : Nat := if a > b then a else b

/-- Macro MIN of video.c. -/
def MIN (a b : Nat) : Nat := if a < b then a else b

/-- Modelled from the spec: MAX_CACHE_SIZE of video.h, which is not among the sources; the
glyph cache is an array of 256 entries. -/
def MAX_CACHE_SIZE : Nat := 256

/-- Number of uint32_t elements of back_buffer: MAX_BUFFER_SIZE / sizeof(uint32_t). -/
def BACK_BUFFER_WORDS : Nat := 3840 * 2160 * 2 / 4

/-- Modelled from the spec: dirty_region_t of video.h, which is not among the sources: a
half-open rectangle (x1, y1, x2, y2) of uint32_t and the flag dirty. -/
structure dirty_region_t where
  x1 : Nat
  y1 : Nat
  x2 : Nat
  y2 : Nat
  dirty : Bool
deriving DecidableEq, Repr

/-- Modelled from the spec: glyph_cache_t of video.h, which is not among the sources: the
valid flag, the bitmap pointer (none when NULL, otherwise the index of its first word in
glyph_cache_memory) and the timestamp. -/
structure glyph_cache_t where
  valid : Bool
  bitmap : Option Nat
  timestamp : Nat
deriving DecidableEq, Repr

/-- Modelled from the spec: position_t of video.h, which is not among the sources: a pixel
position (x, y). -/
structure position_t where
  x : Nat
  y : Nat
deriving DecidableEq, Repr

/-- What video.c takes from outside: the memory at the symbol ascii_font (bytes, indexed by
the signed offset from the symbol), the answer of cpu_support_sse, the build option
DOUBLE_BUFFERING, and the channel shifts color_to_fb_color packs with. -/
structure Env where
  ascii_font : Int → Nat
  cpu_support_sse : Bool
  DOUBLE_BUFFERING : Bool
  red_mask_shift : Nat
  green_mask_shift : Nat
  blue_mask_shift : Nat

/-- Modelled from the spec: color_to_fb_color of gfx_proc.h, which is not among the sources:
each channel shifted to its place and the three combined with bitwise or. -/
def color_to_fb_color (env : Env) (r g b : Nat) : Nat :=
  u32 ((r <<< env.red_mask_shift) ||| (g <<< env.green_mask_shift) |||
    (b <<< env.blue_mask_shift))

/-- The fields of the bootloader's struct limine_framebuffer that video_init reads; address
is the content of the video memory it points to. -/
structure limine_framebuffer where
  address : Nat → Nat
  width : Nat
  height : Nat
  pitch : Nat
  bpp : Nat

/-- Globals of video.c. The arrays buffer, back_buffer and glyph_cache_memory are the words
of memory counted from their first element; glyph_cache is indexed by entry number. -/
structure VideoState where
  width : Nat
  height : Nat
  stride : Nat
  buffer : Nat → Nat
  x : Nat
  y : Nat
  cx : Nat
  cy : Nat
  c_width : Nat
  c_height : Nat
  fore_color : Nat
  back_color : Nat
  glyph_cache_memory : Nat → Nat
  dirty_region : dirty_region_t
  glyph_cache : Nat → glyph_cache_t
  cache_timestamp : Nat
  double_buffering_enabled : Bool
  back_buffer : Nat → Nat
  back_buffer_stride : Nat

/-- Assignment to one word of memory. -/
def poke (m : Nat → Nat) (i : Nat) (v : Nat) : Nat → Nat :=
  fun k => if k = i then v else m k

/-- Scalar copy loop: n words left, next offset k; word d+k of dst receives word s+k of src. -/
def copy_words (src : Nat → Nat) (s d : Nat) : Nat → Nat → (Nat → Nat) → (Nat → Nat)
  | 0, _, dst => dst
  | n + 1, k, dst => copy_words src s d n (k + 1) (poke dst (d + k) (src (s + k)))

/-- The movdqu pair of the inline assembly: 16 bytes (4 words) are loaded from src at s and
then stored to dst at d. -/
def movdqu (src : Nat → Nat) (s d : Nat) (dst : Nat → Nat) : Nat → Nat :=
  fun k => if d ≤ k ∧ k < d + 4 then src (s + (k - d)) else dst k

/-- The two while loops of the SSE copy in video_partial_refresh and video_refresh: blocks
of 4 words while at least 4 remain, then single words. The first argument bounds the number
of block iterations. -/
def copy_sse (src : Nat → Nat) : Nat → Nat → Nat → Nat → (Nat → Nat) → (Nat → Nat)
  | 0, s, d, remaining, dst => copy_words src s d remaining 0 dst
  | fuel + 1, s, d, remaining, dst =>
    if remaining ≥ 4 then copy_sse src fuel (s + 4) (d + 4) (remaining - 4) (movdqu src s d dst)
    else copy_words src s d remaining 0 dst

/-- Fill loop of rep stosl and of the clear loops: n words left, next index i. -/
def fill_words (v : Nat) : Nat → Nat → (Nat → Nat) → (Nat → Nat)
  | 0, _, m => m
  | n + 1, i, m => fill_words v n (i + 1) (poke m i v)

/-- Modelled from the spec: memmove of the kernel's string.h, which is not among the
sources, on whole words: n words starting at src are copied to dst as if through a
temporary. -/
def memmove (m : Nat → Nat) (dst src n : Nat) : Nat → Nat :=
  fun k => if dst ≤ k ∧ k < dst + n then m (src + (k - dst)) else m k

/-- Function video_mark_dirty; its parameters are uint32_t. -/
def video_mark_dirty (st : VideoState) (x y w h : Nat) : VideoState :=
  let d := st.dirty_region
  let d1 : dirty_region_t :=
    if !d.dirty then
      { x1 := x, y1 := y, x2 := u32 (x + w), y2 := u32 (y + h), dirty := true }
    else
      { x1 := MIN d.x1 x, y1 := MIN d.y1 y, x2 := MAX d.x2 (u32 (x + w)),
        y2 := MAX d.y2 (u32 (y + h)), dirty := d.dirty }
  { st with dirty_region :=
      { x1 := d1.x1, y1 := d1.y1, x2 := MIN d1.x2 st.width, y2 := MIN d1.y2 st.height,
        dirty := d1.dirty } }

/-- Loop of video_init_cache: n iterations left, next index i. -/
def video_init_cache_loop : Nat → Nat → (Nat → glyph_cache_t) → (Nat → glyph_cache_t)
  | 0, _, g => g
  | n + 1, i, g =>
    video_init_cache_loop n (i + 1)
      (fun k => if k = i then { valid := false, bitmap := none, timestamp := 0 } else g k)

/-- Function video_init_cache. -/
def video_init_cache (st : VideoState) : VideoState :=
  { st with glyph_cache := video_init_cache_loop MAX_CACHE_SIZE 0 st.glyph_cache }

/-- The value of (size_t)c for a char c holding the byte c, as an offset: char is signed on
the x86 targets of this kernel, so bytes from 128 up are negative. -/
def char_offset (c : Nat) : Int :=
  if c % 256 < 128 then ((c % 256 : Nat) : Int) else ((c % 256 : Nat) : Int) - 256

/-- Byte font[i] in video_get_glyph_cache, font being ascii_font + (size_t)c * 16. -/
def font_byte (env : Env) (c : Nat) (i : Nat) : Nat :=
  env.ascii_font (char_offset c * 16 + (i : Int))

/-- Inner loop of the pre-render: n columns left, next column j of row i. -/
def render_cols (fb color back : Nat) (base i : Nat) : Nat → Nat → (Nat → Nat) → (Nat → Nat)
  | 0, _, m => m
  | n + 1, j, m =>
    render_cols fb color back base i n (j + 1)
      (poke m (base + (i * 9 + j)) (if fb &&& (0x80 >>> j) ≠ 0 then color else back))

/-- Outer loop of the pre-render: n rows left, next row i. -/
def render_rows (env : Env) (c color back : Nat) (base : Nat) :
    Nat → Nat → (Nat → Nat) → (Nat → Nat)
  | 0, _, m => m
  | n + 1, i, m =>
    render_rows env c color back base n (i + 1)
      (render_cols (font_byte env c i) color back base i 9 0 m)

/-- Function video_get_glyph_cache: the new state and the index of the entry whose address
is returned (the address is never NULL). -/
def video_get_glyph_cache (env : Env) (st : VideoState) (c : Nat) (color : Nat) :
    VideoState × Nat :=
  let index := c % 256
  if (st.glyph_cache index).valid then
    let ts := u32 (st.cache_timestamp + 1)
    ({ st with
        cache_timestamp := ts,
        glyph_cache := fun k =>
          if k = index then { st.glyph_cache index with timestamp := ts }
          else st.glyph_cache k }, index)
  else
    let base := index * 9 * 16
    let mem := render_rows env c color st.back_color base 16 0 st.glyph_cache_memory
    let ts := u32 (st.cache_timestamp + 1)
    ({ st with
        glyph_cache_memory := mem,
        cache_timestamp := ts,
        glyph_cache := fun k =>
          if k = index then { valid := true, bitmap := some base, timestamp := ts }
          else st.glyph_cache k }, index)

/-- Column loop of the SSE glyph copy: j advances by 4; a full group of 4 goes through
movdqu, a shorter one through the scalar loop over k. -/
def draw_cols_sse (src : Nat → Nat) (s d : Nat) : Nat → Nat → (Nat → Nat) → (Nat → Nat)
  | 0, _, dst => dst
  | n + 1, j, dst =>
    let pixels_to_copy := MIN 4 (9 - j)
    draw_cols_sse src s d n (j + 4)
      (if pixels_to_copy = 4 then movdqu src (s + j) (d + j) dst
       else copy_words src (s + j) (d + j) pixels_to_copy 0 dst)

/-- Row loop of the glyph copy, both variants: n rows left; src advances by 9 and dest by
target_stride after each row. -/
def draw_rows (sse : Bool) (src : Nat → Nat) (target_stride : Nat) :
    Nat → Nat → Nat → (Nat → Nat) → (Nat → Nat)
  | 0, _, _, dst => dst
  | n + 1, s, d, dst =>
    draw_rows sse src target_stride n (s + 9) (d + target_stride)
      (if sse then draw_cols_sse src s d 3 0 dst else copy_words src s d 9 0 dst)

/-- The active draw target. -/
def target_buffer (st : VideoState) : Nat → Nat :=
  if st.double_buffering_enabled then st.back_buffer else st.buffer

/-- The uint32_t target_stride of video_draw_char_sse and video_draw_rect. -/
def target_stride (st : VideoState) : Nat :=
  u32 (if st.double_buffering_enabled then st.back_buffer_stride else st.stride)

/-- Store to the active draw target. -/
def set_target (st : VideoState) (m : Nat → Nat) : VideoState :=
  if st.double_buffering_enabled then { st with back_buffer := m } else { st with buffer := m }

/-- Function video_draw_char_sse; none when the bitmap pointer of the entry is NULL and the
copy would read through it. -/
def video_draw_char_sse (env : Env) (st : VideoState) (c : Nat) (x y : Nat) (color : Nat) :
    Option VideoState :=
  let r := video_get_glyph_cache env st c color
  let st1 := r.1
  let cache := st1.glyph_cache r.2
  if !cache.valid then some st1
  else
    match cache.bitmap with
    | none => none
    | some src =>
      let dest := u32 (y * target_stride st1) + x
      let m := draw_rows env.cpu_support_sse st1.glyph_cache_memory (target_stride st1)
        16 src dest (target_buffer st1)
      some (video_mark_dirty (set_target st1 m) x y 9 16)

/-- Function video_draw_char. -/
def video_draw_char (env : Env) (st : VideoState) (c : Nat) (x y : Nat) (color : Nat) :
    Option VideoState :=
  video_draw_char_sse env st c x y color

/-- Function video_clear; none when the uint32_t counter can never reach stride * height
and the loop does not end. -/
def video_clear (env : Env) (st : VideoState) : Option VideoState :=
  let back_color := color_to_fb_color env 0 0 0
  let st1 := { st with back_color := back_color }
  if u64 (st.stride * st.height) < 4294967296 then
    let m := fill_words back_color (u64 (st.stride * st.height)) 0 (target_buffer st1)
    some { set_target st1 m with x := 2, y := 0, cx := 0, cy := 0 }
  else none

/-- Function video_clear_color; none when the loop does not end. -/
def video_clear_color (st : VideoState) (color : Nat) : Option VideoState :=
  let st1 := { st with back_color := color }
  if u64 (st.stride * st.height) < 4294967296 then
    let m := fill_words color (u64 (st.stride * st.height)) 0 st1.back_buffer
    some { st1 with back_buffer := m, x := 2, y := 0, cx := 0, cy := 0 }
  else none

/-- Function video_move_to. -/
def video_move_to (st : VideoState) (c_x c_y : Nat) : VideoState :=
  { st with cx := c_x, cy := c_y }

/-- Function video_draw_pixel. -/
def video_draw_pixel (st : VideoState) (x y : Nat) (color : Nat) : VideoState :=
  set_target st (poke (target_buffer st) (u64 (y * st.stride + x)) color)

/-- Function video_get_pixel. -/
def video_get_pixel (st : VideoState) (x y : Nat) : Nat :=
  target_buffer st (u64 (y * st.stride + x))

/-- Row loop of video_partial_refresh: n rows left, next row y; w is the local width. -/
def refresh_rows (sse : Bool) (src : Nat → Nat) (back_buffer_stride stride x1 w : Nat) :
    Nat → Nat → (Nat → Nat) → (Nat → Nat)
  | 0, _, dst => dst
  | n + 1, y, dst =>
    let s := u32 (y * back_buffer_stride) + x1
    let d := u64 (y * stride) + x1
    refresh_rows sse src back_buffer_stride stride x1 w n (y + 1)
      (if sse then copy_sse src w s d w dst else copy_words src s d w 0 dst)

/-- Function video_partial_refresh. -/
def video_partial_refresh (env : Env) (st : VideoState) : VideoState :=
  let dr := st.dirty_region
  if !dr.dirty then st
  else
    let width := sub32 dr.x2 dr.x1
    let height := sub32 dr.y2 dr.y1
    if width = 0 ∨ height = 0 then st
    else
      let m := refresh_rows env.cpu_support_sse st.back_buffer st.back_buffer_stride
        st.stride dr.x1 width (dr.y2 - dr.y1) dr.y1 st.buffer
      { st with buffer := m, dirty_region := { dr with dirty := false } }

/-- Function video_refresh. -/
def video_refresh (env : Env) (st : VideoState) : VideoState :=
  if !st.double_buffering_enabled then st
  else
    let total_pixels := u64 (st.stride * st.height)
    { st with buffer :=
        if env.cpu_support_sse then
          copy_sse st.back_buffer total_pixels 0 0 total_pixels st.buffer
        else copy_words st.back_buffer 0 0 total_pixels 0 st.buffer }

/-- Row loop of video_draw_rect as compiled for x86: n rows left, next row y; each row is
one rep stosl of count words starting at line. -/
def rect_rows (color target_stride x0 count : Nat) :
    Nat → Nat → (Nat → Nat) → (Nat → Nat)
  | 0, _, m => m
  | n + 1, y, m =>
    let line := u32 (y * target_stride) + x0
    rect_rows color target_stride x0 count n (y + 1) (fill_words color count line m)

/-- Function video_draw_rect (the rep stosl variant); none when y1 is the largest uint32_t,
so that y <= y1 never fails and the loop does not end. -/
def video_draw_rect (st : VideoState) (p0 p1 : position_t) (color : Nat) :
    Option VideoState :=
  let x0 := u32 p0.x
  let y0 := u32 p0.y
  let x1 := u32 p1.x
  let y1 := u32 p1.y
  if y1 = 4294967295 then none
  else
    let count := u32 (sub32 x1 x0 + 1)
    let m := rect_rows color (target_stride st) x0 count (y1 + 1 - y0) y0 (target_buffer st)
    some (video_mark_dirty (set_target st m) x0 y0 (u32 (sub32 x1 x0 + 1))
      (u32 (sub32 y1 y0 + 1)))

/-- Function video_scroll. -/
def video_scroll (env : Env) (st : VideoState) : Option VideoState :=
  let st1 :=
    if st.cx ≥ st.c_width then { st with cx := 1, cy := u32 (st.cy + 1) }
    else { st with cx := u32 (st.cx + 1) }
  if st1.cy ≥ st1.c_height then
    let scroll_height := u32 (sub64 st1.height 16)
    let scroll_size := u32 (u64 (st1.stride * scroll_height * 4))
    let m := memmove (target_buffer st1) 0 (u64 (st1.stride * 16)) (scroll_size / 4)
    let st2 := set_target st1 m
    match video_draw_rect st2 { x := 0, y := scroll_height }
        { x := st2.width, y := st2.height } st2.back_color with
    | none => none
    | some st3 =>
      let st4 := { st3 with cy := sub32 st3.c_height 1 }
      let st5 := video_mark_dirty st4 0 0 (u32 st4.width) (u32 st4.height)
      some (video_refresh env st5)
  else some st1

/-- The tab loop of video_put_char: n iterations left. -/
def put_tab (env : Env) (c color : Nat) : Nat → VideoState → Option VideoState
  | 0, st => some st
  | n + 1, st =>
    match video_scroll env st with
    | none => none
    | some st1 =>
      match video_draw_char env st1 c (u32 (sub32 st1.cx 1 * 9)) (u32 (st1.cy * 16)) color with
      | none => none
      | some st2 => put_tab env c color n st2

/-- Function video_put_char; c is the byte held by the char. -/
def video_put_char (env : Env) (st : VideoState) (c : Nat) (color : Nat) :
    Option VideoState :=
  if c = 10 then some { st with cy := u32 (st.cy + 1), cx := 0 }
  else if c = 13 then some { st with cx := 0 }
  else if c = 9 then put_tab env c color 8 st
  else if c = 8 ∧ st.cx > 0 then
    if (st.cx : Int) - 1 < 0 then
      let st1 := { st with cx := sub32 st.c_width 1 }
      let st2 := if st1.cy ≠ 0 then { st1 with cy := sub32 st1.cy 1 } else st1
      some (if st2.cy = 0 then { st2 with cx := 0, cy := 0 } else st2)
    else some { st with cx := sub32 st.cx 1 }
  else
    match video_scroll env st with
    | none => none
    | some st1 =>
      video_draw_char env st1 c (u32 (sub32 st1.cx 1 * 9)) (u32 (st1.cy * 16)) color

/-- The loop of video_put_string and video_put_string_color: one video_put_char per byte,
up to the first NUL; the list is the memory at str and reads as NUL past its end. -/
def put_chars (env : Env) (color : Nat) : List Nat → VideoState → Option VideoState
  | [], st => some st
  | c :: rest, st =>
    if c = 0 then some st
    else
      match video_put_char env st c color with
      | none => none
      | some st1 => put_chars env color rest st1

/-- Function video_put_string. -/
def video_put_string (env : Env) (st : VideoState) (str : List Nat) : Option VideoState :=
  match put_chars env st.fore_color str st with
  | none => none
  | some st1 => some (video_partial_refresh env st1)

/-- Function video_put_string_color. -/
def video_put_string_color (env : Env) (st : VideoState) (str : List Nat) (color : Nat) :
    Option VideoState :=
  match put_chars env color str st with
  | none => none
  | some st1 => some (video_partial_refresh env st1)

/-- Function video_init; none when there is no framebuffer (krn_halt), when bpp / 8 is 0
(division by zero) or when a clearing loop does not end. The fields width, height and pitch of
the framebuffer are uint64_t and bpp is uint16_t. -/
def video_init (env : Env) (framebuffer : Option limine_framebuffer) (st : VideoState) :
    Option VideoState :=
  match framebuffer with
  | none => none
  | some fb =>
    if fb.bpp / 8 = 0 then none
    else
      let stride := fb.pitch / (fb.bpp / 8)
      let back_color := color_to_fb_color env 0 0 0
      let st1 : VideoState :=
        { st with
          buffer := fb.address, width := fb.width, height := fb.height, stride := stride,
          x := 0, cx := 0, y := 0, cy := 0,
          c_width := u32 (fb.width / 9), c_height := u32 (fb.height / 16),
          fore_color := color_to_fb_color env 0xaa 0xaa 0xaa,
          back_color := back_color,
          dirty_region := { st.dirty_region with dirty := false } }
      if env.DOUBLE_BUFFERING ∧ u64 (u64 (stride * fb.height) * 4) ≤ BACK_BUFFER_WORDS * 4 then
        if u64 (stride * fb.height) < 4294967296 then
          video_clear env (video_init_cache
            { st1 with
              back_buffer_stride := u32 stride,
              double_buffering_enabled := true,
              back_buffer := fill_words back_color (u64 (stride * fb.height)) 0
                st1.back_buffer })
        else none
      else video_clear env (video_init_cache st1)

/-- The word the pre-render stores for column j of a row whose font byte is fb. -/
def glyph_word (fb color back j : Nat) : Nat :=
  if fb &&& (0x80 >>> j) ≠ 0 then color else back

/-- Word (i, j) of the bitmap the pre-render of video_get_glyph_cache produces for char c. -/
def bitmap_word (env : Env) (c color back : Nat) (i j : Nat) : Nat :=
  glyph_word (font_byte env c i) color back j

/-- Every cache entry marked valid points at its own slice of glyph_cache_memory, as
video_get_glyph_cache leaves it. -/
def cache_wf (st : VideoState) : Prop :=
  ∀ k, k < MAX_CACHE_SIZE → (st.glyph_cache k).valid = true →
    (st.glyph_cache k).bitmap = some (k * 9 * 16)

/-- The state video_draw_char_sse returns when the entry of c has a bitmap: the glyph is
fetched, its 16 rows of 9 words are copied to the draw target at (x, y), and the cell is
marked dirty. -/
def drawn (env : Env) (st : VideoState) (c x y color : Nat) : VideoState :=
  video_mark_dirty
    (set_target (video_get_glyph_cache env st c color).1
      (draw_rows env.cpu_support_sse
        (video_get_glyph_cache env st c color).1.glyph_cache_memory
        (target_stride st) 16 (c % 256 * 9 * 16) (u32 (y * target_stride st) + x)
        (target_buffer st)))
    x y 9 16

/-- A font in which every byte is 0xAA: in each glyph row the pixels of columns 0, 2, 4
and 6 are set. -/
def env0 : Env :=
  { ascii_font := fun _ => 0xAA, cpu_support_sse := true, DOUBLE_BUFFERING := true,
    red_mask_shift := 16, green_mask_shift := 8, blue_mask_shift := 0 }

/-- A 720 x 400 console (80 x 25 cells) with double buffering on, as video_init leaves it
over memory that is all zero: cell (0, 0), empty glyph cache, dirty flag clear. -/
def console0 : VideoState :=
  { width := 720, height := 400, stride := 720, buffer := fun _ => 0,
    x := 2, y := 0, cx := 0, cy := 0, c_width := 80, c_height := 25,
    fore_color := 0xAAAAAA, back_color := 0,
    glyph_cache_memory := fun _ => 0,
    dirty_region := { x1 := 0, y1 := 0, x2 := 0, y2 := 0, dirty := false },
    glyph_cache := fun _ => { valid := false, bitmap := none, timestamp := 0 },
    cache_timestamp := 0, double_buffering_enabled := true,
    back_buffer := fun _ => 0, back_buffer_stride := 720 }

/-- The same console with double buffering off and a visible buffer of grey pixels. -/
def console1 : VideoState :=
  { console0 with double_buffering_enabled := false, buffer := fun _ => 0x777777 }

/-- Pixel (i, j) of the 9 x 16 glyph of character ch as the spec describes it: the 16 font
bytes start at offset ch*16; bit 7 of byte i is the leftmost pixel of row i, bit 0 the
eighth, and the ninth pixel is padding; a set pixel has the foreground colour, the others
the background. -/
def glyph_pixel (env : Env) (ch i j fg bg : Nat) : Nat :=
  if j < 8 ∧ (env.ascii_font (((ch * 16 + i : Nat) : Int))).testBit (7 - j) = true then fg
  else bg

/-- A byte that video_put_char draws and that is a 7-bit character: not NUL (which ends a
string), backspace, tab, newline or carriage return. -/
def printable (c : Nat) : Prop :=
  c < 128 ∧ c ≠ 0 ∧ c ≠ 8 ∧ c ≠ 9 ∧ c ≠ 10 ∧ c ≠ 13

/-- State of a double-buffered console while the first line is being written: p is what has
been printed since the cell was (0, 0) with an empty cache and a clear dirty flag; S, W, H
are stride, width and height, CW the number of columns, fg and bg the colours and vis the
visible buffer. -/
structure LineInv (env : Env) (S W H CW fg bg : Nat) (vis : Nat → Nat) (p : List Nat)
    (st : VideoState) : Prop where
  stride_eq : st.stride = S
  width_eq : st.width = W
  height_eq : st.height = H
  fore_eq : st.fore_color = fg
  back_eq : st.back_color = bg
  buffer_eq : st.buffer = vis
  dbe : st.double_buffering_enabled = true
  bbs : st.back_buffer_stride = S
  cw_eq : st.c_width = CW
  cells : 9 * CW ≤ W
  rows : 16 ≤ H
  fits : W ≤ S
  small : S * H < 4294967296
  row_cells : 0 < st.c_height
  cy_eq : st.cy = 0
  len_le : p.length ≤ CW
  wf : cache_wf st
  cached : ∀ k, k < MAX_CACHE_SIZE → (st.glyph_cache k).valid = true →
    ∀ i, i < 16 → ∀ j, j < 9 →
    st.glyph_cache_memory (k * 9 * 16 + i * 9 + j) = bitmap_word env k fg bg i j
  shown : ∀ k, k < p.length → ∀ i, i < 16 → ∀ j, j < 9 →
    st.back_buffer (i * S + (9 * k + j)) = bitmap_word env (p.getD k 0) fg bg i j
  clean : p = [] → st.dirty_region.dirty = false
  dirty : p ≠ [] →
    st.dirty_region = { x1 := 0, y1 := 0, x2 := 9 * p.length, y2 := 16, dirty := true }

/-- A font in which only the glyphs of 'A' and 'B' have pixels: the leftmost pixel of each
row of 'A' (font bytes 0x80) and the second pixel of each row of 'B' (font bytes 0x40). -/
def env1 : Env :=
  { ascii_font := fun k => if k / 16 = 65 then 0x80 else if k / 16 = 66 then 0x40 else 0,
    cpu_support_sse := true, DOUBLE_BUFFERING := true,
    red_mask_shift := 16, green_mask_shift := 8, blue_mask_shift := 0 }

/-- A 720 x 400 framebuffer of 32 bits per pixel with 720 pixels per row, all black. -/
def fb0 : limine_framebuffer :=
  { address := fun _ => 0, width := 720, height := 400, pitch := 2880, bpp := 32 }

/-- What every console state has after video_init on a frame of fewer than 2^32 pixels: the
rows are at least as long as the screen is wide, the word index of a pixel fits uint32_t, and
with double buffering on the back buffer has the stride of the visible buffer. -/
def screen_ok (st : VideoState) : Prop :=
  st.width ≤ st.stride ∧ st.stride * st.height < 4294967296 ∧
  (st.double_buffering_enabled = true → st.back_buffer_stride = st.stride)

/-- A font whose ROM bytes (offsets from 0 up) are all 0xFF, with zero bytes in the memory
below the symbol ascii_font. -/
def env2 : Env :=
  { ascii_font := fun k => if 0 ≤ k then 0xFF else 0, cpu_support_sse := true,
    DOUBLE_BUFFERING := true, red_mask_shift := 16, green_mask_shift := 8,
    blue_mask_shift := 0 }

/-- The console console0 with the dirty flag set on an empty rectangle: x1 = x2. -/
def console_empty_dirty : VideoState :=
  { console0 with dirty_region := { x1 := 5, y1 := 5, x2 := 5, y2 := 9, dirty := true } }

/-- A 720 x 400 console as video_init leaves it when double buffering is not enabled, over a
black screen: back_buffer and back_buffer_stride still have their zero initialisers. -/
def console2 : VideoState :=
  { console0 with double_buffering_enabled := false, back_buffer_stride := 0 }

/-- An 18 x 40 console (2 x 2 cells, 8 pixel rows left over below the last character row)
without double buffering, stride 18. The words from pixel row 32 on, those past the end of
the 720-word frame included, are grey; the rest is black, as is the background. -/
def small0 : VideoState :=
  { width := 18, height := 40, stride := 18,
    buffer := fun t => if 576 ≤ t then 0x777777 else 0,
    x := 2, y := 0, cx := 0, cy := 0, c_width := 2, c_height := 2,
    fore_color := 0xAAAAAA, back_color := 0,
    glyph_cache_memory := fun _ => 0,
    dirty_region := { x1 := 0, y1 := 0, x2 := 0, y2 := 0, dirty := false },
    glyph_cache := fun _ => { valid := false, bitmap := none, timestamp := 0 },
    cache_timestamp := 0, double_buffering_enabled := false,
    back_buffer := fun _ => 0, back_buffer_stride := 0 }

/-- The first half of video_scroll: the cell advance. -/
def cell_advance (st : VideoState) : VideoState :=
  if st.cx ≥ st.c_width then { st with cx := 1, cy := u32 (st.cy + 1) }
  else { st with cx := u32 (st.cx + 1) }

/-- The end of video_scroll after the band is cleared: the row becomes c_height - 1, the
whole screen is marked dirty and the full refresh runs. -/
def scroll_finish (env : Env) (st3 : VideoState) : VideoState :=
  let st4 := { st3 with cy := sub32 st3.c_height 1 }
  let st5 := video_mark_dirty st4 0 0 (u32 st4.width) (u32 st4.height)
  video_refresh env st5

/-- The second half of video_scroll, taken when the advanced cell is below the grid: the
shift by 16 pixel rows, the clear of the bottom band, and the end above. -/
def scroll_up (env : Env) (st1 : VideoState) : Option VideoState :=
  let scroll_height := u32 (sub64 st1.height 16)
  let scroll_size := u32 (u64 (st1.stride * scroll_height * 4))
  let m := memmove (target_buffer st1) 0 (u64 (st1.stride * 16)) (scroll_size / 4)
  let st2 := set_target st1 m
  match video_draw_rect st2 { x := 0, y := scroll_height }
      { x := st2.width, y := st2.height } st2.back_color with
  | none => none
  | some st3 => some (scroll_finish env st3)


/-- A sequence of video_put_char calls, each with its byte and its colour. -/
def put_char_seq (env : Env) : List (Nat × Nat) → VideoState → Option VideoState
  | [], st => some st
  | (c, color) :: rest, st =>
    match video_put_char env st c color with
    | none => none
    | some st1 => put_char_seq env rest st1

/-- What the cell invariant rests on: the column is at most c_width, the cell counts are
positive 32-bit values, the band clear of a scroll returns, and every valid cache entry has its
bitmap. -/
def cell_ok (st : VideoState) : Prop :=
  st.cx ≤ st.c_width ∧ 1 ≤ st.c_width ∧ st.c_width < 4294967296 ∧
  1 ≤ st.c_height ∧ st.c_height < 4294967296 ∧ u32 st.height ≠ 4294967295 ∧ cache_wf st


/-- One drawing call: video_draw_rect(p0, p1, color) or video_draw_char(c, x, y, color). -/
inductive draw_call where
  | rect (p0 p1 : position_t) (color : Nat)
  | char (c x y color : Nat)

/-- Run one drawing call. -/
def run_draw_call (env : Env) (st : VideoState) : draw_call → Option VideoState
  | .rect p0 p1 color => video_draw_rect st p0 p1 color
  | .char c x y color => video_draw_char env st c x y color

/-- Run a sequence of drawing calls, in order. -/
def run_draw_calls (env : Env) : List draw_call → VideoState → Option VideoState
  | [], st => some st
  | d :: ds, st =>
    match run_draw_call env st d with
    | none => none
    | some st1 => run_draw_calls env ds st1

/-- A drawing call inside a W x H screen: a rectangle with ordered corners (inclusive) inside
the screen, or a 9 x 16 glyph cell inside the screen. -/
def call_in_bounds (W H : Nat) : draw_call → Prop
  | .rect p0 p1 _ => p0.x ≤ p1.x ∧ p1.x < W ∧ p0.y ≤ p1.y ∧ p1.y < H
  | .char _ x y _ => x + 9 ≤ W ∧ y + 16 ≤ H

/-- What holds between the state st0 before a sequence of drawing calls and the state st
in the course of it: the geometry is that of st0, a dirty rectangle is clipped to the
screen, and every word of the back buffer that differs from st0 is a pixel of the dirty
rectangle. -/
structure DrawInv (st0 st : VideoState) : Prop where
  ok : screen_ok st
  wf : cache_wf st
  width_eq : st.width = st0.width
  height_eq : st.height = st0.height
  stride_eq : st.stride = st0.stride
  clipped : st.dirty_region.dirty = true →
    st.dirty_region.x2 ≤ st0.width ∧ st.dirty_region.y2 ≤ st0.height
  enclosed : ∀ t, st.back_buffer t ≠ st0.back_buffer t →
    st.dirty_region.dirty = true ∧
    ∃ px py, t = py * st0.stride + px ∧
      st.dirty_region.x1 ≤ px ∧ px < st.dirty_region.x2 ∧
      st.dirty_region.y1 ≤ py ∧ py < st.dirty_region.y2

end Video

namespace Device

theorem poke_same {α : Type} (m : Nat → α) (i : Nat) (v : α) : poke m i v i = v := by
  simp [poke]

theorem poke_other {α : Type} (m : Nat → α) (i k : Nat) (v : α) (h : k ≠ i) :
    poke m i v k = m k := by
  simp [poke, h]

/-- The register loop stops at the first free slot at or after i. -/
theorem device_register_loop_hit (st : DeviceState) (op : dev_op_t) :
    ∀ (n i k : Nat), i ≤ k → k < i + n →
      (st.device_list k).type = dev_type_t.DEV_NULL →
      (∀ j, i ≤ j → j < k → (st.device_list j).type ≠ dev_type_t.DEV_NULL) →
      device_register_loop st op n i
        = ({ st with device_list := poke st.device_list k op }, (k : Int)) := by
  intro n
  induction n with
  | zero => intro i k h1 h2; omega
  | succ n ih =>
    intro i k h1 h2 hk hlt
    by_cases hik : i = k
    · subst hik
      simp [device_register_loop, hk]
    · have hi : (st.device_list i).type ≠ dev_type_t.DEV_NULL :=
        hlt i (Nat.le_refl i) (by omega)
      simp only [device_register_loop, hi, if_false]
      exact ih (i + 1) k (by omega) (by omega) hk (fun j hj1 hj2 => hlt j (by omega) hj2)

/-- The register loop runs off the end when no slot in its range is free. -/
theorem device_register_loop_miss (st : DeviceState) (op : dev_op_t) :
    ∀ (n i : Nat),
      (∀ j, i ≤ j → j < i + n → (st.device_list j).type ≠ dev_type_t.DEV_NULL) →
      device_register_loop st op n i = (st, -1) := by
  intro n
  induction n with
  | zero => intro i _; rfl
  | succ n ih =>
    intro i h
    have hi : (st.device_list i).type ≠ dev_type_t.DEV_NULL := h i (Nat.le_refl i) (by omega)
    simp only [device_register_loop, hi, if_false]
    exact ih (i + 1) (fun j hj1 hj2 => h j (by omega) (by omega))

theorem lt_toNat_of_lt (i : Nat) (m : Int) (h : (i : Int) < m) : i < m.toNat := by
  omega

theorem lt_of_lt_toNat (i : Nat) (m : Int) (h : i < m.toNat) : (i : Int) < m := by
  omega

/-- C1. device_register returns the least index whose slot has type DEV_NULL, stores op
there and leaves every other slot and the capacity as they were; with no such slot below the
capacity it returns -1 and the state is unchanged. -/
theorem device_register_first_free (st : DeviceState) (op : dev_op_t) :
    (∀ i : Nat, (i : Int) < st.device_max →
        (st.device_list i).type = dev_type_t.DEV_NULL →
        (∀ j, j < i → (st.device_list j).type ≠ dev_type_t.DEV_NULL) →
        (device_register st op).2 = (i : Int) ∧
        (device_register st op).1.device_list i = op ∧
        (∀ j, j ≠ i → (device_register st op).1.device_list j = st.device_list j) ∧
        (device_register st op).1.device_max = st.device_max) ∧
    ((∀ i : Nat, (i : Int) < st.device_max →
        (st.device_list i).type ≠ dev_type_t.DEV_NULL) →
      (device_register st op).2 = -1 ∧ (device_register st op).1 = st) := by
  constructor
  · intro i hi hfree hbefore
    have h := device_register_loop_hit st op st.device_max.toNat 0 i (Nat.zero_le i)
      (by have := lt_toNat_of_lt i _ hi; omega) hfree (fun j _ hj => hbefore j hj)
    unfold device_register
    rw [h]
    refine ⟨rfl, poke_same _ _ _, fun j hj => poke_other _ _ _ _ hj, rfl⟩
  · intro hfull
    have h := device_register_loop_miss st op st.device_max.toNat 0
      (fun j _ hj => hfull j (lt_of_lt_toNat j _ (by omega)))
    unfold device_register
    rw [h]
    exact ⟨rfl, rfl⟩


theorem device_register_hit (st : DeviceState) (op : dev_op_t) (i : Nat)
    (hi : (i : Int) < st.device_max)
    (hfree : (st.device_list i).type = dev_type_t.DEV_NULL)
    (hbefore : ∀ j, j < i → (st.device_list j).type ≠ dev_type_t.DEV_NULL) :
    device_register st op = ({ st with device_list := poke st.device_list i op }, (i : Int)) :=
  device_register_loop_hit st op st.device_max.toNat 0 i (Nat.zero_le i)
    (by have := lt_toNat_of_lt i _ hi; omega) hfree (fun j _ hj => hbefore j hj)

theorem device_register_miss (st : DeviceState) (op : dev_op_t)
    (hfull : ∀ i : Nat, (i : Int) < st.device_max →
      (st.device_list i).type ≠ dev_type_t.DEV_NULL) :
    device_register st op = (st, -1) :=
  device_register_loop_miss st op st.device_max.toNat 0
    (fun j _ hj => hfull j (lt_of_lt_toNat j _ (by omega)))

/-- Either some slot below the capacity is free and device_register takes the least such
one, or none is and device_register fails without touching the state. -/
theorem device_register_cases (st : DeviceState) (op : dev_op_t) :
    (∃ k : Nat, (k : Int) < st.device_max ∧
        (st.device_list k).type = dev_type_t.DEV_NULL ∧
        device_register st op
          = ({ st with device_list := poke st.device_list k op }, (k : Int))) ∨
    device_register st op = (st, -1) := by
  classical
  by_cases h : ∃ k : Nat, (k : Int) < st.device_max ∧
      (st.device_list k).type = dev_type_t.DEV_NULL
  · left
    refine ⟨Nat.find h, (Nat.find_spec h).1, (Nat.find_spec h).2, ?_⟩
    apply device_register_hit st op (Nat.find h) (Nat.find_spec h).1 (Nat.find_spec h).2
    intro j hj hnull
    have hjm : (j : Int) < st.device_max := by
      have := (Nat.find_spec h).1
      omega
    exact Nat.find_min h hj ⟨hjm, hnull⟩
  · right
    exact device_register_miss st op (fun i hi hnull => h ⟨i, hi, hnull⟩)

/-- The fill loop of init_device writes the sentinel to the slots i .. i+n-1 and to no other. -/
theorem init_device_loop_spec : ∀ (n i : Nat) (d : Nat → dev_op_t) (j : Nat),
    init_device_loop d n i j = if i ≤ j ∧ j < i + n then dummy else d j := by
  intro n
  induction n with
  | zero =>
    intro i d j
    rw [init_device_loop, if_neg (by omega)]
  | succ n ih =>
    intro i d j
    rw [init_device_loop, ih]
    by_cases h1 : i + 1 ≤ j ∧ j < i + 1 + n
    · rw [if_pos h1, if_pos (by omega)]
    · rw [if_neg h1]
      by_cases h2 : j = i
      · subst h2
        rw [poke_same, if_pos (by omega)]
      · rw [poke_other _ _ _ _ h2, if_neg (by omega)]

/-- A table just initialised with a positive capacity has every slot free. -/
theorem init_device_filled (st0 : DeviceState) (fresh : Nat → dev_op_t) (n : Nat)
    (hn : 1 ≤ n) : filled (init_device st0 fresh (n : Int)) 0 n := by
  have hpos : (n : Int) > 0 := by omega
  refine ⟨by simp [init_device, hpos], fun j hj => absurd hj (Nat.not_lt_zero j), ?_⟩
  intro j _ hj
  simp only [init_device, hpos, if_true, Int.toNat_ofNat]
  rw [init_device_loop_spec, if_pos ⟨Nat.zero_le j, by omega⟩]
  rfl

/-- Registering into a table of shape k with room left takes slot k. -/
theorem filled_register (st : DeviceState) (op : dev_op_t) (k m : Nat)
    (hf : filled st k m) (hk : k < m) :
    device_register st op = ({ st with device_list := poke st.device_list k op }, (k : Int)) :=
  device_register_hit st op k (by rw [hf.1]; exact_mod_cast hk)
    (hf.2.2 k (Nat.le_refl k) hk) hf.2.1

/-- Registering an occupied-type record at slot k moves the shape from k to k+1. -/
theorem filled_step (st : DeviceState) (op : dev_op_t) (k m : Nat)
    (hf : filled st k m) (hop : op.type ≠ dev_type_t.DEV_NULL) :
    filled { st with device_list := poke st.device_list k op } (k + 1) m := by
  refine ⟨hf.1, ?_, ?_⟩
  · intro j hj
    by_cases hjk : j = k
    · subst hjk
      simpa [poke_same] using hop
    · simp only [poke_other _ _ _ _ hjk]
      exact hf.2.1 j (by omega)
  · intro j hj1 hj2
    have hjk : j ≠ k := by omega
    simp only [poke_other _ _ _ _ hjk]
    exact hf.2.2 j (by omega) hj2

/-- A full table rejects every registration. -/
theorem filled_full (st : DeviceState) (op : dev_op_t) (k m : Nat)
    (hf : filled st k m) (hk : m ≤ k) : device_register st op = (st, -1) := by
  apply device_register_miss
  intro i hi
  rw [hf.1] at hi
  exact hf.2.1 i (by omega)

/-- Return values of a run of registrations of occupied-type records from shape k. -/
theorem register_all_filled : ∀ (ops : List dev_op_t) (st : DeviceState) (k m : Nat),
    filled st k m → (∀ op ∈ ops, op.type ≠ dev_type_t.DEV_NULL) →
    (register_all st ops).2
      = (List.range ops.length).map
          (fun t => if k + t < m then Int.ofNat (k + t) else -1) := by
  intro ops
  induction ops with
  | nil => intro st k m _ _; rfl
  | cons op ops ih =>
    intro st k m hf hty
    have hop : op.type ≠ dev_type_t.DEV_NULL := hty op (List.mem_cons_self _ _)
    have hrest : ∀ o ∈ ops, o.type ≠ dev_type_t.DEV_NULL :=
      fun o ho => hty o (List.mem_cons_of_mem _ ho)
    rw [List.length_cons, List.range_succ_eq_map, List.map_cons, List.map_map]
    by_cases hk : k < m
    · have hreg := filled_register st op k m hf hk
      simp only [register_all, hreg]
      rw [ih _ (k + 1) m (filled_step st op k m hf hop) hrest]
      simp only [Nat.add_zero, hk, if_true, Int.ofNat_eq_coe, List.cons.injEq, true_and]
      apply List.map_congr_left
      intro t _
      simp only [Function.comp, Nat.succ_eq_add_one]
      rw [show k + 1 + t = k + (t + 1) by omega]
    · have hreg := filled_full st op k m hf (by omega)
      simp only [register_all, hreg]
      rw [ih st k m hf hrest]
      simp only [Nat.add_zero, hk, if_false, List.cons.injEq, true_and]
      apply List.map_congr_left
      intro t _
      simp only [Function.comp, Nat.succ_eq_add_one]
      rw [if_neg (by omega), if_neg (by omega)]

/-- C2 (as amended). Registering n+1 records, none of type DEV_NULL, into a table just
initialised with capacity n >= 1 returns 0, 1, ..., n-1 and then -1; the first n return values
are pairwise distinct. -/
theorem register_fresh_sequence (st0 : DeviceState) (fresh : Nat → dev_op_t) (n : Nat)
    (ops : List dev_op_t) (hn : 1 ≤ n) (hlen : ops.length = n + 1)
    (hty : ∀ op ∈ ops, op.type ≠ dev_type_t.DEV_NULL) :
    (register_all (init_device st0 fresh (n : Int)) ops).2
        = (List.range n).map Int.ofNat ++ [-1] ∧
    ((register_all (init_device st0 fresh (n : Int)) ops).2.take n).Nodup := by
  have h := register_all_filled ops _ 0 n (init_device_filled st0 fresh n hn) hty
  have hseq : (register_all (init_device st0 fresh (n : Int)) ops).2
      = (List.range n).map Int.ofNat ++ [-1] := by
    rw [h, hlen, List.range_succ, List.map_append]
    congr 1
    · apply List.map_congr_left
      intro t ht
      have : t < n := List.mem_range.mp ht
      simp [this]
    · simp
  refine ⟨hseq, ?_⟩
  rw [hseq, List.take_left' (by simp)]
  exact List.Nodup.map (fun a b hab => Int.ofNat.inj hab) (List.nodup_range n)

/-- Three occupied-type registrations into a capacity-2 table return 0, 1, -1. -/
theorem register_fresh_sequence_witness :
    (register_all (init_device (boot blank) blank ((2 : Nat) : Int)) [tty0, tty0, hda]).2
        = (List.range 2).map Int.ofNat ++ [-1] ∧
    ((register_all (init_device (boot blank) blank ((2 : Nat) : Int))
        [tty0, tty0, hda]).2.take 2).Nodup :=
  register_fresh_sequence (boot blank) blank 2 [tty0, tty0, hda] (by decide) rfl (by decide)

/-- C2 as stated fails: three registrations of a record of type DEV_NULL into a capacity-2
table all return 0. -/
theorem register_null_typed_repeats :
    (register_all (init_device (boot blank) blank 2) [null_typed, null_typed, null_typed]).2
        = [0, 0, 0] ∧
    (register_all (init_device (boot blank) blank 2) [null_typed, null_typed, null_typed]).2
        ≠ (List.range 2).map Int.ofNat ++ [-1] := by
  decide

/-- A registration leaves the capacity alone. -/
theorem device_register_max (st : DeviceState) (op : dev_op_t) :
    (device_register st op).1.device_max = st.device_max := by
  rcases device_register_cases st op with ⟨k, _, _, h⟩ | h <;> rw [h]

/-- A registration leaves every occupied slot alone. -/
theorem device_register_keeps (st : DeviceState) (op : dev_op_t) (i : Nat)
    (hi : (st.device_list i).type ≠ dev_type_t.DEV_NULL) :
    (device_register st op).1.device_list i = st.device_list i := by
  rcases device_register_cases st op with ⟨k, _, hk, h⟩ | h
  · rw [h]
    have hik : i ≠ k := fun e => hi (e ▸ hk)
    exact poke_other _ _ _ _ hik
  · rw [h]

/-- A run of registrations leaves the capacity and every occupied slot alone. -/
theorem register_all_keeps : ∀ (ops : List dev_op_t) (st : DeviceState) (i : Nat),
    (st.device_list i).type ≠ dev_type_t.DEV_NULL →
    (register_all st ops).1.device_list i = st.device_list i ∧
    (register_all st ops).1.device_max = st.device_max := by
  intro ops
  induction ops with
  | nil => intro st i _; exact ⟨rfl, rfl⟩
  | cons op ops ih =>
    intro st i hi
    have hkeep := device_register_keeps st op i hi
    have hnext := ih (device_register st op).1 i (by rw [hkeep]; exact hi)
    simp only [register_all]
    exact ⟨hnext.1.trans hkeep, hnext.2.trans (device_register_max st op)⟩

/-- C3 (as amended). When device_register(op) returns i >= 0, device_find_number(i) returns
op; when moreover op is not of type DEV_NULL it still returns op after any further run of
device_register calls. -/
theorem registered_slot_stable (st : DeviceState) (op : dev_op_t) (ops : List dev_op_t)
    (i : Int) (hret : (device_register st op).2 = i) (hi : 0 ≤ i) :
    device_find_number (device_register st op).1 i = op ∧
    (op.type ≠ dev_type_t.DEV_NULL →
      device_find_number (register_all (device_register st op).1 ops).1 i = op) := by
  rcases device_register_cases st op with ⟨k, hk, _, h⟩ | h
  · rw [h] at hret ⊢
    simp only at hret
    subst hret
    have hslot : poke st.device_list k op k = op := poke_same _ _ _
    constructor
    · simp [device_find_number, hk, hslot]
    · intro hop
      have hkeep := register_all_keeps ops
        { st with device_list := poke st.device_list k op } k
        (by show (poke st.device_list k op k).type ≠ _; rw [hslot]; exact hop)
      simp only [device_find_number, hkeep.2, hk, hi, ge_iff_le, and_self, if_true,
        Int.toNat_ofNat]
      rw [hkeep.1]
      exact hslot
  · rw [h] at hret
    simp only at hret
    omega

/-- A registration into a fresh capacity-2 table returns slot 0, which keeps the record
through two further registrations. -/
theorem registered_slot_stable_witness :
    device_find_number (device_register (init_device (boot blank) blank 2) tty0).1 0 = tty0 ∧
    (tty0.type ≠ dev_type_t.DEV_NULL →
      device_find_number
        (register_all (device_register (init_device (boot blank) blank 2) tty0).1
          [hda, null_typed]).1 0 = tty0) :=
  registered_slot_stable (init_device (boot blank) blank 2) tty0 [hda, null_typed] 0
    (by decide) (by decide)

/-- C3 as stated fails: a record of type DEV_NULL is registered at slot 0 of a fresh
capacity-2 table and the next registration takes the same slot. -/
theorem null_typed_slot_overwritten :
    (device_register (init_device (boot blank) blank 2) null_typed).2 = 0 ∧
    device_find_number
      (register_all (device_register (init_device (boot blank) blank 2) null_typed).1
        [tty0]).1 0 = tty0 ∧
    tty0 ≠ null_typed := by
  decide

/-- The name loop stops at the first slot at or after i whose name compares equal. -/
theorem device_find_name_loop_hit (st : DeviceState) (name : List Nat) :
    ∀ (n i k : Nat), i ≤ k → k < i + n →
      strncmp (st.device_list k).name name 8 = 0 →
      (∀ j, i ≤ j → j < k → strncmp (st.device_list j).name name 8 ≠ 0) →
      device_find_name_loop st name n i = st.device_list k := by
  intro n
  induction n with
  | zero => intro i k h1 h2; omega
  | succ n ih =>
    intro i k h1 h2 hk hlt
    by_cases hik : i = k
    · subst hik
      simp [device_find_name_loop, hk]
    · have hi := hlt i (Nat.le_refl i) (by omega)
      simp only [device_find_name_loop, hi, if_false]
      exact ih (i + 1) k (by omega) (by omega) hk (fun j hj1 hj2 => hlt j (by omega) hj2)

/-- The name loop returns the sentinel when no name in its range compares equal. -/
theorem device_find_name_loop_miss (st : DeviceState) (name : List Nat) :
    ∀ (n i : Nat),
      (∀ j, i ≤ j → j < i + n → strncmp (st.device_list j).name name 8 ≠ 0) →
      device_find_name_loop st name n i = dummy := by
  intro n
  induction n with
  | zero => intro i _; rfl
  | succ n ih =>
    intro i h
    have hi := h i (Nat.le_refl i) (by omega)
    simp only [device_find_name_loop, hi, if_false]
    exact ih (i + 1) (fun j hj1 hj2 => h j (by omega) (by omega))

/-- The type loop stops at the first slot at or after i of the wanted type. -/
theorem device_find_type_loop_hit (st : DeviceState) (type : dev_type_t) :
    ∀ (n i k : Nat), i ≤ k → k < i + n →
      (st.device_list k).type = type →
      (∀ j, i ≤ j → j < k → (st.device_list j).type ≠ type) →
      device_find_type_loop st type n i = st.device_list k := by
  intro n
  induction n with
  | zero => intro i k h1 h2; omega
  | succ n ih =>
    intro i k h1 h2 hk hlt
    by_cases hik : i = k
    · subst hik
      simp [device_find_type_loop, hk]
    · have hi := hlt i (Nat.le_refl i) (by omega)
      simp only [device_find_type_loop, hi, if_false]
      exact ih (i + 1) k (by omega) (by omega) hk (fun j hj1 hj2 => hlt j (by omega) hj2)

/-- The type loop returns the sentinel when no slot in its range has the wanted type. -/
theorem device_find_type_loop_miss (st : DeviceState) (type : dev_type_t) :
    ∀ (n i : Nat),
      (∀ j, i ≤ j → j < i + n → (st.device_list j).type ≠ type) →
      device_find_type_loop st type n i = dummy := by
  intro n
  induction n with
  | zero => intro i _; rfl
  | succ n ih =>
    intro i h
    have hi := h i (Nat.le_refl i) (by omega)
    simp only [device_find_type_loop, hi, if_false]
    exact ih (i + 1) (fun j hj1 hj2 => h j (by omega) (by omega))

/-- The model of strncmp returns 0 exactly when the two strings agree on their first n
bytes, each string ending at its first NUL. -/
theorem strncmp_eq_zero_iff : ∀ (n : Nat) (s1 s2 : List Nat),
    strncmp s1 s2 n = 0 ↔ cstr_prefix n s1 = cstr_prefix n s2 := by
  intro n
  induction n with
  | zero => intro s1 s2; simp [strncmp, cstr_prefix]
  | succ n ih =>
    intro s1 s2
    have ih2 := ih s1.tail s2.tail
    unfold cstr_prefix at ih2 ⊢
    rw [strncmp]
    cases s1 with
    | nil =>
      cases s2 with
      | nil => simp
      | cons b t2 =>
        by_cases hb : b = 0
        · subst hb; simp
        · have hb2 : (0 : Nat) ≠ b := fun e => hb e.symm
          simp [hb, hb2, List.takeWhile_cons]
    | cons a t1 =>
      cases s2 with
      | nil =>
        by_cases ha : a = 0
        · subst ha; simp
        · simp [ha, List.takeWhile_cons]
      | cons b t2 =>
        simp only [List.headD_cons, List.tail_cons] at ih2 ⊢
        by_cases hab : a = b
        · subst hab
          by_cases ha : a = 0
          · subst ha; simp
          · simp [ha, List.takeWhile_cons, ih2]
        · by_cases ha : a = 0
          · subst ha
            have hb : b ≠ 0 := fun e => hab e.symm
            simp [hab, hb, List.takeWhile_cons]
          · by_cases hb : b = 0
            · subst hb
              simp [ha, List.takeWhile_cons]
            · simp [hab, ha, hb, List.takeWhile_cons]
              omega

/-- Registration into a table of shape k with room left, seen from outside: the return
value, the written slot, the untouched slots and the capacity. -/
theorem filled_register_out (st : DeviceState) (op : dev_op_t) (k m : Nat)
    (hf : filled st k m) (hk : k < m) :
    (device_register st op).2 = (k : Int) ∧
    (device_register st op).1.device_list k = op ∧
    (∀ j, j ≠ k → (device_register st op).1.device_list j = st.device_list j) ∧
    (device_register st op).1.device_max = (m : Int) ∧
    (op.type ≠ dev_type_t.DEV_NULL → filled (device_register st op).1 (k + 1) m) := by
  rw [filled_register st op k m hf hk]
  exact ⟨rfl, poke_same _ _ _, fun j hj => poke_other _ _ _ _ hj, hf.1,
    fun hop => filled_step st op k m hf hop⟩

theorem device_find_name_hit (st : DeviceState) (name : List Nat) (i : Nat)
    (hi : (i : Int) < st.device_max)
    (hmatch : strncmp (st.device_list i).name name 8 = 0)
    (hbefore : ∀ j, j < i → strncmp (st.device_list j).name name 8 ≠ 0) :
    device_find_name st name = st.device_list i :=
  device_find_name_loop_hit st name st.device_max.toNat 0 i (Nat.zero_le i)
    (by have := lt_toNat_of_lt i _ hi; omega) hmatch (fun j _ hj => hbefore j hj)

theorem device_find_type_hit (st : DeviceState) (type : dev_type_t) (i : Nat)
    (hi : (i : Int) < st.device_max)
    (hmatch : (st.device_list i).type = type)
    (hbefore : ∀ j, j < i → (st.device_list j).type ≠ type) :
    device_find_type st type = st.device_list i :=
  device_find_type_loop_hit st type st.device_max.toNat 0 i (Nat.zero_le i)
    (by have := lt_toNat_of_lt i _ hi; omega) hmatch (fun j _ hj => hbefore j hj)

/-- A record named "tty0" registered into an all-free table is found under that name. -/
theorem find_name_after_register (s : DeviceState) (n : Nat) (op : dev_op_t)
    (hf : filled s 0 n) (hn : 1 ≤ n) (hname : op.name = [116, 116, 121, 48, 0, 0, 0, 0]) :
    device_find_name (device_register s op).1 [116, 116, 121, 48] = op := by
  obtain ⟨_, hslot, _, hmax, _⟩ := filled_register_out s op 0 n hf (by omega)
  rw [device_find_name_hit _ _ 0 (by rw [hmax]; exact_mod_cast hn)
    (by rw [hslot, hname]; decide) (fun j hj => absurd hj (by omega))]
  exact hslot

/-- After CHAR, CHAR, BLOCK are registered into an all-free table of capacity at least 3,
the lookup of BLOCK returns the third record. -/
theorem find_type_after_three (s : DeviceState) (n : Nat) (a b c : dev_op_t)
    (hf0 : filled s 0 n) (hn : 3 ≤ n) (ha : a.type = dev_type_t.DEV_CHAR)
    (hb : b.type = dev_type_t.DEV_CHAR) (hc : c.type = dev_type_t.DEV_BLOCK) :
    device_find_type (register_all s [a, b, c]).1 dev_type_t.DEV_BLOCK = c := by
  have hanz : a.type ≠ dev_type_t.DEV_NULL := by rw [ha]; decide
  have hbnz : b.type ≠ dev_type_t.DEV_NULL := by rw [hb]; decide
  obtain ⟨_, ha0, _, _, hf1⟩ := filled_register_out s a 0 n hf0 (by omega)
  obtain ⟨_, hb1, hb', _, hf2⟩ :=
    filled_register_out (device_register s a).1 b 1 n (hf1 hanz) (by omega)
  obtain ⟨_, hc2, hc', hmax, _⟩ :=
    filled_register_out (device_register (device_register s a).1 b).1 c 2 n (hf2 hbnz)
      (by omega)
  show device_find_type
    (device_register (device_register (device_register s a).1 b).1 c).1 _ = c
  rw [device_find_type_hit _ _ 2 (by rw [hmax]; exact_mod_cast hn) (by rw [hc2]; exact hc)]
  · exact hc2
  · intro j hj
    have hj01 : j = 0 ∨ j = 1 := by omega
    rcases hj01 with h | h <;> subst h
    · rw [hc' 0 (by decide), hb' 0 (by decide), ha0, ha]
      decide
    · rw [hc' 1 (by decide), hb1, hb]
      decide

/-- C4. device_find_name returns the record of the lowest-index slot whose stored name
agrees with the argument on the first 8 bytes (each string ending at its first NUL), and
the sentinel (type DEV_NULL, name "null", null read and write) when no slot below the
capacity does; a CHAR device named "tty0" registered into a fresh table is found under
"tty0". -/
theorem device_find_name_first_match (st : DeviceState) (name : List Nat) :
    (∀ i : Nat, (i : Int) < st.device_max →
        cstr_prefix 8 (st.device_list i).name = cstr_prefix 8 name →
        (∀ j, j < i → cstr_prefix 8 (st.device_list j).name ≠ cstr_prefix 8 name) →
        device_find_name st name = st.device_list i) ∧
    ((∀ i : Nat, (i : Int) < st.device_max →
        cstr_prefix 8 (st.device_list i).name ≠ cstr_prefix 8 name) →
      device_find_name st name = dummy ∧ dummy.type = dev_type_t.DEV_NULL ∧
      dummy.name = [110, 117, 108, 108, 0, 0, 0, 0] ∧ dummy.read = none ∧
      dummy.write = none) ∧
    (∀ (fresh : Nat → dev_op_t) (n : Nat) (op : dev_op_t), 1 ≤ n →
      op.type = dev_type_t.DEV_CHAR → op.name = [116, 116, 121, 48, 0, 0, 0, 0] →
      device_find_name (device_register (init_device st fresh (n : Int)) op).1
        [116, 116, 121, 48] = op) := by
  refine ⟨?_, ?_, ?_⟩
  · intro i hi hmatch hbefore
    exact device_find_name_loop_hit st name st.device_max.toNat 0 i (Nat.zero_le i)
      (by have := lt_toNat_of_lt i _ hi; omega)
      ((strncmp_eq_zero_iff 8 _ _).mpr hmatch)
      (fun j _ hj h0 => hbefore j hj ((strncmp_eq_zero_iff 8 _ _).mp h0))
  · intro hnone
    refine ⟨?_, rfl, rfl, rfl, rfl⟩
    exact device_find_name_loop_miss st name st.device_max.toNat 0
      (fun j _ hj h0 => hnone j (lt_of_lt_toNat j _ (by omega))
        ((strncmp_eq_zero_iff 8 _ _).mp h0))
  · intro fresh n op hn _ hname
    exact find_name_after_register _ n op (init_device_filled st fresh n hn) hn hname

/-- C5. device_find_type returns the record of the lowest-index slot of the wanted type,
and the sentinel when no slot below the capacity has it; after registering devices of
types CHAR, CHAR, BLOCK into a fresh table, looking up BLOCK returns the third. -/
theorem device_find_type_first_match (st : DeviceState) (type : dev_type_t) :
    (∀ i : Nat, (i : Int) < st.device_max →
        (st.device_list i).type = type →
        (∀ j, j < i → (st.device_list j).type ≠ type) →
        device_find_type st type = st.device_list i) ∧
    ((∀ i : Nat, (i : Int) < st.device_max → (st.device_list i).type ≠ type) →
      device_find_type st type = dummy) ∧
    (∀ (fresh : Nat → dev_op_t) (n : Nat) (a b c : dev_op_t), 3 ≤ n →
      a.type = dev_type_t.DEV_CHAR → b.type = dev_type_t.DEV_CHAR →
      c.type = dev_type_t.DEV_BLOCK →
      device_find_type (register_all (init_device st fresh (n : Int)) [a, b, c]).1
        dev_type_t.DEV_BLOCK = c) := by
  refine ⟨?_, ?_, ?_⟩
  · intro i hi hmatch hbefore
    exact device_find_type_loop_hit st type st.device_max.toNat 0 i (Nat.zero_le i)
      (by have := lt_toNat_of_lt i _ hi; omega) hmatch (fun j _ hj => hbefore j hj)
  · intro hnone
    exact device_find_type_loop_miss st type st.device_max.toNat 0
      (fun j _ hj => hnone j (lt_of_lt_toNat j _ (by omega)))
  · intro fresh n a b c hn ha hb hc
    exact find_type_after_three _ n a b c (init_device_filled st fresh n (by omega)) hn ha hb hc

end Device

namespace Video

theorem poke_at (m : Nat → Nat) (i v : Nat) : poke m i v i = v := by
  simp [poke]

theorem poke_off (m : Nat → Nat) (i k v : Nat) (h : k ≠ i) : poke m i v k = m k := by
  simp [poke, h]

/-- The scalar copy writes the words d+k .. d+k+n-1 from the matching words of src. -/
theorem copy_words_apply (src : Nat → Nat) (s d : Nat) :
    ∀ (n k : Nat) (dst : Nat → Nat) (t : Nat),
      copy_words src s d n k dst t
        = if d + k ≤ t ∧ t < d + k + n then src (s + (t - d)) else dst t := by
  intro n
  induction n with
  | zero =>
    intro k dst t
    rw [copy_words, if_neg (by omega)]
  | succ n ih =>
    intro k dst t
    rw [copy_words, ih]
    by_cases h1 : d + (k + 1) ≤ t ∧ t < d + (k + 1) + n
    · rw [if_pos h1, if_pos (by omega)]
    · rw [if_neg h1]
      by_cases h2 : t = d + k
      · subst h2
        rw [poke_at, if_pos (by omega)]
        congr 1
        omega
      · rw [poke_off _ _ _ _ h2, if_neg (by omega)]

/-- A movdqu pair is a copy of 4 words. -/
theorem movdqu_eq_copy (src : Nat → Nat) (s d : Nat) (dst : Nat → Nat) :
    movdqu src s d dst = copy_words src s d 4 0 dst := by
  funext t
  rw [copy_words_apply]
  simp only [movdqu, Nat.add_zero]

/-- The SSE column loop of the glyph copy moves the same 9 words as the scalar loop. -/
theorem draw_cols_sse_eq_copy (src : Nat → Nat) (s d : Nat) (dst : Nat → Nat) :
    draw_cols_sse src s d 3 0 dst = copy_words src s d 9 0 dst := by
  have h : draw_cols_sse src s d 3 0 dst
      = copy_words src (s + 8) (d + 8) 1 0
          (movdqu src (s + 4) (d + 4) (movdqu src (s + 0) (d + 0) dst)) := rfl
  rw [h]
  funext t
  rw [copy_words_apply, copy_words_apply]
  simp only [movdqu]
  split_ifs <;> first | rfl | omega | (congr 1; omega)

/-- The SSE block copy moves the same words as the scalar loop, whatever the bound on its
block iterations. -/
theorem copy_sse_eq_copy (src : Nat → Nat) :
    ∀ (fuel s d remaining : Nat) (dst : Nat → Nat),
      copy_sse src fuel s d remaining dst = copy_words src s d remaining 0 dst := by
  intro fuel
  induction fuel with
  | zero => intro s d remaining dst; rfl
  | succ fuel ih =>
    intro s d remaining dst
    rw [copy_sse]
    by_cases h : remaining ≥ 4
    · rw [if_pos h, ih]
      funext t
      simp only [copy_words_apply, movdqu]
      split_ifs <;> first | rfl | omega | (congr 1; omega)
    · rw [if_neg h]

/-- The fill loop writes v to the words i .. i+n-1. -/
theorem fill_words_apply (v : Nat) :
    ∀ (n i : Nat) (m : Nat → Nat) (t : Nat),
      fill_words v n i m t = if i ≤ t ∧ t < i + n then v else m t := by
  intro n
  induction n with
  | zero =>
    intro i m t
    rw [fill_words, if_neg (by omega)]
  | succ n ih =>
    intro i m t
    rw [fill_words, ih]
    by_cases h1 : i + 1 ≤ t ∧ t < i + 1 + n
    · rw [if_pos h1, if_pos (by omega)]
    · rw [if_neg h1]
      by_cases h2 : t = i
      · subst h2
        rw [poke_at, if_pos (by omega)]
      · rw [poke_off _ _ _ _ h2, if_neg (by omega)]

/-- One row of the glyph copy moves 9 words, with or without SSE. -/
theorem draw_row_eq (sse : Bool) (src : Nat → Nat) (s d : Nat) (dst : Nat → Nat) :
    (if sse then draw_cols_sse src s d 3 0 dst else copy_words src s d 9 0 dst)
      = copy_words src s d 9 0 dst := by
  cases sse
  · rfl
  · exact draw_cols_sse_eq_copy src s d dst

/-- The glyph copy leaves alone every word outside its n rows of 9. -/
theorem draw_rows_miss (sse : Bool) (src : Nat → Nat) (ts : Nat) :
    ∀ (n s d : Nat) (dst : Nat → Nat) (t : Nat),
      (∀ i, i < n → ∀ j, j < 9 → t ≠ d + i * ts + j) →
      draw_rows sse src ts n s d dst t = dst t := by
  intro n
  induction n with
  | zero => intro s d dst t _; rfl
  | succ n ih =>
    intro s d dst t h
    rw [draw_rows, draw_row_eq, ih]
    · rw [copy_words_apply, if_neg]
      intro hc
      exact h 0 (Nat.succ_pos n) (t - d) (by omega) (by omega)
    · intro i hi j hj
      have := h (i + 1) (by omega) j hj
      rw [Nat.add_mul] at this
      omega

/-- The glyph copy puts word i*9+j of the bitmap at row i, column j of the cell, when the
rows of the target are at least 9 words apart. -/
theorem draw_rows_hit (sse : Bool) (src : Nat → Nat) (ts : Nat) (hts : 9 ≤ ts) :
    ∀ (n s d : Nat) (dst : Nat → Nat) (i j : Nat), i < n → j < 9 →
      draw_rows sse src ts n s d dst (d + i * ts + j) = src (s + i * 9 + j) := by
  intro n
  induction n with
  | zero => intro s d dst i j hi; omega
  | succ n ih =>
    intro s d dst i j hi hj
    rw [draw_rows, draw_row_eq]
    cases i with
    | zero =>
      rw [draw_rows_miss]
      · rw [copy_words_apply, if_pos (by omega)]
        congr 1
        omega
      · intro i _ j2 hj2
        have : i * ts + ts = (i + 1) * ts := by rw [Nat.add_mul, Nat.one_mul]
        have hle : ts ≤ (i + 1) * ts := Nat.le_mul_of_pos_left ts (Nat.succ_pos i)
        omega
    | succ i =>
      have h := ih (s + 9) (d + ts) (copy_words src s d 9 0 dst) i j (by omega) hj
      have e1 : d + (i + 1) * ts + j = d + ts + i * ts + j := by
        rw [Nat.add_mul, Nat.one_mul]; omega
      have e2 : s + (i + 1) * 9 + j = s + 9 + i * 9 + j := by omega
      rw [e1, e2]
      exact h

/-- The column loop of the pre-render writes the words j .. j+n-1 of row i. -/
theorem render_cols_apply (fb color back base i : Nat) :
    ∀ (n j : Nat) (m : Nat → Nat) (t : Nat),
      render_cols fb color back base i n j m t
        = if base + (i * 9 + j) ≤ t ∧ t < base + (i * 9 + j) + n then
            glyph_word fb color back (t - (base + i * 9))
          else m t := by
  intro n
  induction n with
  | zero =>
    intro j m t
    rw [render_cols, if_neg (by omega)]
  | succ n ih =>
    intro j m t
    rw [render_cols, ih]
    by_cases h1 : base + (i * 9 + (j + 1)) ≤ t ∧ t < base + (i * 9 + (j + 1)) + n
    · have h3 : base + (i * 9 + j) ≤ t ∧ t < base + (i * 9 + j) + (n + 1) := by omega
      rw [if_pos h1, if_pos h3]
    · rw [if_neg h1]
      by_cases h2 : t = base + (i * 9 + j)
      · subst h2
        have h3 : base + (i * 9 + j) ≤ base + (i * 9 + j) ∧
            base + (i * 9 + j) < base + (i * 9 + j) + (n + 1) := by omega
        have h4 : base + (i * 9 + j) - (base + i * 9) = j := by omega
        rw [poke_at, if_pos h3, h4]
        rfl
      · have h3 : ¬(base + (i * 9 + j) ≤ t ∧ t < base + (i * 9 + j) + (n + 1)) := by omega
        rw [poke_off _ _ _ _ h2, if_neg h3]

/-- The pre-render leaves alone every word outside the rows it writes. -/
theorem render_rows_miss (env : Env) (c color back base : Nat) :
    ∀ (n i0 : Nat) (m : Nat → Nat) (t : Nat),
      (t < base + i0 * 9 ∨ base + (i0 + n) * 9 ≤ t) →
      render_rows env c color back base n i0 m t = m t := by
  intro n
  induction n with
  | zero => intro i0 m t _; rfl
  | succ n ih =>
    intro i0 m t h
    rw [render_rows, ih _ _ _ (by omega), render_cols_apply, if_neg (by omega)]

/-- The pre-render writes bitmap word (i, j) at offset i*9+j from the base. -/
theorem render_rows_hit (env : Env) (c color back base : Nat) :
    ∀ (n i0 : Nat) (m : Nat → Nat) (i j : Nat), i0 ≤ i → i < i0 + n → j < 9 →
      render_rows env c color back base n i0 m (base + (i * 9 + j))
        = bitmap_word env c color back i j := by
  intro n
  induction n with
  | zero => intro i0 m i j h1 h2; omega
  | succ n ih =>
    intro i0 m i j h1 h2 hj
    rw [render_rows]
    by_cases hi : i = i0
    · subst hi
      rw [render_rows_miss _ _ _ _ _ _ _ _ _ (by omega), render_cols_apply,
        if_pos (by omega)]
      have : base + (i * 9 + j) - (base + i * 9) = j := by omega
      rw [this]
      rfl
    · exact ih (i0 + 1) _ i j (by omega) (by omega) hj

@[simp] theorem mark_dirty_width (st : VideoState) (x y w h : Nat) :
    (video_mark_dirty st x y w h).width = st.width := rfl

@[simp] theorem mark_dirty_height (st : VideoState) (x y w h : Nat) :
    (video_mark_dirty st x y w h).height = st.height := rfl

@[simp] theorem mark_dirty_stride (st : VideoState) (x y w h : Nat) :
    (video_mark_dirty st x y w h).stride = st.stride := rfl

@[simp] theorem mark_dirty_buffer (st : VideoState) (x y w h : Nat) :
    (video_mark_dirty st x y w h).buffer = st.buffer := rfl

@[simp] theorem mark_dirty_x (st : VideoState) (x y w h : Nat) :
    (video_mark_dirty st x y w h).x = st.x := rfl

@[simp] theorem mark_dirty_y (st : VideoState) (x y w h : Nat) :
    (video_mark_dirty st x y w h).y = st.y := rfl

@[simp] theorem mark_dirty_cx (st : VideoState) (x y w h : Nat) :
    (video_mark_dirty st x y w h).cx = st.cx := rfl

@[simp] theorem mark_dirty_cy (st : VideoState) (x y w h : Nat) :
    (video_mark_dirty st x y w h).cy = st.cy := rfl

@[simp] theorem mark_dirty_c_width (st : VideoState) (x y w h : Nat) :
    (video_mark_dirty st x y w h).c_width = st.c_width := rfl

@[simp] theorem mark_dirty_c_height (st : VideoState) (x y w h : Nat) :
    (video_mark_dirty st x y w h).c_height = st.c_height := rfl

@[simp] theorem mark_dirty_fore_color (st : VideoState) (x y w h : Nat) :
    (video_mark_dirty st x y w h).fore_color = st.fore_color := rfl

@[simp] theorem mark_dirty_back_color (st : VideoState) (x y w h : Nat) :
    (video_mark_dirty st x y w h).back_color = st.back_color := rfl

@[simp] theorem mark_dirty_glyph_cache_memory (st : VideoState) (x y w h : Nat) :
    (video_mark_dirty st x y w h).glyph_cache_memory = st.glyph_cache_memory := rfl

@[simp] theorem mark_dirty_glyph_cache (st : VideoState) (x y w h : Nat) :
    (video_mark_dirty st x y w h).glyph_cache = st.glyph_cache := rfl

@[simp] theorem mark_dirty_cache_timestamp (st : VideoState) (x y w h : Nat) :
    (video_mark_dirty st x y w h).cache_timestamp = st.cache_timestamp := rfl

@[simp] theorem mark_dirty_double_buffering_enabled (st : VideoState) (x y w h : Nat) :
    (video_mark_dirty st x y w h).double_buffering_enabled = st.double_buffering_enabled := rfl

@[simp] theorem mark_dirty_back_buffer (st : VideoState) (x y w h : Nat) :
    (video_mark_dirty st x y w h).back_buffer = st.back_buffer := rfl

@[simp] theorem mark_dirty_back_buffer_stride (st : VideoState) (x y w h : Nat) :
    (video_mark_dirty st x y w h).back_buffer_stride = st.back_buffer_stride := rfl

@[simp] theorem set_target_width (st : VideoState) (m : Nat → Nat) :
    (set_target st m).width = st.width := by
  unfold set_target; split <;> rfl

@[simp] theorem set_target_height (st : VideoState) (m : Nat → Nat) :
    (set_target st m).height = st.height := by
  unfold set_target; split <;> rfl

@[simp] theorem set_target_stride (st : VideoState) (m : Nat → Nat) :
    (set_target st m).stride = st.stride := by
  unfold set_target; split <;> rfl

@[simp] theorem set_target_x (st : VideoState) (m : Nat → Nat) :
    (set_target st m).x = st.x := by
  unfold set_target; split <;> rfl

@[simp] theorem set_target_y (st : VideoState) (m : Nat → Nat) :
    (set_target st m).y = st.y := by
  unfold set_target; split <;> rfl

@[simp] theorem set_target_cx (st : VideoState) (m : Nat → Nat) :
    (set_target st m).cx = st.cx := by
  unfold set_target; split <;> rfl

@[simp] theorem set_target_cy (st : VideoState) (m : Nat → Nat) :
    (set_target st m).cy = st.cy := by
  unfold set_target; split <;> rfl

@[simp] theorem set_target_c_width (st : VideoState) (m : Nat → Nat) :
    (set_target st m).c_width = st.c_width := by
  unfold set_target; split <;> rfl

@[simp] theorem set_target_c_height (st : VideoState) (m : Nat → Nat) :
    (set_target st m).c_height = st.c_height := by
  unfold set_target; split <;> rfl

@[simp] theorem set_target_fore_color (st : VideoState) (m : Nat → Nat) :
    (set_target st m).fore_color = st.fore_color := by
  unfold set_target; split <;> rfl

@[simp] theorem set_target_back_color (st : VideoState) (m : Nat → Nat) :
    (set_target st m).back_color = st.back_color := by
  unfold set_target; split <;> rfl

@[simp] theorem set_target_glyph_cache_memory (st : VideoState) (m : Nat → Nat) :
    (set_target st m).glyph_cache_memory = st.glyph_cache_memory := by
  unfold set_target; split <;> rfl

@[simp] theorem set_target_dirty_region (st : VideoState) (m : Nat → Nat) :
    (set_target st m).dirty_region = st.dirty_region := by
  unfold set_target; split <;> rfl

@[simp] theorem set_target_glyph_cache (st : VideoState) (m : Nat → Nat) :
    (set_target st m).glyph_cache = st.glyph_cache := by
  unfold set_target; split <;> rfl

@[simp] theorem set_target_cache_timestamp (st : VideoState) (m : Nat → Nat) :
    (set_target st m).cache_timestamp = st.cache_timestamp := by
  unfold set_target; split <;> rfl

@[simp] theorem set_target_double_buffering_enabled (st : VideoState) (m : Nat → Nat) :
    (set_target st m).double_buffering_enabled = st.double_buffering_enabled := by
  unfold set_target; split <;> rfl

@[simp] theorem set_target_back_buffer_stride (st : VideoState) (m : Nat → Nat) :
    (set_target st m).back_buffer_stride = st.back_buffer_stride := by
  unfold set_target; split <;> rfl

/-- The fetch of a glyph whose entry is valid only stamps the entry. -/
theorem get_glyph_hit (env : Env) (st : VideoState) (c color : Nat)
    (h : (st.glyph_cache (c % 256)).valid = true) :
    video_get_glyph_cache env st c color
      = ({ st with
            cache_timestamp := u32 (st.cache_timestamp + 1),
            glyph_cache := fun k =>
              if k = c % 256 then
                { valid := (st.glyph_cache (c % 256)).valid,
                  bitmap := (st.glyph_cache (c % 256)).bitmap,
                  timestamp := u32 (st.cache_timestamp + 1) }
              else st.glyph_cache k }, c % 256) := by
  simp only [video_get_glyph_cache, h, if_true]

/-- The fetch of a glyph whose entry is not valid renders it into the slice of the entry. -/
theorem get_glyph_miss (env : Env) (st : VideoState) (c color : Nat)
    (h : ¬ (st.glyph_cache (c % 256)).valid = true) :
    video_get_glyph_cache env st c color
      = ({ st with
            glyph_cache_memory :=
              render_rows env c color st.back_color (c % 256 * 9 * 16) 16 0
                st.glyph_cache_memory,
            cache_timestamp := u32 (st.cache_timestamp + 1),
            glyph_cache := fun k =>
              if k = c % 256 then
                { valid := true, bitmap := some (c % 256 * 9 * 16),
                  timestamp := u32 (st.cache_timestamp + 1) }
              else st.glyph_cache k }, c % 256) := by
  simp only [video_get_glyph_cache, h, Bool.false_eq_true, if_false]

@[simp] theorem get_glyph_width (env : Env) (st : VideoState) (c color : Nat) :
    (video_get_glyph_cache env st c color).1.width = st.width := by
  by_cases h : (st.glyph_cache (c % 256)).valid = true
  · rw [get_glyph_hit env st c color h]
  · rw [get_glyph_miss env st c color h]

@[simp] theorem get_glyph_height (env : Env) (st : VideoState) (c color : Nat) :
    (video_get_glyph_cache env st c color).1.height = st.height := by
  by_cases h : (st.glyph_cache (c % 256)).valid = true
  · rw [get_glyph_hit env st c color h]
  · rw [get_glyph_miss env st c color h]

@[simp] theorem get_glyph_stride (env : Env) (st : VideoState) (c color : Nat) :
    (video_get_glyph_cache env st c color).1.stride = st.stride := by
  by_cases h : (st.glyph_cache (c % 256)).valid = true
  · rw [get_glyph_hit env st c color h]
  · rw [get_glyph_miss env st c color h]

@[simp] theorem get_glyph_buffer (env : Env) (st : VideoState) (c color : Nat) :
    (video_get_glyph_cache env st c color).1.buffer = st.buffer := by
  by_cases h : (st.glyph_cache (c % 256)).valid = true
  · rw [get_glyph_hit env st c color h]
  · rw [get_glyph_miss env st c color h]

@[simp] theorem get_glyph_x (env : Env) (st : VideoState) (c color : Nat) :
    (video_get_glyph_cache env st c color).1.x = st.x := by
  by_cases h : (st.glyph_cache (c % 256)).valid = true
  · rw [get_glyph_hit env st c color h]
  · rw [get_glyph_miss env st c color h]

@[simp] theorem get_glyph_y (env : Env) (st : VideoState) (c color : Nat) :
    (video_get_glyph_cache env st c color).1.y = st.y := by
  by_cases h : (st.glyph_cache (c % 256)).valid = true
  · rw [get_glyph_hit env st c color h]
  · rw [get_glyph_miss env st c color h]

@[simp] theorem get_glyph_cx (env : Env) (st : VideoState) (c color : Nat) :
    (video_get_glyph_cache env st c color).1.cx = st.cx := by
  by_cases h : (st.glyph_cache (c % 256)).valid = true
  · rw [get_glyph_hit env st c color h]
  · rw [get_glyph_miss env st c color h]

@[simp] theorem get_glyph_cy (env : Env) (st : VideoState) (c color : Nat) :
    (video_get_glyph_cache env st c color).1.cy = st.cy := by
  by_cases h : (st.glyph_cache (c % 256)).valid = true
  · rw [get_glyph_hit env st c color h]
  · rw [get_glyph_miss env st c color h]

@[simp] theorem get_glyph_c_width (env : Env) (st : VideoState) (c color : Nat) :
    (video_get_glyph_cache env st c color).1.c_width = st.c_width := by
  by_cases h : (st.glyph_cache (c % 256)).valid = true
  · rw [get_glyph_hit env st c color h]
  · rw [get_glyph_miss env st c color h]

@[simp] theorem get_glyph_c_height (env : Env) (st : VideoState) (c color : Nat) :
    (video_get_glyph_cache env st c color).1.c_height = st.c_height := by
  by_cases h : (st.glyph_cache (c % 256)).valid = true
  · rw [get_glyph_hit env st c color h]
  · rw [get_glyph_miss env st c color h]

@[simp] theorem get_glyph_fore_color (env : Env) (st : VideoState) (c color : Nat) :
    (video_get_glyph_cache env st c color).1.fore_color = st.fore_color := by
  by_cases h : (st.glyph_cache (c % 256)).valid = true
  · rw [get_glyph_hit env st c color h]
  · rw [get_glyph_miss env st c color h]

@[simp] theorem get_glyph_back_color (env : Env) (st : VideoState) (c color : Nat) :
    (video_get_glyph_cache env st c color).1.back_color = st.back_color := by
  by_cases h : (st.glyph_cache (c % 256)).valid = true
  · rw [get_glyph_hit env st c color h]
  · rw [get_glyph_miss env st c color h]

@[simp] theorem get_glyph_dirty_region (env : Env) (st : VideoState) (c color : Nat) :
    (video_get_glyph_cache env st c color).1.dirty_region = st.dirty_region := by
  by_cases h : (st.glyph_cache (c % 256)).valid = true
  · rw [get_glyph_hit env st c color h]
  · rw [get_glyph_miss env st c color h]

@[simp] theorem get_glyph_double_buffering_enabled (env : Env) (st : VideoState) (c color : Nat) :
    (video_get_glyph_cache env st c color).1.double_buffering_enabled = st.double_buffering_enabled := by
  by_cases h : (st.glyph_cache (c % 256)).valid = true
  · rw [get_glyph_hit env st c color h]
  · rw [get_glyph_miss env st c color h]

@[simp] theorem get_glyph_back_buffer (env : Env) (st : VideoState) (c color : Nat) :
    (video_get_glyph_cache env st c color).1.back_buffer = st.back_buffer := by
  by_cases h : (st.glyph_cache (c % 256)).valid = true
  · rw [get_glyph_hit env st c color h]
  · rw [get_glyph_miss env st c color h]

@[simp] theorem get_glyph_back_buffer_stride (env : Env) (st : VideoState) (c color : Nat) :
    (video_get_glyph_cache env st c color).1.back_buffer_stride = st.back_buffer_stride := by
  by_cases h : (st.glyph_cache (c % 256)).valid = true
  · rw [get_glyph_hit env st c color h]
  · rw [get_glyph_miss env st c color h]

@[simp] theorem target_buffer_set_target (st : VideoState) (m : Nat → Nat) :
    target_buffer (set_target st m) = m := by
  unfold target_buffer set_target
  cases h : st.double_buffering_enabled <;> simp [h]

@[simp] theorem target_buffer_mark_dirty (st : VideoState) (x y w h : Nat) :
    target_buffer (video_mark_dirty st x y w h) = target_buffer st := rfl

@[simp] theorem target_buffer_get_glyph (env : Env) (st : VideoState) (c color : Nat) :
    target_buffer (video_get_glyph_cache env st c color).1 = target_buffer st := by
  unfold target_buffer
  simp

@[simp] theorem target_stride_get_glyph (env : Env) (st : VideoState) (c color : Nat) :
    target_stride (video_get_glyph_cache env st c color).1 = target_stride st := by
  unfold target_stride
  simp

@[simp] theorem get_glyph_snd (env : Env) (st : VideoState) (c color : Nat) :
    (video_get_glyph_cache env st c color).2 = c % 256 := by
  by_cases h : (st.glyph_cache (c % 256)).valid = true
  · rw [get_glyph_hit env st c color h]
  · rw [get_glyph_miss env st c color h]

/-- After the fetch the entry of c is valid. -/
theorem get_glyph_valid (env : Env) (st : VideoState) (c color : Nat) :
    ((video_get_glyph_cache env st c color).1.glyph_cache (c % 256)).valid = true := by
  by_cases h : (st.glyph_cache (c % 256)).valid = true
  · rw [get_glyph_hit env st c color h]
    simpa using h
  · rw [get_glyph_miss env st c color h]
    simp

/-- The fetch keeps every valid entry pointing at its own slice. -/
theorem get_glyph_cache_wf (env : Env) (st : VideoState) (c color : Nat) (h : cache_wf st) :
    cache_wf (video_get_glyph_cache env st c color).1 := by
  intro k hlt hk
  by_cases hv : (st.glyph_cache (c % 256)).valid = true
  · rw [get_glyph_hit env st c color hv] at hk ⊢
    by_cases e : k = c % 256
    · subst e
      simpa using h _ hlt hv
    · simp only [e, if_false] at hk ⊢
      exact h k hlt hk
  · rw [get_glyph_miss env st c color hv] at hk ⊢
    by_cases e : k = c % 256
    · subst e
      simp
    · simp only [e, if_false] at hk ⊢
      exact h k hlt hk

/-- With a well-formed cache video_draw_char returns, and its result is the state drawn. -/
theorem draw_char_eq_drawn (env : Env) (st : VideoState) (c x y color : Nat)
    (h : cache_wf st) :
    video_draw_char env st c x y color = some (drawn env st c x y color) := by
  have hv := get_glyph_valid env st c color
  have hb : ((video_get_glyph_cache env st c color).1.glyph_cache (c % 256)).bitmap
      = some (c % 256 * 9 * 16) :=
    get_glyph_cache_wf env st c color h (c % 256) (Nat.mod_lt c (by decide)) hv
  unfold video_draw_char video_draw_char_sse drawn
  simp only [get_glyph_snd, hv, hb, Bool.not_true, Bool.false_eq_true, if_false,
    target_stride_get_glyph, target_buffer_get_glyph]

@[simp] theorem drawn_width (env : Env) (st : VideoState) (c x y color : Nat) :
    (drawn env st c x y color).width = st.width := by
  simp [drawn]

@[simp] theorem drawn_height (env : Env) (st : VideoState) (c x y color : Nat) :
    (drawn env st c x y color).height = st.height := by
  simp [drawn]

@[simp] theorem drawn_stride (env : Env) (st : VideoState) (c x y color : Nat) :
    (drawn env st c x y color).stride = st.stride := by
  simp [drawn]

@[simp] theorem drawn_x (env : Env) (st : VideoState) (c x y color : Nat) :
    (drawn env st c x y color).x = st.x := by
  simp [drawn]

@[simp] theorem drawn_y (env : Env) (st : VideoState) (c x y color : Nat) :
    (drawn env st c x y color).y = st.y := by
  simp [drawn]

@[simp] theorem drawn_cx (env : Env) (st : VideoState) (c x y color : Nat) :
    (drawn env st c x y color).cx = st.cx := by
  simp [drawn]

@[simp] theorem drawn_cy (env : Env) (st : VideoState) (c x y color : Nat) :
    (drawn env st c x y color).cy = st.cy := by
  simp [drawn]

@[simp] theorem drawn_c_width (env : Env) (st : VideoState) (c x y color : Nat) :
    (drawn env st c x y color).c_width = st.c_width := by
  simp [drawn]

@[simp] theorem drawn_c_height (env : Env) (st : VideoState) (c x y color : Nat) :
    (drawn env st c x y color).c_height = st.c_height := by
  simp [drawn]

@[simp] theorem drawn_fore_color (env : Env) (st : VideoState) (c x y color : Nat) :
    (drawn env st c x y color).fore_color = st.fore_color := by
  simp [drawn]

@[simp] theorem drawn_back_color (env : Env) (st : VideoState) (c x y color : Nat) :
    (drawn env st c x y color).back_color = st.back_color := by
  simp [drawn]

@[simp] theorem drawn_double_buffering_enabled (env : Env) (st : VideoState) (c x y color : Nat) :
    (drawn env st c x y color).double_buffering_enabled = st.double_buffering_enabled := by
  simp [drawn]

@[simp] theorem drawn_back_buffer_stride (env : Env) (st : VideoState) (c x y color : Nat) :
    (drawn env st c x y color).back_buffer_stride = st.back_buffer_stride := by
  simp [drawn]

/-- The draw target after a glyph is drawn: the copy of the fetched bitmap over the old
target. -/
theorem target_buffer_drawn (env : Env) (st : VideoState) (c x y color : Nat) :
    target_buffer (drawn env st c x y color)
      = draw_rows env.cpu_support_sse
          (video_get_glyph_cache env st c color).1.glyph_cache_memory
          (target_stride st) 16 (c % 256 * 9 * 16) (u32 (y * target_stride st) + x)
          (target_buffer st) := by
  simp [drawn]

theorem drawn_glyph_cache (env : Env) (st : VideoState) (c x y color : Nat) :
    (drawn env st c x y color).glyph_cache
      = (video_get_glyph_cache env st c color).1.glyph_cache := by
  simp [drawn]

theorem drawn_glyph_cache_memory (env : Env) (st : VideoState) (c x y color : Nat) :
    (drawn env st c x y color).glyph_cache_memory
      = (video_get_glyph_cache env st c color).1.glyph_cache_memory := by
  simp [drawn]

theorem drawn_cache_wf (env : Env) (st : VideoState) (c x y color : Nat) (h : cache_wf st) :
    cache_wf (drawn env st c x y color) := by
  intro k hlt hk
  rw [drawn_glyph_cache] at hk ⊢
  exact get_glyph_cache_wf env st c color h k hlt hk

/-- Drawing with double buffering off leaves the back buffer alone, and with it on leaves
the visible buffer alone. -/
theorem drawn_other_buffer (env : Env) (st : VideoState) (c x y color : Nat) :
    (st.double_buffering_enabled = true → (drawn env st c x y color).buffer = st.buffer) ∧
    (st.double_buffering_enabled = false →
      (drawn env st c x y color).back_buffer = st.back_buffer) := by
  constructor <;> intro h <;> simp [drawn, set_target, h]

/-- The cell advance of video_scroll when the cell is inside the grid: the column goes up
by one and nothing else happens. -/
theorem scroll_advance (env : Env) (st : VideoState) (hx : st.cx < st.c_width)
    (hy : st.cy < st.c_height) (hw : st.c_width < 4294967296) :
    video_scroll env st = some { st with cx := st.cx + 1 } := by
  have h1 : ¬ st.cx ≥ st.c_width := by omega
  have h2 : u32 (st.cx + 1) = st.cx + 1 := by unfold u32; omega
  have h3 : ¬ st.cy ≥ st.c_height := by omega
  simp only [video_scroll, h1, if_false, h2, h3]

/-- The cell advance of video_scroll at the wrap column with a row left below: the cell
goes to column 1 of the next row and nothing else happens. -/
theorem scroll_wrap (env : Env) (st : VideoState) (hx : st.c_width ≤ st.cx)
    (hy : st.cy + 1 < st.c_height) (hh : st.c_height < 4294967296) :
    video_scroll env st = some { st with cx := 1, cy := st.cy + 1 } := by
  have h1 : st.cx ≥ st.c_width := hx
  have h2 : u32 (st.cy + 1) = st.cy + 1 := by unfold u32; omega
  have h3 : ¬ st.cy + 1 ≥ st.c_height := by omega
  simp only [video_scroll, h1, if_true, h2, h3, if_false]

/-- The bytes video_put_char sends down its last branch: not newline, carriage return or
tab, and not a backspace with cx > 0. -/
theorem put_char_falls_through (env : Env) (st : VideoState) (c color : Nat)
    (h10 : c ≠ 10) (h13 : c ≠ 13) (h9 : c ≠ 9) (h8 : ¬ (c = 8 ∧ st.cx > 0)) :
    video_put_char env st c color
      = match video_scroll env st with
        | none => none
        | some st1 =>
          video_draw_char env st1 c (u32 (sub32 st1.cx 1 * 9)) (u32 (st1.cy * 16)) color := by
  simp only [video_put_char, h10, h13, h9, h8, if_false]

/-- A byte taking the last branch of video_put_char with the cell inside the grid: the
column goes up by one and the glyph is drawn at the pixel of the old cell. -/
theorem put_char_plain (env : Env) (st : VideoState) (c color : Nat)
    (h10 : c ≠ 10) (h13 : c ≠ 13) (h9 : c ≠ 9) (h8 : ¬ (c = 8 ∧ st.cx > 0))
    (hx : st.cx < st.c_width) (hy : st.cy < st.c_height) (hw : st.c_width < 4294967296)
    (hc : cache_wf st) :
    video_put_char env st c color
      = some (drawn env { st with cx := st.cx + 1 } c (u32 (st.cx * 9)) (u32 (st.cy * 16))
          color) := by
  rw [put_char_falls_through env st c color h10 h13 h9 h8, scroll_advance env st hx hy hw]
  have hs : sub32 (st.cx + 1) 1 = st.cx := by unfold sub32; omega
  simp only [hs]
  exact draw_char_eq_drawn env _ c _ _ color hc

/-- After a fetch that renders, the slice of the entry holds the bitmap of c in the given
colour over the background of the moment. -/
theorem get_glyph_memory_miss (env : Env) (st : VideoState) (c color : Nat)
    (h : ¬ (st.glyph_cache (c % 256)).valid = true) (i j : Nat) (hi : i < 16) (hj : j < 9) :
    (video_get_glyph_cache env st c color).1.glyph_cache_memory
        (c % 256 * 9 * 16 + i * 9 + j)
      = bitmap_word env c color st.back_color i j := by
  rw [get_glyph_miss env st c color h]
  show render_rows env c color st.back_color (c % 256 * 9 * 16) 16 0 st.glyph_cache_memory
    (c % 256 * 9 * 16 + i * 9 + j) = _
  rw [Nat.add_assoc]
  exact render_rows_hit env c color st.back_color _ 16 0 _ i j (Nat.zero_le i) (by omega) hj

/-- A fetch that finds the entry valid leaves the bitmap memory as it is. -/
theorem get_glyph_memory_hit (env : Env) (st : VideoState) (c color : Nat)
    (h : (st.glyph_cache (c % 256)).valid = true) :
    (video_get_glyph_cache env st c color).1.glyph_cache_memory = st.glyph_cache_memory := by
  rw [get_glyph_hit env st c color h]

/-- A fetch writes no bitmap word outside the slice of the entry of c. -/
theorem get_glyph_memory_other (env : Env) (st : VideoState) (c color : Nat) (t : Nat)
    (ht : t < c % 256 * 9 * 16 ∨ c % 256 * 9 * 16 + 144 ≤ t) :
    (video_get_glyph_cache env st c color).1.glyph_cache_memory t
      = st.glyph_cache_memory t := by
  by_cases h : (st.glyph_cache (c % 256)).valid = true
  · rw [get_glyph_memory_hit env st c color h]
  · rw [get_glyph_miss env st c color h]
    exact render_rows_miss env c color st.back_color _ 16 0 _ t (by omega)

/-- A fetch changes no cache entry but that of c. -/
theorem get_glyph_cache_other (env : Env) (st : VideoState) (c color : Nat) (k : Nat)
    (hk : k ≠ c % 256) :
    (video_get_glyph_cache env st c color).1.glyph_cache k = st.glyph_cache k := by
  by_cases h : (st.glyph_cache (c % 256)).valid = true
  · rw [get_glyph_hit env st c color h]
    simp [hk]
  · rw [get_glyph_miss env st c color h]
    simp [hk]

/-- Word (i, j) of the cell drawn at (x, y) is word i*9+j of the bitmap of the entry. -/
theorem drawn_cell (env : Env) (st : VideoState) (c x y color : Nat)
    (hts : 9 ≤ target_stride st) (i j : Nat) (hi : i < 16) (hj : j < 9) :
    target_buffer (drawn env st c x y color)
        (u32 (y * target_stride st) + x + i * target_stride st + j)
      = (video_get_glyph_cache env st c color).1.glyph_cache_memory
          (c % 256 * 9 * 16 + i * 9 + j) := by
  rw [target_buffer_drawn]
  exact draw_rows_hit _ _ _ hts 16 _ _ _ i j hi hj

/-- Drawing a glyph changes no word of the draw target outside the 16 rows of 9 words of
its cell. -/
theorem drawn_outside (env : Env) (st : VideoState) (c x y color : Nat) (t : Nat)
    (h : ∀ i, i < 16 → ∀ j, j < 9 →
      t ≠ u32 (y * target_stride st) + x + i * target_stride st + j) :
    target_buffer (drawn env st c x y color) t = target_buffer st t := by
  rw [target_buffer_drawn]
  exact draw_rows_miss _ _ _ 16 _ _ _ t h

theorem console0_cache_wf : cache_wf console0 := by
  intro k _ hk
  simp [console0] at hk

theorem move_to_cache_wf (st : VideoState) (a b : Nat) (h : cache_wf st) :
    cache_wf (video_move_to st a b) := h

/-- A byte taking the last branch of video_put_char at or past the wrap column, with a
row left below: the cell goes to column 1 of the next row and the glyph is drawn at pixel
column 0 of that row. -/
theorem put_char_wrap (env : Env) (st : VideoState) (c color : Nat)
    (h10 : c ≠ 10) (h13 : c ≠ 13) (h9 : c ≠ 9) (h8 : ¬ (c = 8 ∧ st.cx > 0))
    (hx : st.c_width ≤ st.cx) (hy : st.cy + 1 < st.c_height) (hh : st.c_height < 4294967296)
    (hc : cache_wf st) :
    video_put_char env st c color
      = some (drawn env { st with cx := 1, cy := st.cy + 1 } c 0 (u32 ((st.cy + 1) * 16))
          color) := by
  rw [put_char_falls_through env st c color h10 h13 h9 h8, scroll_wrap env st hx hy hh]
  have hs : u32 (sub32 1 1 * 9) = 0 := by decide
  simp only [hs]
  exact draw_char_eq_drawn env _ c _ _ color hc

/-- C6 (as amended). For a printable byte and a cell with cy < c_height: from any column
cx < c_width, the column c_width - 1 included, video_put_char moves the cell to (cx+1, cy);
the wrap to (1, cy+1) is taken from the column cx = c_width, when a row is left below. -/
theorem put_char_cell_advance (env : Env) (st : VideoState) (c color : Nat)
    (h10 : c ≠ 10) (h13 : c ≠ 13) (h9 : c ≠ 9) (h8 : c ≠ 8)
    (hy : st.cy < st.c_height) (hw : st.c_width < 4294967296)
    (hh : st.c_height < 4294967296) (hc : cache_wf st) :
    (st.cx < st.c_width →
      ∃ st1, video_put_char env st c color = some st1 ∧
        st1.cx = st.cx + 1 ∧ st1.cy = st.cy) ∧
    (st.cx = st.c_width → st.cy + 1 < st.c_height →
      ∃ st1, video_put_char env st c color = some st1 ∧
        st1.cx = 1 ∧ st1.cy = st.cy + 1) := by
  have h8b : ¬ (c = 8 ∧ st.cx > 0) := fun h => h8 h.1
  constructor
  · intro hx
    exact ⟨_, put_char_plain env st c color h10 h13 h9 h8b hx hy hw hc, by simp, by simp⟩
  · intro hx hy1
    exact ⟨_, put_char_wrap env st c color h10 h13 h9 h8b (by omega) hy1 hh hc,
      by simp, by simp⟩

/-- On the 80 x 25 console, the byte 'A' at cell (79, 0) moves the cell to (80, 0), and at
cell (80, 0) to (1, 1). -/
theorem put_char_cell_advance_witness :
    ((video_move_to console0 79 0).cx < (video_move_to console0 79 0).c_width →
      ∃ st1, video_put_char env0 (video_move_to console0 79 0) 65 0xAAAAAA = some st1 ∧
        st1.cx = (video_move_to console0 79 0).cx + 1 ∧
        st1.cy = (video_move_to console0 79 0).cy) ∧
    ((video_move_to console0 79 0).cx = (video_move_to console0 79 0).c_width →
      (video_move_to console0 79 0).cy + 1 < (video_move_to console0 79 0).c_height →
      ∃ st1, video_put_char env0 (video_move_to console0 79 0) 65 0xAAAAAA = some st1 ∧
        st1.cx = 1 ∧ st1.cy = (video_move_to console0 79 0).cy + 1) :=
  put_char_cell_advance env0 (video_move_to console0 79 0) 65 0xAAAAAA (by decide)
    (by decide) (by decide) (by decide) (by decide) (by decide) (by decide)
    (move_to_cache_wf console0 79 0 console0_cache_wf)

/-- C6 as stated fails: on the 80 x 25 console the byte 'A' emitted at cell
(c_width - 1, 0) = (79, 0) leaves the cell at (80, 0), not at (1, 1). -/
theorem put_char_last_column_no_wrap :
    (video_move_to console0 79 0).cx = (video_move_to console0 79 0).c_width - 1 ∧
    (video_move_to console0 79 0).cy < (video_move_to console0 79 0).c_height ∧
    (video_put_char env0 (video_move_to console0 79 0) 65 0xAAAAAA).map
        (fun s => (s.cx, s.cy)) = some (80, 0) ∧
    (video_put_char env0 (video_move_to console0 79 0) 65 0xAAAAAA).map
        (fun s => (s.cx, s.cy)) ≠ some (1, 0 + 1) := by
  decide

set_option maxRecDepth 100000 in
/-- C8 at the failing input: on the 80 x 25 console at cell (0, 0), video_put_char with the
byte 8 (backspace) goes down the printable branch: the cell becomes (1, 0), the cache entry
8 is filled, the dirty flag is set with the rectangle of the first cell, and the pixel (0, 0)
of the draw target changes from 0 to the colour. -/
theorem backspace_at_origin_draws :
    ∃ st1, video_put_char env0 console0 8 0xAAAAAA = some st1 ∧
      (st1.cx, st1.cy) = (1, 0) ∧ (console0.cx, console0.cy) = (0, 0) ∧
      (st1.glyph_cache 8).valid = true ∧ (console0.glyph_cache 8).valid = false ∧
      st1.dirty_region = { x1 := 0, y1 := 0, x2 := 9, y2 := 16, dirty := true } ∧
      console0.dirty_region.dirty = false ∧
      target_buffer st1 0 = 0xAAAAAA ∧ target_buffer console0 0 = 0 := by
  refine ⟨_, put_char_plain env0 console0 8 0xAAAAAA (by decide) (by decide) (by decide)
    (by decide) (by decide) (by decide) (by decide) console0_cache_wf, ?_⟩
  decide

set_option maxRecDepth 100000 in
/-- C9 at the failing input: on the 80 x 25 console 'A' is first emitted in red, which
fills its cache entry, and then in green. After the second call the cell is (2, 0) and the
pixel at the top-left corner of the glyph cell at ((cx-1)*9, cy*16) = (9, 0), whose font bit
is set, is red, the colour of the first render, not the green that was asked for. -/
theorem cached_glyph_keeps_first_colour :
    ∃ s1 s2, video_put_char env0 console0 65 0xFF0000 = some s1 ∧
      video_put_char env0 s1 65 0x00FF00 = some s2 ∧
      (s2.cx, s2.cy) = (2, 0) ∧
      font_byte env0 65 0 &&& (0x80 >>> 0) ≠ 0 ∧
      target_buffer s2 (s2.cy * 16 * 720 + (s2.cx - 1) * 9) = 0xFF0000 ∧
      target_buffer s2 (s2.cy * 16 * 720 + (s2.cx - 1) * 9) ≠ 0x00FF00 := by
  refine ⟨_, _, put_char_plain env0 console0 65 0xFF0000 (by decide) (by decide) (by decide)
    (by decide) (by decide) (by decide) (by decide) console0_cache_wf,
    put_char_plain env0 _ 65 0x00FF00 (by decide) (by decide) (by decide)
    (by decide) (by decide) (by decide) (by decide)
    (drawn_cache_wf env0 _ 65 _ _ _ (fun k hlt hk => console0_cache_wf k hlt hk)), ?_⟩
  decide

/-- When its loop ends, video_clear_color sets the background, fills the first stride*height
words of back_buffer, whatever the draw target is, and resets the cell and the cursor. -/
theorem clear_color_eq (st : VideoState) (color : Nat)
    (h : u64 (st.stride * st.height) < 4294967296) :
    video_clear_color st color
      = some { st with
          back_color := color,
          back_buffer := fill_words color (u64 (st.stride * st.height)) 0 st.back_buffer,
          x := 2, y := 0, cx := 0, cy := 0 } := by
  simp only [video_clear_color, h, if_true]

/-- When its loop ends, video_clear sets the background to black, fills the first
stride*height words of the draw target and resets the cell and the cursor. -/
theorem clear_eq (env : Env) (st : VideoState)
    (h : u64 (st.stride * st.height) < 4294967296) :
    video_clear env st
      = some { set_target { st with back_color := color_to_fb_color env 0 0 0 }
            (fill_words (color_to_fb_color env 0 0 0) (u64 (st.stride * st.height)) 0
              (target_buffer { st with back_color := color_to_fb_color env 0 0 0 })) with
          x := 2, y := 0, cx := 0, cy := 0 } := by
  simp only [video_clear, h, if_true]

/-- After video_clear_color the first stride*height words of back_buffer hold the colour. -/
theorem clear_color_back_buffer (st st1 : VideoState) (color : Nat)
    (h : video_clear_color st color = some st1) (t : Nat)
    (ht : t < u64 (st.stride * st.height)) : st1.back_buffer t = color := by
  have hlt : u64 (st.stride * st.height) < 4294967296 := by
    by_contra hn
    simp [video_clear_color, hn] at h
  rw [clear_color_eq st color hlt] at h
  injection h with h
  subst h
  show fill_words color (u64 (st.stride * st.height)) 0 st.back_buffer t = color
  rw [fill_words_apply, if_pos ⟨Nat.zero_le t, by omega⟩]

/-- After video_clear the first stride*height words of the draw target hold the
background. -/
theorem clear_target_buffer (env : Env) (st st1 : VideoState)
    (h : video_clear env st = some st1) (t : Nat)
    (ht : t < u64 (st.stride * st.height)) : target_buffer st1 t = st1.back_color := by
  have hlt : u64 (st.stride * st.height) < 4294967296 := by
    by_contra hn
    simp [video_clear, hn] at h
  rw [clear_eq env st hlt] at h
  injection h with h
  subst h
  cases hd : st.double_buffering_enabled
  · simp only [target_buffer, set_target, hd, Bool.false_eq_true, if_false]
    rw [fill_words_apply, if_pos ⟨Nat.zero_le t, by omega⟩]
  · simp only [target_buffer, set_target, hd, if_true]
    rw [fill_words_apply, if_pos ⟨Nat.zero_le t, by omega⟩]

/-- C10 at the failing input: on the 720 x 400 console with double buffering off and a grey
visible buffer, video_clear_color with blue sets back_color, the cell and the cursor as
claimed, but every pixel of the draw target (the visible buffer) is still grey; the blue
went to the first stride*H words of back_buffer. On the same state video_clear does fill
the draw target with its background. -/
theorem clear_color_misses_draw_target :
    ∃ st1 st2, video_clear_color console1 0x0000FF = some st1 ∧
      video_clear env0 console1 = some st2 ∧
      st1.back_color = 0x0000FF ∧ (st1.cx, st1.cy) = (0, 0) ∧ (st1.x, st1.y) = (2, 0) ∧
      st1.double_buffering_enabled = false ∧
      (∀ t, target_buffer st1 t = 0x777777) ∧
      (∀ t, t < 720 * 400 → st1.back_buffer t = 0x0000FF) ∧
      (∀ t, t < 720 * 400 → target_buffer st2 t = st2.back_color) := by
  have h1 := clear_color_eq console1 0x0000FF (by decide)
  have h2 := clear_eq env0 console1 (by decide)
  have hn : u64 (console1.stride * console1.height) = 720 * 400 := by decide
  refine ⟨_, _, h1, h2, rfl, rfl, rfl, rfl, fun t => rfl, ?_, ?_⟩
  · intro t ht
    exact clear_color_back_buffer console1 _ _ h1 t (by rw [hn]; exact ht)
  · intro t ht
    exact clear_target_buffer env0 console1 _ h2 t (by rw [hn]; exact ht)

/-- A word index determines its row and column when the column is below the stride. -/
theorem row_col_inj (S a b i k : Nat) (ha : a < S) (hb : b < S)
    (h : i * S + a = k * S + b) : i = k ∧ a = b := by
  have hS : 0 < S := by omega
  have h1 : (a + i * S) / S = (b + k * S) / S := by rw [Nat.add_comm a, Nat.add_comm b, h]
  rw [Nat.add_mul_div_right _ _ hS, Nat.add_mul_div_right _ _ hS, Nat.div_eq_of_lt ha,
    Nat.div_eq_of_lt hb] at h1
  have h2 : i = k := by omega
  subst h2
  exact ⟨rfl, by omega⟩

/-- One row of the partial refresh copies w words, with or without SSE. -/
theorem refresh_row_eq (sse : Bool) (src : Nat → Nat) (w s d : Nat) (dst : Nat → Nat) :
    (if sse then copy_sse src w s d w dst else copy_words src s d w 0 dst)
      = copy_words src s d w 0 dst := by
  cases sse
  · rfl
  · exact copy_sse_eq_copy src w s d w dst

theorem u32_of_lt (n : Nat) (h : n < 4294967296) : u32 n = n := Nat.mod_eq_of_lt h

theorem u64_of_lt (n : Nat) (h : n < 4294967296) : u64 n = n :=
  Nat.mod_eq_of_lt (by omega)

/-- The partial refresh leaves alone every visible word outside the rectangle it copies
(equal strides, no wrap of the row offsets). -/
theorem refresh_rows_miss (sse : Bool) (src : Nat → Nat) (S x1 w : Nat) :
    ∀ (n y0 : Nat) (dst : Nat → Nat) (t : Nat), (y0 + n) * S < 4294967296 →
      (∀ y, y0 ≤ y → y < y0 + n → ∀ x, x1 ≤ x → x < x1 + w → t ≠ y * S + x) →
      refresh_rows sse src S S x1 w n y0 dst t = dst t := by
  intro n
  induction n with
  | zero => intro y0 dst t _ _; rfl
  | succ n ih =>
    intro y0 dst t hb h
    have hy0 : y0 * S < 4294967296 :=
      Nat.lt_of_le_of_lt (Nat.mul_le_mul_right S (by omega)) hb
    have hb2 : (y0 + 1 + n) * S < 4294967296 := by
      have e : y0 + 1 + n = y0 + (n + 1) := by omega
      rw [e]; exact hb
    rw [refresh_rows]
    simp only [refresh_row_eq, u32_of_lt _ hy0, u64_of_lt _ hy0]
    rw [ih (y0 + 1) _ t hb2 (fun y h1 h2 x h3 h4 => h y (by omega) (by omega) x h3 h4)]
    rw [copy_words_apply, if_neg]
    intro hc
    exact h y0 (Nat.le_refl y0) (by omega) (t - y0 * S) (by omega) (by omega) (by omega)

/-- The partial refresh makes every visible word of the rectangle equal to the back-buffer
word at the same place (equal strides, rectangle inside a row, no wrap). -/
theorem refresh_rows_hit (sse : Bool) (src : Nat → Nat) (S x1 w : Nat) (hw : x1 + w ≤ S) :
    ∀ (n y0 : Nat) (dst : Nat → Nat) (y x : Nat), (y0 + n) * S < 4294967296 →
      y0 ≤ y → y < y0 + n → x1 ≤ x → x < x1 + w →
      refresh_rows sse src S S x1 w n y0 dst (y * S + x) = src (y * S + x) := by
  intro n
  induction n with
  | zero => intro y0 dst y x _ h1 h2; omega
  | succ n ih =>
    intro y0 dst y x hb h1 h2 h3 h4
    have hy0 : y0 * S < 4294967296 :=
      Nat.lt_of_le_of_lt (Nat.mul_le_mul_right S (by omega)) hb
    have hb2 : (y0 + 1 + n) * S < 4294967296 := by
      have e : y0 + 1 + n = y0 + (n + 1) := by omega
      rw [e]; exact hb
    rw [refresh_rows]
    simp only [refresh_row_eq, u32_of_lt _ hy0, u64_of_lt _ hy0]
    by_cases hy : y = y0
    · subst hy
      rw [refresh_rows_miss sse src S x1 w n (y + 1) _ _ hb2]
      · rw [copy_words_apply, if_pos (by omega)]
        congr 1
        omega
      · intro y2 hy1 _ x2 _ hx2 heq
        have := row_col_inj S x x2 y y2 (by omega) (by omega) heq
        omega
    · exact ih (y0 + 1) _ y x hb2 (by omega) (by omega) h3 h4

/-- The partial refresh with a dirty rectangle of non-zero width and height: the rows of
the rectangle are copied and the flag is cleared. -/
theorem partial_refresh_eq (env : Env) (st : VideoState)
    (hd : st.dirty_region.dirty = true)
    (hw : sub32 st.dirty_region.x2 st.dirty_region.x1 ≠ 0)
    (hh : sub32 st.dirty_region.y2 st.dirty_region.y1 ≠ 0) :
    video_partial_refresh env st
      = { st with
          buffer := refresh_rows env.cpu_support_sse st.back_buffer st.back_buffer_stride
            st.stride st.dirty_region.x1 (sub32 st.dirty_region.x2 st.dirty_region.x1)
            (st.dirty_region.y2 - st.dirty_region.y1) st.dirty_region.y1 st.buffer,
          dirty_region := { st.dirty_region with dirty := false } } := by
  simp only [video_partial_refresh, hd, Bool.not_true, Bool.false_eq_true, if_false, hw, hh,
    or_self]

/-- The partial refresh with a clear dirty flag does nothing. -/
theorem partial_refresh_clean (env : Env) (st : VideoState)
    (hd : st.dirty_region.dirty = false) : video_partial_refresh env st = st := by
  simp only [video_partial_refresh, hd, Bool.not_false, if_true]

/-- For a 7-bit character the pre-rendered bitmap is the glyph of the spec: the font bytes
at ch*16, bit 7 leftmost, the ninth column in the background colour. -/
theorem bitmap_word_eq_glyph_pixel (env : Env) (c fg bg i j : Nat) (hc : c < 128)
    (hj : j < 9) : bitmap_word env c fg bg i j = glyph_pixel env c i j fg bg := by
  have ho : char_offset c * 16 + (i : Int) = ((c * 16 + i : Nat) : Int) := by
    have h1 : c % 256 = c := Nat.mod_eq_of_lt (by omega)
    simp only [char_offset, h1, hc, if_true]
    push_cast
    ring
  unfold bitmap_word glyph_word font_byte glyph_pixel
  rw [ho]
  by_cases h8 : j = 8
  · subst h8
    simp
  · have hj8 : j < 8 := by omega
    have hp : 0x80 >>> j = 2 ^ (7 - j) := by
      interval_cases j <;> rfl
    rw [hp, Nat.and_two_pow]
    cases hb : (env.ascii_font ((c * 16 + i : Nat) : Int)).testBit (7 - j) <;> simp [hj8]

theorem target_buffer_of_dbe (st : VideoState) (h : st.double_buffering_enabled = true) :
    target_buffer st = st.back_buffer := by
  simp [target_buffer, h]

theorem target_stride_of_dbe (st : VideoState) (S : Nat)
    (h : st.double_buffering_enabled = true) (hb : st.back_buffer_stride = S)
    (hS : S < 4294967296) : target_stride st = S := by
  simp [target_stride, h, hb, u32_of_lt S hS]

/-- The first rectangle marked after a refresh becomes the dirty rectangle, clipped. -/
theorem mark_dirty_first (st : VideoState) (x y w h : Nat)
    (hd : st.dirty_region.dirty = false) :
    (video_mark_dirty st x y w h).dirty_region
      = { x1 := x, y1 := y, x2 := MIN (u32 (x + w)) st.width,
          y2 := MIN (u32 (y + h)) st.height, dirty := true } := by
  simp [video_mark_dirty, hd]

/-- A further rectangle is merged into the dirty rectangle, and the result clipped. -/
theorem mark_dirty_merge (st : VideoState) (x y w h : Nat)
    (hd : st.dirty_region.dirty = true) :
    (video_mark_dirty st x y w h).dirty_region
      = { x1 := MIN st.dirty_region.x1 x, y1 := MIN st.dirty_region.y1 y,
          x2 := MIN (MAX st.dirty_region.x2 (u32 (x + w))) st.width,
          y2 := MIN (MAX st.dirty_region.y2 (u32 (y + h))) st.height, dirty := true } := by
  simp [video_mark_dirty, hd]

theorem drawn_dirty_region (env : Env) (st : VideoState) (c x y color : Nat) :
    (drawn env st c x y color).dirty_region
      = (video_mark_dirty st x y 9 16).dirty_region := by
  simp [drawn, video_mark_dirty]

/-- The line invariant does not look at the column. -/
theorem line_inv_set_cx (env : Env) (S W H CW fg bg : Nat) (vis : Nat → Nat) (p : List Nat)
    (st : VideoState) (n : Nat) (h : LineInv env S W H CW fg bg vis p st) :
    LineInv env S W H CW fg bg vis p { st with cx := n } :=
  { stride_eq := h.stride_eq, width_eq := h.width_eq, height_eq := h.height_eq,
    fore_eq := h.fore_eq, back_eq := h.back_eq, buffer_eq := h.buffer_eq, dbe := h.dbe,
    bbs := h.bbs, cw_eq := h.cw_eq, cells := h.cells, rows := h.rows, fits := h.fits,
    small := h.small, row_cells := h.row_cells, cy_eq := h.cy_eq, len_le := h.len_le,
    wf := h.wf, cached := h.cached, shown := h.shown, clean := h.clean, dirty := h.dirty }

/-- After the fetch of a 7-bit character every valid entry holds the bitmap of its own
character in the colours of the line. -/
theorem line_cached (env : Env) (S W H CW fg bg : Nat) (vis : Nat → Nat) (p : List Nat)
    (st : VideoState) (c : Nat) (h : LineInv env S W H CW fg bg vis p st) (hc : c < 128) :
    ∀ k, k < MAX_CACHE_SIZE →
      ((video_get_glyph_cache env st c fg).1.glyph_cache k).valid = true →
      ∀ i, i < 16 → ∀ j, j < 9 →
      (video_get_glyph_cache env st c fg).1.glyph_cache_memory (k * 9 * 16 + i * 9 + j)
        = bitmap_word env k fg bg i j := by
  have hcm : c % 256 = c := Nat.mod_eq_of_lt (by omega)
  intro k hk hv i hi j hj
  by_cases hkc : k = c
  · subst hkc
    by_cases hold : (st.glyph_cache (k % 256)).valid = true
    · rw [get_glyph_memory_hit env st k fg hold]
      rw [hcm] at hold
      exact h.cached k hk hold i hi j hj
    · have := get_glyph_memory_miss env st k fg hold i j hi hj
      rw [hcm] at this
      rw [this, h.back_eq]
  · have hkc2 : k ≠ c % 256 := by rw [hcm]; exact hkc
    rw [get_glyph_cache_other env st c fg k hkc2] at hv
    rw [get_glyph_memory_other env st c fg _ (by rw [hcm]; omega)]
    exact h.cached k hk hv i hi j hj

/-- Drawing one more 7-bit character at the next cell of the first line keeps the line
invariant. -/
theorem line_draw (env : Env) (S W H CW fg bg : Nat) (vis : Nat → Nat) (p : List Nat)
    (st : VideoState) (c : Nat) (h : LineInv env S W H CW fg bg vis p st)
    (hlt : p.length < CW) (hc : c < 128) :
    LineInv env S W H CW fg bg vis (p ++ [c]) (drawn env st c (9 * p.length) 0 fg) := by
  have hS16 : S * 16 ≤ S * H := Nat.mul_le_mul_left S h.rows
  have hS : S < 4294967296 := by have := h.small; omega
  have hcells := h.cells
  have hfits := h.fits
  have hrows := h.rows
  have hcm : c % 256 = c := Nat.mod_eq_of_lt (by omega)
  have hts : target_stride st = S := target_stride_of_dbe st S h.dbe h.bbs hS
  have hoff : u32 (0 * S) + 9 * p.length = 9 * p.length := by
    rw [Nat.zero_mul]; simp [u32]
  have hcached := line_cached env S W H CW fg bg vis p st c h hc
  have hdbe : (drawn env st c (9 * p.length) 0 fg).double_buffering_enabled = true := by
    simp [h.dbe]
  constructor
  case stride_eq => simp [h.stride_eq]
  case width_eq => simp [h.width_eq]
  case height_eq => simp [h.height_eq]
  case fore_eq => simp [h.fore_eq]
  case back_eq => simp [h.back_eq]
  case buffer_eq =>
    rw [(drawn_other_buffer env st c _ _ fg).1 h.dbe]
    exact h.buffer_eq
  case dbe => exact hdbe
  case bbs => simp [h.bbs]
  case cw_eq => simp [h.cw_eq]
  case cells => exact h.cells
  case rows => exact h.rows
  case fits => exact h.fits
  case small => exact h.small
  case row_cells => simp [h.row_cells]
  case cy_eq => simp [h.cy_eq]
  case len_le => simp; omega
  case wf => exact drawn_cache_wf env st c _ _ fg h.wf
  case cached =>
    intro k hk hv i hi j hj
    rw [drawn_glyph_cache] at hv
    rw [drawn_glyph_cache_memory]
    exact hcached k hk hv i hi j hj
  case shown =>
    intro k hk i hi j hj
    rw [← target_buffer_of_dbe _ hdbe]
    rw [List.length_append, List.length_singleton] at hk
    by_cases hkl : k < p.length
    · rw [List.getD_append _ _ _ _ hkl, drawn_outside]
      · rw [target_buffer_of_dbe _ h.dbe]
        exact h.shown k hkl i hi j hj
      · intro i2 _ j2 hj2 heq
        rw [hts, hoff] at heq
        have := row_col_inj S (9 * k + j) (9 * p.length + j2) i i2 (by omega) (by omega)
          (by omega)
        omega
    · have hke : k = p.length := by omega
      subst hke
      rw [List.getD_append_right _ _ _ _ (Nat.le_refl _)]
      have hcell := drawn_cell env st c (9 * p.length) 0 fg (by rw [hts]; omega) i j hi hj
      rw [hts, hoff] at hcell
      have e : i * S + (9 * p.length + j) = 9 * p.length + i * S + j := by omega
      rw [e, hcell, hcm]
      have hv := get_glyph_valid env st c fg
      rw [hcm] at hv
      simpa using hcached c (by unfold MAX_CACHE_SIZE; omega) hv i hi j hj
  case clean =>
    intro he
    exact absurd he (by simp)
  case dirty =>
    intro _
    rw [drawn_dirty_region]
    by_cases hp : p = []
    · subst hp
      rw [mark_dirty_first _ _ _ _ _ (h.clean rfl), h.width_eq, h.height_eq]
      have e1 : MIN (u32 (9 * ([] : List Nat).length + 9)) W = 9 := by
        unfold MIN u32
        simp only [List.length_nil]
        split <;> omega
      have e2 : MIN (u32 (0 + 16)) H = 16 := by
        unfold MIN u32
        split <;> omega
      rw [e1, e2]
      rfl
    · have hd := h.dirty hp
      have hdt : st.dirty_region.dirty = true := by rw [hd]
      rw [mark_dirty_merge _ _ _ _ _ hdt, hd, h.width_eq, h.height_eq]
      have e0 : u32 (9 * p.length + 9) = 9 * p.length + 9 := u32_of_lt _ (by omega)
      have e1 : MIN (0 : Nat) (9 * p.length) = 0 := by unfold MIN; split <;> omega
      have e2 : MIN (0 : Nat) 0 = 0 := rfl
      have e3 : MIN (MAX (9 * p.length) (9 * p.length + 9)) W = 9 * p.length + 9 := by
        unfold MIN MAX; split <;> split <;> omega
      have e4 : MIN (MAX 16 (u32 (0 + 16))) H = 16 := by
        unfold MIN MAX u32; split <;> split <;> omega
      simp only [e0, e1, e2, e3, e4, List.length_append, List.length_singleton]
      congr 1

/-- One more printable character on the first line: video_put_char returns, the column goes
up by one and the line invariant is kept. -/
theorem line_step (env : Env) (S W H CW fg bg : Nat) (vis : Nat → Nat) (p : List Nat)
    (st : VideoState) (c : Nat) (h : LineInv env S W H CW fg bg vis p st)
    (hcx : st.cx = p.length) (hlt : p.length < CW) (hc : printable c) :
    ∃ st1, video_put_char env st c fg = some st1 ∧
      LineInv env S W H CW fg bg vis (p ++ [c]) st1 ∧ st1.cx = (p ++ [c]).length := by
  obtain ⟨hc128, hc0, hc8, hc9, hc10, hc13⟩ := hc
  have hS16 : S * 16 ≤ S * H := Nat.mul_le_mul_left S h.rows
  have hS : S < 4294967296 := by have := h.small; omega
  have hcells := h.cells
  have hfits := h.fits
  have hcw : st.c_width < 4294967296 := by rw [h.cw_eq]; omega
  have hput := put_char_plain env st c fg hc10 hc13 hc9 (fun hh => hc8 hh.1)
    (by rw [hcx, h.cw_eq]; exact hlt) (by rw [h.cy_eq]; exact h.row_cells) hcw h.wf
  have hx : u32 (st.cx * 9) = 9 * p.length := by
    rw [hcx, u32_of_lt _ (by omega)]; omega
  have hy : u32 (st.cy * 16) = 0 := by rw [h.cy_eq]; rfl
  rw [hx, hy] at hput
  refine ⟨_, hput, ?_, ?_⟩
  · exact line_draw env S W H CW fg bg vis p _ c
      (line_inv_set_cx env S W H CW fg bg vis p st (st.cx + 1) h) hlt hc128
  · simp [hcx]

/-- A run of printable characters that fits the first line: the loop of video_put_string
returns, the column ends after the last character and the line invariant is kept. -/
theorem line_loop (env : Env) (S W H CW fg bg : Nat) (vis : Nat → Nat) :
    ∀ (s p : List Nat) (st : VideoState), LineInv env S W H CW fg bg vis p st →
      st.cx = p.length → p.length + s.length ≤ CW → (∀ c, c ∈ s → printable c) →
      ∃ st1, put_chars env fg s st = some st1 ∧
        LineInv env S W H CW fg bg vis (p ++ s) st1 ∧ st1.cx = (p ++ s).length := by
  intro s
  induction s with
  | nil =>
    intro p st h hcx _ _
    exact ⟨st, rfl, by rw [List.append_nil]; exact h, by rw [List.append_nil]; exact hcx⟩
  | cons c s ih =>
    intro p st h hcx hlen hs
    have hc : printable c := hs c (List.mem_cons_self _ _)
    rw [List.length_cons] at hlen
    obtain ⟨st1, hput, hinv, hcx1⟩ :=
      line_step env S W H CW fg bg vis p st c h hcx (by omega) hc
    obtain ⟨st2, hrest, hinv2, hcx2⟩ := ih (p ++ [c]) st1 hinv hcx1
      (by rw [List.length_append, List.length_singleton]; omega)
      (fun d hd => hs d (List.mem_cons_of_mem _ hd))
    refine ⟨st2, ?_, ?_, ?_⟩
    · rw [put_chars, if_neg hc.2.1, hput]
      exact hrest
    · rw [List.append_assoc] at hinv2
      exact hinv2
    · rw [List.append_assoc] at hcx2
      exact hcx2

/-- The loop over a string that has no NUL in its first part runs over the first part and
goes on with the second. -/
theorem put_chars_append (env : Env) (color : Nat) :
    ∀ (s t : List Nat) (st : VideoState), (∀ c, c ∈ s → c ≠ 0) →
      put_chars env color (s ++ t) st
        = match put_chars env color s st with
          | none => none
          | some st1 => put_chars env color t st1 := by
  intro s
  induction s with
  | nil => intro t st _; rfl
  | cons c s ih =>
    intro t st hs
    have hc : c ≠ 0 := hs c (List.mem_cons_self _ _)
    rw [List.cons_append, put_chars, put_chars, if_neg hc, if_neg hc]
    cases hput : video_put_char env st c color with
    | none => rfl
    | some st1 => exact ih t st1 (fun d hd => hs d (List.mem_cons_of_mem _ hd))

/-- The loop of video_init_cache clears the entries i .. i+n-1 and no other. -/
theorem init_cache_loop_apply :
    ∀ (n i : Nat) (g : Nat → glyph_cache_t) (k : Nat),
      video_init_cache_loop n i g k
        = if i ≤ k ∧ k < i + n then { valid := false, bitmap := none, timestamp := 0 }
          else g k := by
  intro n
  induction n with
  | zero =>
    intro i g k
    rw [video_init_cache_loop, if_neg (by omega)]
  | succ n ih =>
    intro i g k
    rw [video_init_cache_loop, ih]
    by_cases h1 : i + 1 ≤ k ∧ k < i + 1 + n
    · have h2 : i ≤ k ∧ k < i + (n + 1) := by omega
      rw [if_pos h1, if_pos h2]
    · rw [if_neg h1]
      by_cases h2 : k = i
      · subst h2
        have h3 : k ≤ k ∧ k < k + (n + 1) := by omega
        rw [if_pos h3]
        simp
      · have h3 : ¬(i ≤ k ∧ k < i + (n + 1)) := by omega
        rw [if_neg h3]
        simp [h2]

/-- After video_init_cache no entry of the cache is valid. -/
theorem init_cache_invalid (st : VideoState) (k : Nat) (hk : k < MAX_CACHE_SIZE) :
    ((video_init_cache st).glyph_cache k).valid = false := by
  show (video_init_cache_loop MAX_CACHE_SIZE 0 st.glyph_cache k).valid = false
  rw [init_cache_loop_apply, if_pos ⟨Nat.zero_le k, by omega⟩]

/-- On a framebuffer that fits the back buffer, with double buffering built in, video_init
returns and leaves the console at the start of the first line: cell (0, 0), empty glyph
cache, clear dirty flag, double buffering on. -/
theorem init_line_inv (env : Env) (fb : limine_framebuffer) (st0 : VideoState)
    (hDB : env.DOUBLE_BUFFERING = true) (hbpp : 8 ≤ fb.bpp)
    (hfit : fb.pitch / (fb.bpp / 8) * fb.height ≤ BACK_BUFFER_WORDS)
    (hstride : fb.width ≤ fb.pitch / (fb.bpp / 8))
    (hrows : 16 ≤ fb.height) (hcols : 9 ≤ fb.width) :
    ∃ st, video_init env (some fb) st0 = some st ∧
      LineInv env (fb.pitch / (fb.bpp / 8)) fb.width fb.height (fb.width / 9)
        (color_to_fb_color env 0xaa 0xaa 0xaa) (color_to_fb_color env 0 0 0) fb.address []
        st ∧
      st.cx = 0 ∧ (∀ k, k < MAX_CACHE_SIZE → (st.glyph_cache k).valid = false) := by
  have hSH : fb.pitch / (fb.bpp / 8) * fb.height ≤ 4147200 := by
    have h : BACK_BUFFER_WORDS = 4147200 := by decide
    rw [h] at hfit; exact hfit
  have hb8 : ¬ fb.bpp / 8 = 0 := by omega
  have hu : u64 (fb.pitch / (fb.bpp / 8) * fb.height) = fb.pitch / (fb.bpp / 8) * fb.height :=
    Nat.mod_eq_of_lt (by omega)
  have hc1 : env.DOUBLE_BUFFERING = true ∧
      u64 (u64 (fb.pitch / (fb.bpp / 8) * fb.height) * 4) ≤ BACK_BUFFER_WORDS * 4 := by
    refine ⟨hDB, ?_⟩
    have h : BACK_BUFFER_WORDS = 4147200 := by decide
    rw [hu, h]
    unfold u64
    omega
  have hc2 : u64 (fb.pitch / (fb.bpp / 8) * fb.height) < 4294967296 := by rw [hu]; omega
  have hS1 : 9 ≤ fb.pitch / (fb.bpp / 8) := by omega
  have hH : fb.height ≤ fb.pitch / (fb.bpp / 8) * fb.height :=
    Nat.le_mul_of_pos_left _ (by omega)
  have hS2 : fb.pitch / (fb.bpp / 8) ≤ fb.pitch / (fb.bpp / 8) * fb.height :=
    Nat.le_mul_of_pos_right _ (by omega)
  have hinit : video_init env (some fb) st0
      = video_clear env (video_init_cache
          { st0 with
            buffer := fb.address, width := fb.width, height := fb.height,
            stride := fb.pitch / (fb.bpp / 8),
            x := 0, cx := 0, y := 0, cy := 0,
            c_width := u32 (fb.width / 9), c_height := u32 (fb.height / 16),
            fore_color := color_to_fb_color env 0xaa 0xaa 0xaa,
            back_color := color_to_fb_color env 0 0 0,
            dirty_region := { st0.dirty_region with dirty := false },
            back_buffer_stride := u32 (fb.pitch / (fb.bpp / 8)),
            double_buffering_enabled := true,
            back_buffer := fill_words (color_to_fb_color env 0 0 0)
              (u64 (fb.pitch / (fb.bpp / 8) * fb.height)) 0 st0.back_buffer }) := by
    simp only [video_init, hb8, if_false, hc1, hc2, and_self, if_true]
  obtain ⟨X, hX⟩ : ∃ X : VideoState, X =
      { st0 with
        buffer := fb.address, width := fb.width, height := fb.height,
        stride := fb.pitch / (fb.bpp / 8),
        x := 0, cx := 0, y := 0, cy := 0,
        c_width := u32 (fb.width / 9), c_height := u32 (fb.height / 16),
        fore_color := color_to_fb_color env 0xaa 0xaa 0xaa,
        back_color := color_to_fb_color env 0 0 0,
        dirty_region := { st0.dirty_region with dirty := false },
        back_buffer_stride := u32 (fb.pitch / (fb.bpp / 8)),
        double_buffering_enabled := true,
        back_buffer := fill_words (color_to_fb_color env 0 0 0)
          (u64 (fb.pitch / (fb.bpp / 8) * fb.height)) 0 st0.back_buffer } := ⟨_, rfl⟩
  rw [← hX] at hinit
  have hXs : X.stride = fb.pitch / (fb.bpp / 8) := by rw [hX]
  have hXw : X.width = fb.width := by rw [hX]
  have hXh : X.height = fb.height := by rw [hX]
  have hXf : X.fore_color = color_to_fb_color env 0xaa 0xaa 0xaa := by rw [hX]
  have hXb : X.buffer = fb.address := by rw [hX]
  have hXd : X.double_buffering_enabled = true := by rw [hX]
  have hXbs : X.back_buffer_stride = u32 (fb.pitch / (fb.bpp / 8)) := by rw [hX]
  have hXcw : X.c_width = u32 (fb.width / 9) := by rw [hX]
  have hXch : X.c_height = u32 (fb.height / 16) := by rw [hX]
  have hXdr : X.dirty_region.dirty = false := by rw [hX]
  have hc3 : u64 ((video_init_cache X).stride * (video_init_cache X).height) < 4294967296 := by
    show u64 (X.stride * X.height) < 4294967296
    rw [hXs, hXh]; exact hc2
  rw [hinit]
  refine ⟨_, clear_eq env _ hc3, ?_, rfl, ?_⟩
  · constructor
    case stride_eq => simp [video_init_cache, hXs]
    case width_eq => simp [video_init_cache, hXw]
    case height_eq => simp [video_init_cache, hXh]
    case fore_eq => simp [video_init_cache, hXf]
    case back_eq => simp [video_init_cache]
    case buffer_eq => simp [video_init_cache, set_target, hXd, hXb]
    case dbe => simp [video_init_cache, hXd]
    case bbs => simp [video_init_cache, hXbs]; exact u32_of_lt _ (by omega)
    case cw_eq => simp [video_init_cache, hXcw]; exact u32_of_lt _ (by omega)
    case cells => omega
    case rows => exact hrows
    case fits => exact hstride
    case small => omega
    case row_cells =>
      simp only [set_target_c_height, video_init_cache, hXch]
      rw [u32_of_lt _ (by omega)]
      omega
    case cy_eq => rfl
    case len_le => exact Nat.zero_le _
    case wf =>
      intro k hk hv
      simp only [set_target_glyph_cache] at hv
      rw [init_cache_invalid X k hk] at hv
      exact absurd hv (by decide)
    case cached =>
      intro k hk hv
      simp only [set_target_glyph_cache] at hv
      rw [init_cache_invalid X k hk] at hv
      exact absurd hv (by decide)
    case shown =>
      intro k hk
      exact absurd hk (Nat.not_lt_zero k)
    case clean => intro _; simp [video_init_cache, hXdr]
    case dirty => intro h; exact absurd rfl h
  · intro k hk
    simp only [set_target_glyph_cache]
    exact init_cache_invalid X k hk

theorem partial_refresh_cell (env : Env) (st : VideoState) :
    (video_partial_refresh env st).cx = st.cx ∧ (video_partial_refresh env st).cy = st.cy := by
  unfold video_partial_refresh
  simp only []
  split
  · exact ⟨rfl, rfl⟩
  · split
    · exact ⟨rfl, rfl⟩
    · exact ⟨rfl, rfl⟩

/-- The partial refresh at the end of a first line brings every glyph cell written so far
to the visible buffer, wherever the cell has been moved in between. -/
theorem line_refresh_pixels (env : Env) (S W H CW fg bg : Nat) (vis : Nat → Nat)
    (s : List Nat) (st : VideoState) (a b : Nat)
    (h : LineInv env S W H CW fg bg vis s st) :
    ∀ k, k < s.length → ∀ i, i < 16 → ∀ j, j < 9 →
      (video_partial_refresh env { st with cy := a, cx := b }).buffer (i * S + (9 * k + j))
        = bitmap_word env (s.getD k 0) fg bg i j := by
  intro k hk i hi j hj
  have hne : s ≠ [] := by
    intro he
    rw [he] at hk
    exact Nat.not_lt_zero k hk
  have hS16 : S * 16 ≤ S * H := Nat.mul_le_mul_left S h.rows
  have hsmall := h.small
  have hcells := h.cells
  have hfits := h.fits
  have hlen := h.len_le
  have hd := h.dirty hne
  have hd3 : ({ st with cy := a, cx := b } : VideoState).dirty_region
      = { x1 := 0, y1 := 0, x2 := 9 * s.length, y2 := 16, dirty := true } := hd
  have hw : sub32 (9 * s.length) 0 = 9 * s.length := by
    unfold sub32; omega
  rw [partial_refresh_eq env _ (by rw [hd3]) (by rw [hd3]; simp only []; rw [hw]; omega)
    (by rw [hd3]; exact (by decide : sub32 16 0 ≠ 0))]
  show refresh_rows env.cpu_support_sse st.back_buffer st.back_buffer_stride st.stride
    st.dirty_region.x1 (sub32 st.dirty_region.x2 st.dirty_region.x1)
    (st.dirty_region.y2 - st.dirty_region.y1) st.dirty_region.y1 st.buffer
    (i * S + (9 * k + j)) = _
  rw [hd, h.bbs, h.stride_eq]
  simp only [hw, Nat.sub_zero]
  rw [refresh_rows_hit _ _ S 0 (9 * s.length) (by omega) 16 0 _ i (9 * k + j)
    (by omega) (Nat.zero_le i) (by omega) (Nat.zero_le _) (by omega)]
  exact h.shown k hk i hi j hj

/-- C7 (as amended). On a console that video_init has just set up with double buffering on
(the framebuffer fits the back buffer), video_put_string of a run s of printable 7-bit
characters that fits the first line, alone or followed by a newline, returns, and the
visible buffer then holds the glyph of the k-th character (k = 0, 1, ...) with its top-left
corner at pixel (9*k, 0): pixel (9*k + j, i) is pixel (i, j) of the glyph in the foreground
colour over the background. The final cell is (length of s, 0) without the newline and
(0, 1) with it. -/
theorem put_string_first_line (env : Env) (fb : limine_framebuffer) (st0 : VideoState)
    (s nl : List Nat)
    (hDB : env.DOUBLE_BUFFERING = true) (hbpp : 8 ≤ fb.bpp)
    (hfit : fb.pitch / (fb.bpp / 8) * fb.height ≤ BACK_BUFFER_WORDS)
    (hstride : fb.width ≤ fb.pitch / (fb.bpp / 8))
    (hrows : 16 ≤ fb.height) (hcols : 9 ≤ fb.width)
    (hs : ∀ c, c ∈ s → printable c) (hlen : s.length ≤ fb.width / 9)
    (hnl : nl = [] ∨ nl = [10]) :
    ∃ st st1, video_init env (some fb) st0 = some st ∧
      st.cx = 0 ∧ st.cy = 0 ∧ (∀ k, k < MAX_CACHE_SIZE → (st.glyph_cache k).valid = false) ∧
      st.stride = fb.pitch / (fb.bpp / 8) ∧
      video_put_string env st (s ++ nl) = some st1 ∧
      (∀ k, k < s.length → ∀ i, i < 16 → ∀ j, j < 9 →
        st1.buffer (i * st.stride + (9 * k + j))
          = glyph_pixel env (s.getD k 0) i j st.fore_color st.back_color) ∧
      (nl = [] → st1.cx = s.length ∧ st1.cy = 0) ∧
      (nl = [10] → st1.cx = 0 ∧ st1.cy = 1) := by
  obtain ⟨st, hinit, hinv, hcx, hcache⟩ :=
    init_line_inv env fb st0 hDB hbpp hfit hstride hrows hcols
  obtain ⟨st2, hloop, hinv2, hcx2⟩ := line_loop env _ _ _ _ _ _ _ s [] st hinv hcx
    (by simpa using hlen) hs
  rw [List.nil_append] at hinv2 hcx2
  have hs0 : ∀ c, c ∈ s → c ≠ 0 := fun c hc => (hs c hc).2.1
  have hpix : ∀ (a b : Nat) (k : Nat), k < s.length → ∀ i, i < 16 → ∀ j, j < 9 →
      (video_partial_refresh env { st2 with cy := a, cx := b }).buffer
          (i * st.stride + (9 * k + j))
        = glyph_pixel env (s.getD k 0) i j st.fore_color st.back_color := by
    intro a b k hk i hi j hj
    rw [hinv.stride_eq, hinv.fore_eq, hinv.back_eq,
      line_refresh_pixels env _ _ _ _ _ _ _ s st2 a b hinv2 k hk i hi j hj]
    have hmem : s.getD k 0 ∈ s := by
      rw [List.getD_eq_getElem _ _ hk]
      exact List.getElem_mem hk
    exact bitmap_word_eq_glyph_pixel env _ _ _ i j (hs _ hmem).1 hj
  rcases hnl with hnl | hnl
  · subst hnl
    refine ⟨st, video_partial_refresh env { st2 with cy := st2.cy, cx := st2.cx }, hinit, hcx,
      hinv.cy_eq, hcache, hinv.stride_eq, ?_, hpix _ _, ?_, ?_⟩
    · rw [List.append_nil]
      unfold video_put_string
      rw [hinv.fore_eq, hloop]
    · intro _
      exact ⟨(partial_refresh_cell env _).1.trans hcx2,
        (partial_refresh_cell env _).2.trans hinv2.cy_eq⟩
    · intro h
      exact absurd h (by decide)
  · subst hnl
    refine ⟨st, video_partial_refresh env { st2 with cy := u32 (st2.cy + 1), cx := 0 }, hinit,
      hcx, hinv.cy_eq, hcache, hinv.stride_eq, ?_, hpix _ _, ?_, ?_⟩
    · unfold video_put_string
      rw [hinv.fore_eq, put_chars_append env _ s [10] st hs0, hloop]
      simp [put_chars, video_put_char]
    · intro h
      exact absurd h (by decide)
    · intro _
      refine ⟨(partial_refresh_cell env _).1, (partial_refresh_cell env _).2.trans ?_⟩
      show u32 (st2.cy + 1) = 1
      rw [hinv2.cy_eq]
      rfl

/-- The partial refresh at the end of a first line changes no visible word outside the
cells written so far. -/
theorem line_refresh_outside (env : Env) (S W H CW fg bg : Nat) (vis : Nat → Nat)
    (s : List Nat) (st : VideoState) (a b : Nat)
    (h : LineInv env S W H CW fg bg vis s st) (t : Nat)
    (ht : ∀ y, y < 16 → ∀ x, x < 9 * s.length → t ≠ y * S + x) :
    (video_partial_refresh env { st with cy := a, cx := b }).buffer t = vis t := by
  by_cases hne : s = []
  · rw [partial_refresh_clean env { st with cy := a, cx := b } (h.clean hne)]
    exact congrFun h.buffer_eq t
  · have hS16 : S * 16 ≤ S * H := Nat.mul_le_mul_left S h.rows
    have hsmall := h.small
    have hcells := h.cells
    have hfits := h.fits
    have hlen := h.len_le
    have hd := h.dirty hne
    have hd3 : ({ st with cy := a, cx := b } : VideoState).dirty_region
        = { x1 := 0, y1 := 0, x2 := 9 * s.length, y2 := 16, dirty := true } := hd
    have hpos : 0 < s.length := List.length_pos.mpr hne
    have hw : sub32 (9 * s.length) 0 = 9 * s.length := by
      unfold sub32; omega
    rw [partial_refresh_eq env _ (by rw [hd3]) (by rw [hd3]; simp only []; rw [hw]; omega)
      (by rw [hd3]; exact (by decide : sub32 16 0 ≠ 0))]
    show refresh_rows env.cpu_support_sse st.back_buffer st.back_buffer_stride st.stride
      st.dirty_region.x1 (sub32 st.dirty_region.x2 st.dirty_region.x1)
      (st.dirty_region.y2 - st.dirty_region.y1) st.dirty_region.y1 st.buffer t = _
    rw [hd, h.bbs, h.stride_eq]
    simp only [hw, Nat.sub_zero]
    rw [refresh_rows_miss _ _ S 0 (9 * s.length) 16 0 _ t (by omega)
      (fun y _ hy x _ hx => ht y (by omega) x (by omega))]
    exact congrFun h.buffer_eq t

theorem printable_A_B : ∀ c, c ∈ [65, 66] → printable c := by
  intro c hc
  simp only [List.mem_cons, List.mem_singleton, List.not_mem_nil, or_false] at hc
  rcases hc with h | h <;> subst h <;> unfold printable <;> decide

/-- The state video_init leaves on the 720 x 400 framebuffer, with 'A' and 'B' printed on
its first line. -/
theorem init_then_A_B :
    ∃ st st2, video_init env1 (some fb0) console1 = some st ∧
      put_chars env1 0xAAAAAA [65, 66] st = some st2 ∧
      LineInv env1 720 720 400 80 0xAAAAAA 0 (fun _ => 0) [65, 66] st2 ∧
      st.fore_color = 0xAAAAAA ∧ st.back_color = 0 := by
  obtain ⟨st, hinit, hinv, hcx, _⟩ := init_line_inv env1 fb0 console1 rfl (by decide)
    (by decide) (by decide) (by decide) (by decide)
  have hinv0 : LineInv env1 720 720 400 80 0xAAAAAA 0 (fun _ => 0) [] st := hinv
  obtain ⟨st2, hloop, hinv2, _⟩ := line_loop env1 _ _ _ _ _ _ _ [65, 66] [] st hinv0 hcx
    (by decide) printable_A_B
  exact ⟨st, st2, hinit, hloop, hinv2, hinv0.fore_eq, hinv0.back_eq⟩

/-- C7 as stated fails: on the 720 x 400 double-buffered console as video_init leaves it,
with a font whose glyph 'A' has its leftmost pixel set and whose glyph 'B' has its second
pixel set, after video_put_string("AB\n") the final cell is (0, 1), but the leftmost pixel
of 'A' is lit at pixel (0, 0) and not at (9, 0), and the second pixel of 'B' is lit at
pixel (10, 0) and not at (19, 0): the glyphs are at (0, 0) and (9, 0), not at (9, 0) and
(18, 0). -/
theorem put_string_glyphs_start_at_zero :
    ∃ st st1, video_init env1 (some fb0) console1 = some st ∧
      video_put_string env1 st [65, 66, 10] = some st1 ∧
      (st1.cx, st1.cy) = (0, 1) ∧
      st.fore_color = 0xAAAAAA ∧ st.back_color = 0 ∧
      glyph_pixel env1 65 0 0 0xAAAAAA 0 = 0xAAAAAA ∧
      st1.buffer (0 * 720 + 9) = 0 ∧ st1.buffer (0 * 720 + 0) = 0xAAAAAA ∧
      glyph_pixel env1 66 0 1 0xAAAAAA 0 = 0xAAAAAA ∧
      st1.buffer (0 * 720 + (18 + 1)) = 0 ∧ st1.buffer (0 * 720 + (9 + 1)) = 0xAAAAAA := by
  obtain ⟨st, st2, hinit, hloop, hinv2, hfg, hbg⟩ := init_then_A_B
  have hpix := line_refresh_pixels env1 _ _ _ _ _ _ _ [65, 66] st2 (u32 (st2.cy + 1)) 0 hinv2
  have hout := line_refresh_outside env1 _ _ _ _ _ _ _ [65, 66] st2 (u32 (st2.cy + 1)) 0 hinv2
  refine ⟨st, video_partial_refresh env1 { st2 with cy := u32 (st2.cy + 1), cx := 0 }, hinit,
    ?_, ?_, hfg, hbg, by decide, ?_, ?_, by decide, ?_, ?_⟩
  · have e : ([65, 66, 10] : List Nat) = [65, 66] ++ [10] := rfl
    unfold video_put_string
    rw [e, put_chars_append env1 _ [65, 66] [10] st
      (fun c hc => (printable_A_B c hc).2.1), hfg, hloop]
    simp [put_chars, video_put_char]
  · have h1 := (partial_refresh_cell env1 { st2 with cy := u32 (st2.cy + 1), cx := 0 }).1
    have h2 := (partial_refresh_cell env1 { st2 with cy := u32 (st2.cy + 1), cx := 0 }).2
    rw [h1, h2]
    show ((0 : Nat), u32 (st2.cy + 1)) = (0, 1)
    rw [hinv2.cy_eq]
    rfl
  · have := hpix 1 (by decide) 0 (by decide) 0 (by decide)
    rw [this]
    decide
  · have := hpix 0 (by decide) 0 (by decide) 0 (by decide)
    rw [this]
    decide
  · rw [hout (0 * 720 + (18 + 1)) (by
      intro y _ x hx
      simp only [List.length_cons, List.length_nil] at hx
      omega)]
  · have := hpix 1 (by decide) 0 (by decide) 1 (by decide)
    rw [this]
    decide

/-- On the 720 x 400 framebuffer video_put_string("AB\n") puts 'A' at pixel (0, 0) and 'B'
at pixel (9, 0) of the visible buffer and ends at cell (0, 1). -/
theorem put_string_first_line_witness :
    ∃ st st1, video_init env1 (some fb0) console1 = some st ∧
      st.cx = 0 ∧ st.cy = 0 ∧ (∀ k, k < MAX_CACHE_SIZE → (st.glyph_cache k).valid = false) ∧
      st.stride = fb0.pitch / (fb0.bpp / 8) ∧
      video_put_string env1 st ([65, 66] ++ [10]) = some st1 ∧
      (∀ k, k < [65, 66].length → ∀ i, i < 16 → ∀ j, j < 9 →
        st1.buffer (i * st.stride + (9 * k + j))
          = glyph_pixel env1 ([65, 66].getD k 0) i j st.fore_color st.back_color) ∧
      (([10] : List Nat) = [] → st1.cx = [65, 66].length ∧ st1.cy = 0) ∧
      (([10] : List Nat) = [10] → st1.cx = 0 ∧ st1.cy = 1) :=
  put_string_first_line env1 fb0 console1 [65, 66] [10] rfl (by decide) (by decide)
    (by decide) (by decide) (by decide) printable_A_B (by decide) (Or.inr rfl)

theorem MIN_le_left (a b : Nat) : MIN a b ≤ a := by unfold MIN; split <;> omega

theorem MIN_le_right (a b : Nat) : MIN a b ≤ b := by unfold MIN; split <;> omega

theorem MIN_eq (a b : Nat) : MIN a b = min a b := by unfold MIN; split <;> omega

theorem MAX_eq (a b : Nat) : MAX a b = max a b := by unfold MAX; split <;> omega

/-- C18 (as amended). For a rectangle [x, x+w) x [y, y+h) that starts on the screen
(x <= W, y <= H) and whose x+w and y+h fit 32 bits, video_mark_dirty sets the flag and makes
the dirty rectangle the bounding box of the rectangle and, when the flag was set, of the
previous dirty rectangle, with x2 and y2 cut to W and H: it contains every on-screen pixel
of both and x1 <= x2 <= W, y1 <= y2 <= H. -/
theorem mark_dirty_union (st : VideoState) (x y w h : Nat)
    (hxw : x + w < 4294967296) (hyh : y + h < 4294967296)
    (hx : x ≤ st.width) (hy : y ≤ st.height) :
    (video_mark_dirty st x y w h).dirty_region.dirty = true ∧
    (video_mark_dirty st x y w h).dirty_region.x1
      = (if st.dirty_region.dirty then min st.dirty_region.x1 x else x) ∧
    (video_mark_dirty st x y w h).dirty_region.y1
      = (if st.dirty_region.dirty then min st.dirty_region.y1 y else y) ∧
    (video_mark_dirty st x y w h).dirty_region.x2
      = min (if st.dirty_region.dirty then max st.dirty_region.x2 (x + w) else x + w)
          st.width ∧
    (video_mark_dirty st x y w h).dirty_region.y2
      = min (if st.dirty_region.dirty then max st.dirty_region.y2 (y + h) else y + h)
          st.height ∧
    (∀ px py, px < st.width → py < st.height →
      ((x ≤ px ∧ px < x + w ∧ y ≤ py ∧ py < y + h) ∨
        (st.dirty_region.dirty = true ∧ st.dirty_region.x1 ≤ px ∧ px < st.dirty_region.x2 ∧
          st.dirty_region.y1 ≤ py ∧ py < st.dirty_region.y2)) →
      (video_mark_dirty st x y w h).dirty_region.x1 ≤ px ∧
      px < (video_mark_dirty st x y w h).dirty_region.x2 ∧
      (video_mark_dirty st x y w h).dirty_region.y1 ≤ py ∧
      py < (video_mark_dirty st x y w h).dirty_region.y2) ∧
    (video_mark_dirty st x y w h).dirty_region.x1
      ≤ (video_mark_dirty st x y w h).dirty_region.x2 ∧
    (video_mark_dirty st x y w h).dirty_region.x2 ≤ st.width ∧
    (video_mark_dirty st x y w h).dirty_region.y1
      ≤ (video_mark_dirty st x y w h).dirty_region.y2 ∧
    (video_mark_dirty st x y w h).dirty_region.y2 ≤ st.height := by
  have ex : u32 (x + w) = x + w := u32_of_lt _ hxw
  have ey : u32 (y + h) = y + h := u32_of_lt _ hyh
  cases hd : st.dirty_region.dirty
  · rw [mark_dirty_first st x y w h hd, ex, ey]
    simp only [MIN_eq, Bool.false_eq_true, if_false, false_and, or_false, true_and]
    refine ⟨?_, ?_, ?_, ?_, ?_⟩
    · intro px py hpx hpy hin
      omega
    all_goals omega
  · rw [mark_dirty_merge st x y w h hd, ex, ey]
    simp only [MIN_eq, MAX_eq, if_true, true_and]
    refine ⟨?_, ?_, ?_, ?_, ?_⟩
    · intro px py hpx hpy hin
      omega
    all_goals omega

end Video

namespace Video

/-- The dirty rectangle of console0 after a rectangle on the screen is marked. -/
theorem mark_dirty_union_witness :
    (video_mark_dirty console0 10 20 30 40).dirty_region.dirty = true ∧
    (video_mark_dirty console0 10 20 30 40).dirty_region.x1
      ≤ (video_mark_dirty console0 10 20 30 40).dirty_region.x2 ∧
    (video_mark_dirty console0 10 20 30 40).dirty_region.x2 ≤ console0.width ∧
    (video_mark_dirty console0 10 20 30 40).dirty_region.y1
      ≤ (video_mark_dirty console0 10 20 30 40).dirty_region.y2 ∧
    (video_mark_dirty console0 10 20 30 40).dirty_region.y2 ≤ console0.height :=
  ⟨(mark_dirty_union console0 10 20 30 40 (by decide) (by decide) (by decide)
      (by decide)).1,
    (mark_dirty_union console0 10 20 30 40 (by decide) (by decide) (by decide)
      (by decide)).2.2.2.2.2.2⟩

/-- C18 as stated fails: on the 720 x 400 console with a clear dirty flag, marking the
rectangle [730, 735) x [0, 5), which lies to the right of the screen, leaves x1 = 730 and
x2 = 720: only x2 and y2 are cut to the screen, and x1 <= x2 does not hold. -/
theorem mark_dirty_off_screen_inverts :
    730 + 5 < 4294967296 ∧ console0.dirty_region.dirty = false ∧ console0.width = 720 ∧
    (video_mark_dirty console0 730 0 5 5).dirty_region
      = { x1 := 730, y1 := 0, x2 := 720, y2 := 5, dirty := true } ∧
    ¬ ((video_mark_dirty console0 730 0 5 5).dirty_region.x1
      ≤ (video_mark_dirty console0 730 0 5 5).dirty_region.x2) := by
  decide

/-- The row loop of video_draw_rect leaves alone every word outside the runs it fills. -/
theorem rect_rows_miss (color ts x0 count : Nat) :
    ∀ (n y : Nat) (m : Nat → Nat) (t : Nat),
      (∀ yy, y ≤ yy → yy < y + n → ∀ k, k < count → t ≠ u32 (yy * ts) + x0 + k) →
      rect_rows color ts x0 count n y m t = m t := by
  intro n
  induction n with
  | zero => intro y m t _; rfl
  | succ n ih =>
    intro y m t h
    rw [rect_rows]
    rw [ih (y + 1) _ t (fun yy h1 h2 k hk => h yy (by omega) (by omega) k hk),
      fill_words_apply, if_neg]
    intro hc
    exact h y (Nat.le_refl y) (by omega) (t - (u32 (y * ts) + x0)) (by omega) (by omega)

/-- The row loop of video_draw_rect stores the colour in every word of every run. -/
theorem rect_rows_hit (color ts x0 count : Nat) :
    ∀ (n y : Nat) (m : Nat → Nat) (yy k : Nat), y ≤ yy → yy < y + n → k < count →
      rect_rows color ts x0 count n y m (u32 (yy * ts) + x0 + k) = color := by
  intro n
  induction n with
  | zero => intro y m yy k h1 h2; omega
  | succ n ih =>
    intro y m yy k h1 h2 hk
    rw [rect_rows]
    by_cases hy : yy = y
    · subst hy
      -- either a later row writes the word again, or this row's fill stands
      by_cases hl : ∃ y2 k2, yy + 1 ≤ y2 ∧ y2 < yy + 1 + n ∧ k2 < count ∧
          u32 (yy * ts) + x0 + k = u32 (y2 * ts) + x0 + k2
      · obtain ⟨y2, k2, a1, a2, a3, a4⟩ := hl
        rw [a4]
        exact ih (yy + 1) _ y2 k2 a1 a2 a3
      · rw [rect_rows_miss color ts x0 count n (yy + 1) _ _
          (fun y2 b1 b2 k2 b3 b4 => hl ⟨y2, k2, b1, b2, b3, b4⟩),
          fill_words_apply, if_pos (by omega)]
    · exact ih (y + 1) _ yy k (by omega) (by omega) hk

/-- The dirty rectangle after video_mark_dirty, when x+w and y+h fit 32 bits. -/
theorem mark_dirty_region_eq (st : VideoState) (x y w h : Nat)
    (hxw : x + w < 4294967296) (hyh : y + h < 4294967296) :
    (video_mark_dirty st x y w h).dirty_region
      = { x1 := if st.dirty_region.dirty then min st.dirty_region.x1 x else x,
          y1 := if st.dirty_region.dirty then min st.dirty_region.y1 y else y,
          x2 := min (if st.dirty_region.dirty then max st.dirty_region.x2 (x + w) else x + w)
            st.width,
          y2 := min (if st.dirty_region.dirty then max st.dirty_region.y2 (y + h) else y + h)
            st.height,
          dirty := true } := by
  have ex : u32 (x + w) = x + w := u32_of_lt _ hxw
  have ey : u32 (y + h) = y + h := u32_of_lt _ hyh
  cases hd : st.dirty_region.dirty
  · rw [mark_dirty_first st x y w h hd, ex, ey]
    simp [MIN_eq]
  · rw [mark_dirty_merge st x y w h hd, ex, ey]
    simp [MIN_eq, MAX_eq]

/-- A row below the screen height starts at a word index that fits uint32_t. -/
theorem row_offset_lt (S H y : Nat) (hy : y ≤ H) (h : S * H < 4294967296) :
    y * S < 4294967296 := by
  have : y * S ≤ H * S := Nat.mul_le_mul_right S hy
  rw [Nat.mul_comm H S] at this
  omega

theorem target_stride_ok (st : VideoState) (hok : screen_ok st)
    (hS : st.stride < 4294967296) : target_stride st = st.stride := by
  unfold target_stride
  cases hd : st.double_buffering_enabled
  · simp [u32_of_lt _ hS]
  · simp [hok.2.2 hd, u32_of_lt _ hS]

/-- When y1 is not the largest uint32_t, video_draw_rect returns: each row from y0 to y1 is
filled with x1 - x0 + 1 words and the rectangle is marked dirty. -/
theorem draw_rect_eq (st : VideoState) (x0 y0 x1 y1 color : Nat)
    (hy : u32 y1 ≠ 4294967295) :
    video_draw_rect st { x := x0, y := y0 } { x := x1, y := y1 } color
      = some (video_mark_dirty
          (set_target st
            (rect_rows color (target_stride st) (u32 x0)
              (u32 (sub32 (u32 x1) (u32 x0) + 1)) (u32 y1 + 1 - u32 y0) (u32 y0)
              (target_buffer st)))
          (u32 x0) (u32 y0) (u32 (sub32 (u32 x1) (u32 x0) + 1))
          (u32 (sub32 (u32 y1) (u32 y0) + 1))) := by
  simp only [video_draw_rect, hy, if_false]

/-- C11. For a rectangle x0 <= x1 < W, y0 <= y1 < H, video_draw_rect returns; afterwards
every pixel (px, py) of the draw target with x0 <= px <= x1 and y0 <= py <= y1 has the
colour, every other word of the draw target is unchanged, and the dirty flag is set with a
dirty rectangle that encloses [x0, x1+1) x [y0, y1+1). -/
theorem draw_rect_fills (st : VideoState) (x0 y0 x1 y1 c : Nat) (hok : screen_ok st)
    (hx : x0 ≤ x1) (hxw : x1 < st.width) (hy : y0 ≤ y1) (hyh : y1 < st.height) :
    ∃ st1, video_draw_rect st { x := x0, y := y0 } { x := x1, y := y1 } c = some st1 ∧
      (∀ px py, x0 ≤ px → px ≤ x1 → y0 ≤ py → py ≤ y1 →
        target_buffer st1 (py * st.stride + px) = c) ∧
      (∀ t, (∀ px py, x0 ≤ px → px ≤ x1 → y0 ≤ py → py ≤ y1 → t ≠ py * st.stride + px) →
        target_buffer st1 t = target_buffer st t) ∧
      st1.dirty_region.dirty = true ∧
      st1.dirty_region.x1 ≤ x0 ∧ x1 + 1 ≤ st1.dirty_region.x2 ∧
      st1.dirty_region.y1 ≤ y0 ∧ y1 + 1 ≤ st1.dirty_region.y2 := by
  have hfit := hok.1
  have hsmall := hok.2.1
  have hH : st.height ≤ st.stride * st.height := Nat.le_mul_of_pos_left _ (by omega)
  have hS : st.stride ≤ st.stride * st.height := Nat.le_mul_of_pos_right _ (by omega)
  have ex0 : u32 x0 = x0 := u32_of_lt _ (by omega)
  have ex1 : u32 x1 = x1 := u32_of_lt _ (by omega)
  have ey0 : u32 y0 = y0 := u32_of_lt _ (by omega)
  have ey1 : u32 y1 = y1 := u32_of_lt _ (by omega)
  have ecx : u32 (sub32 x1 x0 + 1) = x1 - x0 + 1 := by unfold u32 sub32; omega
  have ecy : u32 (sub32 y1 y0 + 1) = y1 - y0 + 1 := by unfold u32 sub32; omega
  have hts := target_stride_ok st hok (by omega)
  have hrow : ∀ yy, yy ≤ y1 → u32 (yy * st.stride) = yy * st.stride := fun yy hyy =>
    u32_of_lt _ (row_offset_lt _ _ yy (by omega) hsmall)
  have heq := draw_rect_eq st x0 y0 x1 y1 c (by rw [ey1]; omega)
  rw [ex0, ex1, ey0, ey1, ecx, ecy, hts] at heq
  refine ⟨video_mark_dirty
    (set_target st (rect_rows c st.stride x0 (x1 - x0 + 1) (y1 + 1 - y0) y0
      (target_buffer st))) x0 y0 (x1 - x0 + 1) (y1 - y0 + 1), heq, ?_, ?_, ?_⟩
  · intro px py h1 h2 h3 h4
    rw [target_buffer_mark_dirty, target_buffer_set_target]
    have := rect_rows_hit c st.stride x0 (x1 - x0 + 1) (y1 + 1 - y0) y0 (target_buffer st)
      py (px - x0) h3 (by omega) (by omega)
    rw [hrow py h4] at this
    rw [← this]
    congr 1
    omega
  · intro t ht
    rw [target_buffer_mark_dirty, target_buffer_set_target]
    apply rect_rows_miss
    intro yy h1 h2 k hk
    rw [hrow yy (by omega)]
    have := ht (x0 + k) yy (by omega) (by omega) h1 (by omega)
    omega
  · rw [mark_dirty_region_eq _ x0 y0 (x1 - x0 + 1) (y1 - y0 + 1) (by omega) (by omega)]
    simp only [set_target_dirty_region, set_target_width, set_target_height]
    cases st.dirty_region.dirty
    · simp only [Bool.false_eq_true, if_false]
      refine ⟨trivial, ?_, ?_, ?_, ?_⟩ <;> omega
    · simp only [if_true]
      refine ⟨trivial, ?_, ?_, ?_, ?_⟩ <;> omega

theorem console0_screen_ok : screen_ok console0 :=
  ⟨by decide, by decide, fun _ => rfl⟩

/-- The rectangle (10,10)-(19,19) drawn in red on the 720 x 400 console. -/
theorem draw_rect_fills_witness :
    ∃ st1, video_draw_rect console0 { x := 10, y := 10 } { x := 19, y := 19 } 0xFF0000
        = some st1 ∧
      (∀ px py, 10 ≤ px → px ≤ 19 → 10 ≤ py → py ≤ 19 →
        target_buffer st1 (py * console0.stride + px) = 0xFF0000) ∧
      (∀ t, (∀ px py, 10 ≤ px → px ≤ 19 → 10 ≤ py → py ≤ 19 →
          t ≠ py * console0.stride + px) →
        target_buffer st1 t = target_buffer console0 t) ∧
      st1.dirty_region.dirty = true ∧
      st1.dirty_region.x1 ≤ 10 ∧ 19 + 1 ≤ st1.dirty_region.x2 ∧
      st1.dirty_region.y1 ≤ 10 ∧ 19 + 1 ≤ st1.dirty_region.y2 :=
  draw_rect_fills console0 10 10 19 19 0xFF0000 console0_screen_ok (by decide) (by decide)
    (by decide) (by decide)

/-- Every fetch adds one to the global timestamp, modulo 2^32. -/
theorem get_glyph_timestamp (env : Env) (st : VideoState) (c color : Nat) :
    (video_get_glyph_cache env st c color).1.cache_timestamp
      = u32 (st.cache_timestamp + 1) := by
  by_cases h : (st.glyph_cache (c % 256)).valid = true
  · rw [get_glyph_hit env st c color h]
  · rw [get_glyph_miss env st c color h]

theorem drawn_cache_timestamp (env : Env) (st : VideoState) (c x y color : Nat) :
    (drawn env st c x y color).cache_timestamp = u32 (st.cache_timestamp + 1) := by
  rw [← get_glyph_timestamp env st c color]
  simp [drawn]

theorem drawn_screen_ok (env : Env) (st : VideoState) (c x y color : Nat)
    (h : screen_ok st) : screen_ok (drawn env st c x y color) := by
  unfold screen_ok at h ⊢
  simpa using h

/-- Word (i, j) of a glyph cell drawn inside the screen, by pixel coordinates. -/
theorem drawn_pixel (env : Env) (st : VideoState) (c x y color : Nat) (hok : screen_ok st)
    (hx : x + 9 ≤ st.width) (hy : y + 16 ≤ st.height) (i j : Nat) (hi : i < 16)
    (hj : j < 9) :
    target_buffer (drawn env st c x y color) ((y + i) * st.stride + (x + j))
      = (video_get_glyph_cache env st c color).1.glyph_cache_memory
          (c % 256 * 9 * 16 + i * 9 + j) := by
  have hfit := hok.1
  have hsmall := hok.2.1
  have hS : st.stride ≤ st.stride * st.height := Nat.le_mul_of_pos_right _ (by omega)
  have hts := target_stride_ok st hok (by omega)
  have hcell := drawn_cell env st c x y color (by rw [hts]; omega) i j hi hj
  rw [hts, u32_of_lt _ (row_offset_lt _ _ y (by omega) hsmall)] at hcell
  rw [← hcell]
  congr 1
  rw [Nat.add_mul]
  omega

/-- C16. For a cell inside the screen, two calls of video_draw_char with the same arguments
in succession both return; the 9 x 16 cell at (x, y) of the draw target has the same pixels
after the second call as after the first, and each call adds exactly 1, modulo 2^32, to the
global cache timestamp. -/
theorem draw_char_twice (env : Env) (st : VideoState) (ch x y color : Nat)
    (hok : screen_ok st) (hwf : cache_wf st)
    (hx : x + 9 ≤ st.width) (hy : y + 16 ≤ st.height) :
    ∃ st1 st2, video_draw_char env st ch x y color = some st1 ∧
      video_draw_char env st1 ch x y color = some st2 ∧
      (∀ i j, i < 16 → j < 9 →
        target_buffer st2 ((y + i) * st.stride + (x + j))
          = target_buffer st1 ((y + i) * st.stride + (x + j))) ∧
      st1.cache_timestamp = (st.cache_timestamp + 1) % 4294967296 ∧
      st2.cache_timestamp = (st1.cache_timestamp + 1) % 4294967296 := by
  have hwf1 := drawn_cache_wf env st ch x y color hwf
  have hok1 := drawn_screen_ok env st ch x y color hok
  refine ⟨drawn env st ch x y color, drawn env (drawn env st ch x y color) ch x y color,
    draw_char_eq_drawn env st ch x y color hwf,
    draw_char_eq_drawn env _ ch x y color hwf1, ?_,
    drawn_cache_timestamp env st ch x y color,
    drawn_cache_timestamp env _ ch x y color⟩
  intro i j hi hj
  have h1 := drawn_pixel env st ch x y color hok hx hy i j hi hj
  have h2 := drawn_pixel env (drawn env st ch x y color) ch x y color hok1
    (by simpa using hx) (by simpa using hy) i j hi hj
  rw [drawn_stride] at h2
  have hv : ((drawn env st ch x y color).glyph_cache (ch % 256)).valid = true := by
    rw [drawn_glyph_cache]
    exact get_glyph_valid env st ch color
  rw [h2, get_glyph_memory_hit env _ ch color hv, h1, drawn_glyph_cache_memory]

/-- The byte 'A' drawn twice at pixel (9, 16) of the 720 x 400 console. -/
theorem draw_char_twice_witness :
    ∃ st1 st2, video_draw_char env0 console0 65 9 16 0xAAAAAA = some st1 ∧
      video_draw_char env0 st1 65 9 16 0xAAAAAA = some st2 ∧
      (∀ i j, i < 16 → j < 9 →
        target_buffer st2 ((16 + i) * console0.stride + (9 + j))
          = target_buffer st1 ((16 + i) * console0.stride + (9 + j))) ∧
      st1.cache_timestamp = (console0.cache_timestamp + 1) % 4294967296 ∧
      st2.cache_timestamp = (st1.cache_timestamp + 1) % 4294967296 :=
  draw_char_twice env0 console0 65 9 16 0xAAAAAA console0_screen_ok console0_cache_wf
    (by decide) (by decide)

set_option maxRecDepth 100000 in
/-- C15 at the failing input: with a font ROM of 0xFF bytes and zero bytes below it, the
byte 200 is drawn on the 720 x 400 console. The cache entry 200 is filled, but from the 16
bytes at offset (200 - 256) * 16 = -896 from the font symbol, not from those at 200 * 16:
bit 7 of ROM byte 3200 is set, yet word (0, 0) of the bitmap is the background 0, not the
colour. -/
theorem high_byte_reads_below_font :
    ∃ st1, video_draw_char env2 console0 200 0 0 0xFF0000 = some st1 ∧
      (console0.glyph_cache 200).valid = false ∧
      (st1.glyph_cache 200).valid = true ∧
      (st1.glyph_cache 200).bitmap = some (200 * 9 * 16) ∧
      (env2.ascii_font (200 * 16 + 0)).testBit 7 = true ∧
      char_offset 200 * 16 = -896 ∧
      st1.glyph_cache_memory (200 * 9 * 16 + 0 * 9 + 0) = console0.back_color ∧
      st1.glyph_cache_memory (200 * 9 * 16 + 0 * 9 + 0) ≠ 0xFF0000 := by
  refine ⟨_, draw_char_eq_drawn env2 console0 200 0 0 0xFF0000 console0_cache_wf, ?_⟩
  decide

/-- The partial refresh with the flag set on a rectangle of zero width or zero height
returns before it clears the flag. -/
theorem partial_refresh_empty (env : Env) (st : VideoState)
    (h : sub32 st.dirty_region.x2 st.dirty_region.x1 = 0 ∨
      sub32 st.dirty_region.y2 st.dirty_region.y1 = 0) :
    video_partial_refresh env st = st := by
  simp only [video_partial_refresh, h, if_true, ite_self]

/-- C12 at the failing input: double buffering on, dirty flag set, dirty rectangle
[5, 5) x [5, 9) (empty, inside the 720 x 400 screen). video_partial_refresh returns at the
test of the width and leaves the state as it is: the dirty flag is still set. -/
theorem partial_refresh_empty_keeps_flag :
    console_empty_dirty.double_buffering_enabled = true ∧
    console_empty_dirty.dirty_region
      = { x1 := 5, y1 := 5, x2 := 5, y2 := 9, dirty := true } ∧
    (video_partial_refresh env0 console_empty_dirty).dirty_region.dirty = true := by
  refine ⟨rfl, rfl, ?_⟩
  rw [partial_refresh_empty env0 console_empty_dirty (Or.inl (by decide))]
  rfl

theorem console2_cache_wf : cache_wf console2 := by
  intro k _ hk
  simp [console2, console0] at hk

set_option maxRecDepth 100000 in
/-- C19 at the failing input: on the 720 x 400 console without double buffering,
video_put_char('A') lights pixel (0, 0) of the visible buffer in the foreground colour;
video_put_string("A") makes the same call and then the partial refresh, which copies the
unused back buffer over the dirty rectangle: pixel (0, 0) of the visible buffer is 0. -/
theorem put_string_unbuffered_erases :
    console2.double_buffering_enabled = false ∧
    ∃ st1 st2, video_put_char env0 console2 65 console2.fore_color = some st1 ∧
      video_put_string env0 console2 [65] = some st2 ∧
      st2 = video_partial_refresh env0 st1 ∧
      st1.buffer (0 * 720 + 0) = 0xAAAAAA ∧ st2.buffer (0 * 720 + 0) = 0 := by
  have hput := put_char_plain env0 console2 65 console2.fore_color (by decide) (by decide)
    (by decide) (by decide) (by decide) (by decide) (by decide) console2_cache_wf
  refine ⟨rfl, _, _, hput, ?_, rfl, ?_, ?_⟩
  · simp only [video_put_string, put_chars, hput]
    simp
  · decide
  · decide

@[simp] theorem refresh_width (env : Env) (st : VideoState) :
    (video_refresh env st).width = st.width := by
  unfold video_refresh; split <;> rfl

@[simp] theorem refresh_height (env : Env) (st : VideoState) :
    (video_refresh env st).height = st.height := by
  unfold video_refresh; split <;> rfl

@[simp] theorem refresh_stride (env : Env) (st : VideoState) :
    (video_refresh env st).stride = st.stride := by
  unfold video_refresh; split <;> rfl

@[simp] theorem refresh_x (env : Env) (st : VideoState) :
    (video_refresh env st).x = st.x := by
  unfold video_refresh; split <;> rfl

@[simp] theorem refresh_y (env : Env) (st : VideoState) :
    (video_refresh env st).y = st.y := by
  unfold video_refresh; split <;> rfl

@[simp] theorem refresh_cx (env : Env) (st : VideoState) :
    (video_refresh env st).cx = st.cx := by
  unfold video_refresh; split <;> rfl

@[simp] theorem refresh_cy (env : Env) (st : VideoState) :
    (video_refresh env st).cy = st.cy := by
  unfold video_refresh; split <;> rfl

@[simp] theorem refresh_c_width (env : Env) (st : VideoState) :
    (video_refresh env st).c_width = st.c_width := by
  unfold video_refresh; split <;> rfl

@[simp] theorem refresh_c_height (env : Env) (st : VideoState) :
    (video_refresh env st).c_height = st.c_height := by
  unfold video_refresh; split <;> rfl

@[simp] theorem refresh_fore_color (env : Env) (st : VideoState) :
    (video_refresh env st).fore_color = st.fore_color := by
  unfold video_refresh; split <;> rfl

@[simp] theorem refresh_back_color (env : Env) (st : VideoState) :
    (video_refresh env st).back_color = st.back_color := by
  unfold video_refresh; split <;> rfl

@[simp] theorem refresh_glyph_cache_memory (env : Env) (st : VideoState) :
    (video_refresh env st).glyph_cache_memory = st.glyph_cache_memory := by
  unfold video_refresh; split <;> rfl

@[simp] theorem refresh_dirty_region (env : Env) (st : VideoState) :
    (video_refresh env st).dirty_region = st.dirty_region := by
  unfold video_refresh; split <;> rfl

@[simp] theorem refresh_glyph_cache (env : Env) (st : VideoState) :
    (video_refresh env st).glyph_cache = st.glyph_cache := by
  unfold video_refresh; split <;> rfl

@[simp] theorem refresh_cache_timestamp (env : Env) (st : VideoState) :
    (video_refresh env st).cache_timestamp = st.cache_timestamp := by
  unfold video_refresh; split <;> rfl

@[simp] theorem refresh_double_buffering_enabled (env : Env) (st : VideoState) :
    (video_refresh env st).double_buffering_enabled = st.double_buffering_enabled := by
  unfold video_refresh; split <;> rfl

@[simp] theorem refresh_back_buffer (env : Env) (st : VideoState) :
    (video_refresh env st).back_buffer = st.back_buffer := by
  unfold video_refresh; split <;> rfl

@[simp] theorem refresh_back_buffer_stride (env : Env) (st : VideoState) :
    (video_refresh env st).back_buffer_stride = st.back_buffer_stride := by
  unfold video_refresh; split <;> rfl

@[simp] theorem target_buffer_refresh (env : Env) (st : VideoState) :
    target_buffer (video_refresh env st) = target_buffer st := by
  unfold target_buffer video_refresh
  cases h : st.double_buffering_enabled <;> simp [h]

@[simp] theorem target_stride_set_target (st : VideoState) (m : Nat → Nat) :
    target_stride (set_target st m) = target_stride st := by
  unfold target_stride
  simp

/-- Function video_scroll is the cell advance followed, when the cell is then below the
grid, by the scroll proper. -/
theorem video_scroll_eq (env : Env) (st : VideoState) :
    video_scroll env st
      = if (cell_advance st).cy ≥ (cell_advance st).c_height then
          scroll_up env (cell_advance st)
        else some (cell_advance st) := rfl


/-- The end of a scroll leaves the draw target alone. -/
@[simp] theorem target_buffer_scroll_finish (env : Env) (st : VideoState) :
    target_buffer (scroll_finish env st) = target_buffer st := by
  unfold scroll_finish
  rw [target_buffer_refresh, target_buffer_mark_dirty]
  unfold target_buffer
  rfl

/-- The end of a scroll sets the row to c_height - 1. -/
@[simp] theorem scroll_finish_cy (env : Env) (st : VideoState) :
    (scroll_finish env st).cy = sub32 st.c_height 1 := by
  unfold scroll_finish
  rw [refresh_cy, mark_dirty_cy]

@[simp] theorem scroll_finish_cx (env : Env) (st : VideoState) :
    (scroll_finish env st).cx = st.cx := by
  unfold scroll_finish
  rw [refresh_cx, mark_dirty_cx]

@[simp] theorem scroll_finish_c_width (env : Env) (st : VideoState) :
    (scroll_finish env st).c_width = st.c_width := by
  unfold scroll_finish
  rw [refresh_c_width, mark_dirty_c_width]

@[simp] theorem scroll_finish_c_height (env : Env) (st : VideoState) :
    (scroll_finish env st).c_height = st.c_height := by
  unfold scroll_finish
  rw [refresh_c_height, mark_dirty_c_height]

@[simp] theorem scroll_finish_width (env : Env) (st : VideoState) :
    (scroll_finish env st).width = st.width := by
  unfold scroll_finish
  rw [refresh_width, mark_dirty_width]

@[simp] theorem scroll_finish_height (env : Env) (st : VideoState) :
    (scroll_finish env st).height = st.height := by
  unfold scroll_finish
  rw [refresh_height, mark_dirty_height]

@[simp] theorem scroll_finish_stride (env : Env) (st : VideoState) :
    (scroll_finish env st).stride = st.stride := by
  unfold scroll_finish
  rw [refresh_stride, mark_dirty_stride]

@[simp] theorem scroll_finish_back_color (env : Env) (st : VideoState) :
    (scroll_finish env st).back_color = st.back_color := by
  unfold scroll_finish
  rw [refresh_back_color, mark_dirty_back_color]

@[simp] theorem scroll_finish_fore_color (env : Env) (st : VideoState) :
    (scroll_finish env st).fore_color = st.fore_color := by
  unfold scroll_finish
  rw [refresh_fore_color, mark_dirty_fore_color]

@[simp] theorem scroll_finish_glyph_cache (env : Env) (st : VideoState) :
    (scroll_finish env st).glyph_cache = st.glyph_cache := by
  unfold scroll_finish
  rw [refresh_glyph_cache, mark_dirty_glyph_cache]

@[simp] theorem scroll_finish_glyph_cache_memory (env : Env) (st : VideoState) :
    (scroll_finish env st).glyph_cache_memory = st.glyph_cache_memory := by
  unfold scroll_finish
  rw [refresh_glyph_cache_memory, mark_dirty_glyph_cache_memory]

@[simp] theorem scroll_finish_double_buffering_enabled (env : Env) (st : VideoState) :
    (scroll_finish env st).double_buffering_enabled = st.double_buffering_enabled := by
  unfold scroll_finish
  rw [refresh_double_buffering_enabled, mark_dirty_double_buffering_enabled]

@[simp] theorem scroll_finish_back_buffer_stride (env : Env) (st : VideoState) :
    (scroll_finish env st).back_buffer_stride = st.back_buffer_stride := by
  unfold scroll_finish
  rw [refresh_back_buffer_stride, mark_dirty_back_buffer_stride]

/-- When the screen height is not the largest uint32_t the scroll proper returns; the draw
target is shifted and its band filled, the row becomes c_height - 1, and the column, the
geometry, the colours and the glyph cache are as before. -/
theorem scroll_up_spec (env : Env) (st : VideoState) (hH : u32 st.height ≠ 4294967295) :
    ∃ st1, scroll_up env st = some st1 ∧
      target_buffer st1
        = rect_rows st.back_color (target_stride st) (u32 0)
            (u32 (sub32 (u32 st.width) (u32 0) + 1))
            (u32 st.height + 1 - u32 (u32 (sub64 st.height 16)))
            (u32 (u32 (sub64 st.height 16)))
            (memmove (target_buffer st) 0 (u64 (st.stride * 16))
              (u32 (u64 (st.stride * u32 (sub64 st.height 16) * 4)) / 4)) ∧
      st1.cx = st.cx ∧ st1.cy = sub32 st.c_height 1 ∧
      st1.c_width = st.c_width ∧ st1.c_height = st.c_height ∧
      st1.width = st.width ∧ st1.height = st.height ∧ st1.stride = st.stride ∧
      st1.back_color = st.back_color ∧ st1.fore_color = st.fore_color ∧
      st1.glyph_cache = st.glyph_cache ∧ st1.glyph_cache_memory = st.glyph_cache_memory ∧
      st1.double_buffering_enabled = st.double_buffering_enabled ∧
      st1.back_buffer_stride = st.back_buffer_stride := by
  unfold scroll_up
  simp only [set_target_width, set_target_height, set_target_back_color]
  rw [draw_rect_eq _ _ _ _ _ _ hH]
  refine ⟨_, rfl, ?_⟩
  simp only [target_buffer_scroll_finish, scroll_finish_cy, scroll_finish_cx,
    scroll_finish_c_width, scroll_finish_c_height, scroll_finish_width,
    scroll_finish_height, scroll_finish_stride, scroll_finish_back_color,
    scroll_finish_fore_color, scroll_finish_glyph_cache, scroll_finish_glyph_cache_memory,
    scroll_finish_double_buffering_enabled, scroll_finish_back_buffer_stride,
    target_buffer_mark_dirty, target_buffer_set_target, target_stride_set_target,
    mark_dirty_cx, mark_dirty_c_width, mark_dirty_c_height, mark_dirty_width,
    mark_dirty_height, mark_dirty_stride, mark_dirty_back_color, mark_dirty_fore_color,
    mark_dirty_glyph_cache, mark_dirty_glyph_cache_memory,
    mark_dirty_double_buffering_enabled, mark_dirty_back_buffer_stride, set_target_cx,
    set_target_c_width, set_target_c_height, set_target_width, set_target_height,
    set_target_stride, set_target_back_color, set_target_fore_color, set_target_glyph_cache,
    set_target_glyph_cache_memory, set_target_double_buffering_enabled,
    set_target_back_buffer_stride, and_self]

theorem cell_advance_frame (st : VideoState) :
    (cell_advance st).width = st.width ∧ (cell_advance st).height = st.height ∧
    (cell_advance st).stride = st.stride ∧ (cell_advance st).c_width = st.c_width ∧
    (cell_advance st).c_height = st.c_height ∧
    (cell_advance st).back_color = st.back_color ∧
    (cell_advance st).fore_color = st.fore_color ∧
    (cell_advance st).glyph_cache = st.glyph_cache ∧
    (cell_advance st).glyph_cache_memory = st.glyph_cache_memory ∧
    (cell_advance st).double_buffering_enabled = st.double_buffering_enabled ∧
    (cell_advance st).back_buffer_stride = st.back_buffer_stride ∧
    target_buffer (cell_advance st) = target_buffer st ∧
    target_stride (cell_advance st) = target_stride st := by
  unfold cell_advance
  split <;> exact ⟨rfl, rfl, rfl, rfl, rfl, rfl, rfl, rfl, rfl, rfl, rfl, rfl, rfl⟩

/-- The cell after the advance: column 1 of the next row from the wrap column on, the next
column otherwise. -/
theorem cell_advance_cell (st : VideoState) :
    (st.c_width ≤ st.cx → (cell_advance st).cx = 1 ∧ (cell_advance st).cy = u32 (st.cy + 1)) ∧
    (st.cx < st.c_width →
      (cell_advance st).cx = u32 (st.cx + 1) ∧ (cell_advance st).cy = st.cy) := by
  unfold cell_advance
  constructor
  · intro h
    rw [if_pos h]
    exact ⟨rfl, rfl⟩
  · intro h
    rw [if_neg (by omega)]
    exact ⟨rfl, rfl⟩

/-- What a scroll does to the draw target of a frame of less than 2^32 bytes, H >= 16: every
pixel row above the bottom band takes the content of the row 16 below it; the rows H-16 to
H-1 are filled with the background in the columns 0 to W; and so are the W+1 words that
start at index stride*H, the row H just past the frame. The row becomes c_height - 1
(as uint32_t). -/
theorem scroll_pixels (env : Env) (st : VideoState) (hok : screen_ok st)
    (hbytes : st.stride * st.height * 4 < 4294967296) (hH : 16 ≤ st.height)
    (hW : 1 ≤ st.width) (hcy : (cell_advance st).c_height ≤ (cell_advance st).cy) :
    ∃ st1, video_scroll env st = some st1 ∧
      (∀ py px, py + 16 < st.height → px < st.stride →
        target_buffer st1 (py * st.stride + px)
          = target_buffer st ((py + 16) * st.stride + px)) ∧
      (∀ py px, st.height - 16 ≤ py → py < st.height → px ≤ st.width →
        target_buffer st1 (py * st.stride + px) = st.back_color) ∧
      (∀ k, k ≤ st.width → target_buffer st1 (st.stride * st.height + k) = st.back_color) ∧
      st1.cy = sub32 st.c_height 1 ∧ st1.cx = (cell_advance st).cx ∧
      st1.c_width = st.c_width ∧ st1.c_height = st.c_height ∧
      st1.height = st.height ∧ st1.glyph_cache = st.glyph_cache := by
  obtain ⟨fw, fh, fs, fcw, fch, fbc, _, fgc, _, fdbe, fbbs, ftb, fts⟩ := cell_advance_frame st
  have hfit := hok.1
  have hsmall := hok.2.1
  have hS : st.stride ≤ st.stride * st.height := Nat.le_mul_of_pos_right _ (by omega)
  have hHle : st.height ≤ st.stride * st.height := Nat.le_mul_of_pos_left _ (by omega)
  have hts := target_stride_ok st hok (by omega)
  have e0 : u32 0 = 0 := rfl
  have eW : u32 st.width = st.width := u32_of_lt _ (by omega)
  have eH : u32 st.height = st.height := u32_of_lt _ (by omega)
  have eS64 : sub64 st.height 16 = st.height - 16 := by unfold sub64; omega
  have eSH : u32 (st.height - 16) = st.height - 16 := u32_of_lt _ (by omega)
  have ecount : u32 (sub32 st.width 0 + 1) = st.width + 1 := by unfold u32 sub32; omega
  have hmul : st.stride * (st.height - 16) ≤ st.stride * st.height :=
    Nat.mul_le_mul_left _ (by omega)
  have esize : u32 (u64 (st.stride * (st.height - 16) * 4)) / 4
      = st.stride * (st.height - 16) := by
    unfold u32 u64; omega
  have e16 : u64 (st.stride * 16) = st.stride * 16 := by
    have : st.stride * 16 ≤ st.stride * st.height := Nat.mul_le_mul_left _ hH
    unfold u64; omega
  have hrow : ∀ yy, yy ≤ st.height → u32 (yy * st.stride) = yy * st.stride := fun yy hyy =>
    u32_of_lt _ (row_offset_lt _ _ yy hyy hsmall)
  obtain ⟨st1, hs, htb, hcx, hcy1, hcw, hch, _, hh, _, _, _, hgc, _, _, _⟩ :=
    scroll_up_spec env (cell_advance st) (by rw [fh, eH]; omega)
  rw [fbc, fts, fw, fh, fs, ftb, hts, e0, eW, eH, eS64, eSH, eSH, ecount, esize, e16] at htb
  have hn : st.height + 1 - (st.height - 16) = 17 := by omega
  rw [hn] at htb
  refine ⟨st1, ?_, ?_, ?_, ?_, ?_, hcx, by rw [hcw, fcw], by rw [hch, fch], by rw [hh, fh],
    by rw [hgc, fgc]⟩
  · rw [video_scroll_eq, if_pos hcy]
    exact hs
  · intro py px hpy hpx
    have h1 : (py + 1) * st.stride ≤ (st.height - 16) * st.stride :=
      Nat.mul_le_mul_right _ (by omega)
    have h2 : (st.height - 16) * st.stride = st.stride * (st.height - 16) := Nat.mul_comm _ _
    rw [Nat.add_mul, Nat.one_mul] at h1
    rw [htb, rect_rows_miss]
    · have e : st.stride * 16 + (py * st.stride + px - 0) = (py + 16) * st.stride + px := by
        rw [Nat.add_mul]
        omega
      unfold memmove
      rw [if_pos ⟨Nat.zero_le _, by omega⟩, e]
    · intro yy hy1 hy2 k hk
      have h3 : (st.height - 16) * st.stride ≤ yy * st.stride :=
        Nat.mul_le_mul_right _ hy1
      rw [hrow yy (by omega)]
      omega
  · intro py px hy1 hy2 hpx
    have := rect_rows_hit st.back_color st.stride 0 (st.width + 1) 17 (st.height - 16)
      (memmove (target_buffer st) 0 (st.stride * 16) (st.stride * (st.height - 16)))
      py px hy1 (by omega) (by omega)
    rw [hrow py (by omega), Nat.add_zero] at this
    rw [htb]
    exact this
  · intro k hk
    have := rect_rows_hit st.back_color st.stride 0 (st.width + 1) 17 (st.height - 16)
      (memmove (target_buffer st) 0 (st.stride * 16) (st.stride * (st.height - 16)))
      st.height k (by omega) (by omega) (by omega)
    have e : st.height * st.stride = st.stride * st.height := Nat.mul_comm _ _
    rw [hrow st.height (Nat.le_refl _), Nat.add_zero, e] at this
    rw [htb]
    exact this
  · rw [hcy1, fch]

/-- C14 (as amended). On a frame of less than 2^32 bytes with W >= 9, H >= 32 and
c_height = H / 16, video_scroll called with cy = c_height returns; afterwards the pixels of
the character rows 0 .. c_height-2 of the draw target are those of the character rows
1 .. c_height-1 before the call, every pixel of the bottom 16 pixel rows H-16 .. H-1 has
the background colour, and these 16 rows are the bottom character row when H is a multiple
of 16. The row is then c_height - 1. -/
theorem scroll_shifts_rows (env : Env) (st : VideoState) (hok : screen_ok st)
    (hbytes : st.stride * st.height * 4 < 4294967296) (hW : 9 ≤ st.width)
    (hH : 32 ≤ st.height) (hch : st.c_height = st.height / 16) (hcy : st.cy = st.c_height) :
    ∃ st1, video_scroll env st = some st1 ∧
      (∀ k i px, k + 1 < st.c_height → i < 16 → px < st.width →
        target_buffer st1 ((16 * k + i) * st.stride + px)
          = target_buffer st ((16 * (k + 1) + i) * st.stride + px)) ∧
      (∀ py px, st.height - 16 ≤ py → py < st.height → px < st.width →
        target_buffer st1 (py * st.stride + px) = st.back_color) ∧
      (st.height = 16 * st.c_height → ∀ i px, i < 16 → px < st.width →
        target_buffer st1 ((16 * (st.c_height - 1) + i) * st.stride + px) = st.back_color) ∧
      st1.cy = st.c_height - 1 := by
  have hfit := hok.1
  have hsmall := hok.2.1
  have hHle : st.height ≤ st.stride * st.height := Nat.le_mul_of_pos_left _ (by omega)
  have hadv : (cell_advance st).c_height ≤ (cell_advance st).cy := by
    rw [(cell_advance_frame st).2.2.2.2.1]
    by_cases hx : st.c_width ≤ st.cx
    · rw [((cell_advance_cell st).1 hx).2, hcy, u32_of_lt _ (by omega)]
      omega
    · rw [((cell_advance_cell st).2 (by omega)).2, hcy]
  obtain ⟨st1, hs, hshift, hband, _, hcy1, _⟩ :=
    scroll_pixels env st hok hbytes (by omega) (by omega) hadv
  refine ⟨st1, hs, ?_, ?_, ?_, ?_⟩
  · intro k i px hk hi hpx
    have e : 16 * k + i + 16 = 16 * (k + 1) + i := by omega
    have := hshift (16 * k + i) px (by omega) (by omega)
    rw [this, e]
  · intro py px h1 h2 hpx
    exact hband py px h1 h2 (by omega)
  · intro hmul i px hi hpx
    exact hband _ px (by omega) (by omega) (by omega)
  · rw [hcy1]
    unfold sub32
    omega

theorem small0_moved_ok : screen_ok (video_move_to small0 0 2) :=
  ⟨by decide, by decide, fun h => absurd h (by decide)⟩

/-- A scroll of the 18 x 40 console from cell (0, 2). -/
theorem scroll_shifts_rows_witness :
    ∃ st1, video_scroll env0 (video_move_to small0 0 2) = some st1 ∧
      (∀ k i px, k + 1 < (video_move_to small0 0 2).c_height → i < 16 →
        px < (video_move_to small0 0 2).width →
        target_buffer st1 ((16 * k + i) * (video_move_to small0 0 2).stride + px)
          = target_buffer (video_move_to small0 0 2)
              ((16 * (k + 1) + i) * (video_move_to small0 0 2).stride + px)) ∧
      (∀ py px, (video_move_to small0 0 2).height - 16 ≤ py →
        py < (video_move_to small0 0 2).height → px < (video_move_to small0 0 2).width →
        target_buffer st1 (py * (video_move_to small0 0 2).stride + px)
          = (video_move_to small0 0 2).back_color) ∧
      ((video_move_to small0 0 2).height = 16 * (video_move_to small0 0 2).c_height →
        ∀ i px, i < 16 → px < (video_move_to small0 0 2).width →
        target_buffer st1 ((16 * ((video_move_to small0 0 2).c_height - 1) + i)
            * (video_move_to small0 0 2).stride + px)
          = (video_move_to small0 0 2).back_color) ∧
      st1.cy = (video_move_to small0 0 2).c_height - 1 :=
  scroll_shifts_rows env0 (video_move_to small0 0 2) small0_moved_ok (by decide) (by decide)
    (by decide) (by decide) (by decide)

/-- C14 as stated fails: on the 18 x 40 console (c_height = 2, H not a multiple of 16) with
cy = c_height and grey pixels in the 8 rows left over below the last character row, after
video_scroll the pixel (0, 16), the top-left pixel of the bottom character row, is grey and
not the background colour: it is the pixel (0, 32) of before, and the band that is cleared
starts at row H - 16 = 24. -/
theorem scroll_leaves_leftover_rows :
    (video_move_to small0 0 2).cy = (video_move_to small0 0 2).c_height ∧
    (video_move_to small0 0 2).back_color = 0 ∧
    ∃ st1, video_scroll env0 (video_move_to small0 0 2) = some st1 ∧
      target_buffer st1
        ((16 * ((video_move_to small0 0 2).c_height - 1) + 0) * 18 + 0) = 0x777777 := by
  refine ⟨rfl, rfl, ?_⟩
  obtain ⟨st1, hs, hshift, _⟩ := scroll_pixels env0 (video_move_to small0 0 2)
    small0_moved_ok (by decide) (by decide) (by decide) (by decide)
  refine ⟨st1, hs, ?_⟩
  have := hshift 16 0 (by decide) (by decide)
  exact this.trans (by decide)

/-- C20 at the failing input: on the 18 x 40 console (720 words), a scroll from cell (0, 2),
where the row after the cell advance is c_height, clears the band with
video_draw_rect((0, H-16), (W, H)), whose corners are inclusive: the words 720 and 738, the
first and the last of the W+1 words of row H = 40, are past the end of the frame and are
overwritten with the background. -/
theorem scroll_writes_past_frame :
    (cell_advance (video_move_to small0 0 2)).c_height
      ≤ (cell_advance (video_move_to small0 0 2)).cy ∧
    (video_move_to small0 0 2).stride * (video_move_to small0 0 2).height = 720 ∧
    target_buffer (video_move_to small0 0 2) 720 = 0x777777 ∧
    target_buffer (video_move_to small0 0 2) (720 + 18) = 0x777777 ∧
    ∃ st1, video_scroll env0 (video_move_to small0 0 2) = some st1 ∧
      target_buffer st1 720 = 0 ∧ target_buffer st1 (720 + 18) = 0 := by
  refine ⟨by decide, rfl, by decide, by decide, ?_⟩
  obtain ⟨st1, hs, _, _, hpast, _⟩ := scroll_pixels env0 (video_move_to small0 0 2)
    small0_moved_ok (by decide) (by decide) (by decide) (by decide)
  exact ⟨st1, hs, hpast 0 (by decide), hpast 18 (by decide)⟩

theorem cache_wf_congr (a b : VideoState) (h : a.glyph_cache = b.glyph_cache)
    (hb : cache_wf b) : cache_wf a := by
  unfold cache_wf at *
  rw [h]
  exact hb

/-- Function video_scroll returns from every state with the cell invariant, keeps it, and
leaves a row below c_height and a column of at least 1. -/
theorem scroll_cell (env : Env) (st : VideoState) (h : cell_ok st) :
    ∃ st1, video_scroll env st = some st1 ∧ cell_ok st1 ∧ st1.cy < st1.c_height ∧
      1 ≤ st1.cx ∧ st1.c_width = st.c_width ∧ st1.c_height = st.c_height := by
  obtain ⟨hcx, hw1, hw2, hh1, hh2, hH, hwf⟩ := h
  have hf := cell_advance_frame st
  have hcell := cell_advance_cell st
  have hcx1 : 1 ≤ (cell_advance st).cx ∧ (cell_advance st).cx ≤ st.c_width := by
    by_cases hx : st.c_width ≤ st.cx
    · rw [(hcell.1 hx).1]
      omega
    · rw [(hcell.2 (by omega)).1, u32_of_lt _ (by omega)]
      omega
  have hwf1 : cache_wf (cell_advance st) := cache_wf_congr _ _ hf.2.2.2.2.2.2.2.1 hwf
  rw [video_scroll_eq]
  by_cases hs : (cell_advance st).cy ≥ (cell_advance st).c_height
  · rw [if_pos hs]
    obtain ⟨st1, he, _, hx1, hy1, hcw, hch, _, hht, _, _, _, hgc, _⟩ :=
      scroll_up_spec env (cell_advance st) (by rw [hf.2.1]; exact hH)
    refine ⟨st1, he, ⟨?_, ?_, ?_, ?_, ?_, ?_, ?_⟩, ?_, ?_, ?_, ?_⟩
    · rw [hx1, hcw, hf.2.2.2.1]; exact hcx1.2
    · rw [hcw, hf.2.2.2.1]; exact hw1
    · rw [hcw, hf.2.2.2.1]; exact hw2
    · rw [hch, hf.2.2.2.2.1]; exact hh1
    · rw [hch, hf.2.2.2.2.1]; exact hh2
    · rw [hht, hf.2.1]; exact hH
    · exact cache_wf_congr _ _ hgc hwf1
    · rw [hy1, hch, hf.2.2.2.2.1]
      unfold sub32
      omega
    · rw [hx1]; exact hcx1.1
    · rw [hcw, hf.2.2.2.1]
    · rw [hch, hf.2.2.2.2.1]
  · rw [if_neg hs]
    refine ⟨cell_advance st, rfl, ⟨?_, ?_, ?_, ?_, ?_, ?_, hwf1⟩, ?_, hcx1.1, hf.2.2.2.1,
      hf.2.2.2.2.1⟩
    · rw [hf.2.2.2.1]; exact hcx1.2
    · rw [hf.2.2.2.1]; exact hw1
    · rw [hf.2.2.2.1]; exact hw2
    · rw [hf.2.2.2.2.1]; exact hh1
    · rw [hf.2.2.2.2.1]; exact hh2
    · rw [hf.2.1]; exact hH
    · omega

/-- A scroll followed by the draw of the byte, as video_put_char does for a byte that is
drawn and as every round of the tab loop does: returns, keeps the cell invariant and leaves
a row below c_height. -/
theorem scroll_draw_cell (env : Env) (st : VideoState) (c color : Nat) (h : cell_ok st) :
    ∃ st1,
      (match video_scroll env st with
        | none => none
        | some s1 =>
          video_draw_char env s1 c (u32 (sub32 s1.cx 1 * 9)) (u32 (s1.cy * 16)) color)
        = some st1 ∧
      cell_ok st1 ∧ st1.cy < st1.c_height ∧ 1 ≤ st1.cx ∧
      st1.c_width = st.c_width ∧ st1.c_height = st.c_height := by
  obtain ⟨s1, hs, hok1, hy, hx, hcw, hch⟩ := scroll_cell env st h
  obtain ⟨hcx, hw1, hw2, hh1, hh2, hH, hwf⟩ := hok1
  rw [hs]
  refine ⟨_, draw_char_eq_drawn env s1 c _ _ color hwf, ⟨?_, ?_, ?_, ?_, ?_, ?_, ?_⟩,
    ?_, ?_, ?_, ?_⟩
  · rw [drawn_cx, drawn_c_width]; exact hcx
  · rw [drawn_c_width]; exact hw1
  · rw [drawn_c_width]; exact hw2
  · rw [drawn_c_height]; exact hh1
  · rw [drawn_c_height]; exact hh2
  · rw [drawn_height]; exact hH
  · exact drawn_cache_wf env s1 c _ _ color hwf
  · rw [drawn_cy, drawn_c_height]; exact hy
  · rw [drawn_cx]; exact hx
  · rw [drawn_c_width]; exact hcw
  · rw [drawn_c_height]; exact hch

/-- The tab loop returns and keeps the cell invariant; after at least one round the row is
below c_height. -/
theorem put_tab_cell (env : Env) (c color : Nat) (n : Nat) (st : VideoState)
    (h : cell_ok st) :
    ∃ st1, put_tab env c color n st = some st1 ∧ cell_ok st1 ∧
      (0 < n ∨ st.cy < st.c_height → st1.cy < st1.c_height) ∧
      st1.c_width = st.c_width ∧ st1.c_height = st.c_height := by
  induction n generalizing st with
  | zero =>
    refine ⟨st, rfl, h, ?_, rfl, rfl⟩
    intro h0
    rcases h0 with h0 | h0
    · omega
    · exact h0
  | succ n ih =>
    obtain ⟨s2, hs2, hok2, hy2, _, hcw2, hch2⟩ := scroll_draw_cell env st c color h
    obtain ⟨st1, he, hok1, hy1, hcw1, hch1⟩ := ih s2 hok2
    refine ⟨st1, ?_, hok1, fun _ => hy1 (Or.inr hy2), hcw1.trans hcw2, hch1.trans hch2⟩
    rw [put_tab]
    revert hs2
    cases video_scroll env st with
    | none => intro hs2; exact absurd hs2 (by simp)
    | some s1 =>
      intro hs2
      simp only at hs2 ⊢
      rw [hs2]
      exact he

/-- One video_put_char from a state with the cell invariant: returns, keeps the invariant,
and leaves a row below c_height unless the byte is a newline, a carriage return or a
backspace. -/
theorem put_char_cell (env : Env) (st : VideoState) (c color : Nat) (h : cell_ok st) :
    ∃ st1, video_put_char env st c color = some st1 ∧ cell_ok st1 ∧
      (c ≠ 10 → c ≠ 13 → c ≠ 8 → st1.cy < st1.c_height) ∧
      st1.c_width = st.c_width ∧ st1.c_height = st.c_height := by
  have h0 := h
  obtain ⟨hcx, hw1, hw2, hh1, hh2, hH, hwf⟩ := h
  unfold video_put_char
  by_cases h10 : c = 10
  · rw [if_pos h10]
    exact ⟨_, rfl, ⟨Nat.zero_le _, hw1, hw2, hh1, hh2, hH, hwf⟩,
      fun hc => absurd h10 hc, rfl, rfl⟩
  rw [if_neg h10]
  by_cases h13 : c = 13
  · rw [if_pos h13]
    exact ⟨_, rfl, ⟨Nat.zero_le _, hw1, hw2, hh1, hh2, hH, hwf⟩,
      fun _ hc => absurd h13 hc, rfl, rfl⟩
  rw [if_neg h13]
  by_cases h9 : c = 9
  · rw [if_pos h9]
    obtain ⟨st1, he, hok1, hy1, hcw1, hch1⟩ := put_tab_cell env c color 8 st h0
    exact ⟨st1, he, hok1, fun _ _ _ => hy1 (Or.inl (by decide)), hcw1, hch1⟩
  rw [if_neg h9]
  by_cases h8 : c = 8 ∧ st.cx > 0
  · rw [if_pos h8]
    have hneg : ¬ ((st.cx : Int) - 1 < 0) := by omega
    rw [if_neg hneg]
    have hsub : sub32 st.cx 1 ≤ st.c_width := by
      unfold sub32
      omega
    exact ⟨_, rfl, ⟨hsub, hw1, hw2, hh1, hh2, hH, cache_wf_congr _ st rfl hwf⟩,
      fun _ _ hc => absurd h8.1 hc, rfl, rfl⟩
  rw [if_neg h8]
  obtain ⟨st1, he, hok1, hy1, _, hcw1, hch1⟩ := scroll_draw_cell env st c color h0
  exact ⟨st1, he, hok1, fun _ _ _ => hy1, hcw1, hch1⟩

/-- Any sequence of video_put_char calls from a state with the cell invariant returns and
keeps it; after a last byte other than newline, carriage return and backspace the row is
below c_height. -/
theorem put_char_seq_cell_ok (env : Env) (calls : List (Nat × Nat)) (st : VideoState)
    (h : cell_ok st) :
    ∃ st1, put_char_seq env calls st = some st1 ∧ cell_ok st1 ∧
      st1.c_width = st.c_width ∧ st1.c_height = st.c_height ∧
      (∀ pre c color, calls = pre ++ [(c, color)] → c ≠ 10 → c ≠ 13 → c ≠ 8 →
        st1.cy < st1.c_height) := by
  induction calls generalizing st with
  | nil =>
    refine ⟨st, rfl, h, rfl, rfl, ?_⟩
    intro pre c color hp
    exact absurd hp (by simp)
  | cons d rest ih =>
    obtain ⟨c0, color0⟩ := d
    obtain ⟨s1, hs1, hok1, hy1, hcw1, hch1⟩ := put_char_cell env st c0 color0 h
    obtain ⟨st1, he, hok, hcw, hch, hlast⟩ := ih s1 hok1
    refine ⟨st1, ?_, hok, hcw.trans hcw1, hch.trans hch1, ?_⟩
    · rw [put_char_seq, hs1]
      exact he
    · intro pre c color hp n10 n13 n8
      cases pre with
      | nil =>
        simp only [List.nil_append, List.cons.injEq, Prod.mk.injEq] at hp
        obtain ⟨⟨hc, _⟩, hr⟩ := hp
        subst hr
        simp only [put_char_seq, Option.some.injEq] at he
        subst he
        subst hc
        exact hy1 n10 n13 n8
      | cons p pre1 =>
        simp only [List.cons_append, List.cons.injEq] at hp
        exact hlast pre1 c color hp.2 n10 n13 n8

/-- The state left by video_clear: cell (0, 0), the cell counts, the height and the glyph
cache as before. -/
theorem clear_cell (env : Env) (st0 st : VideoState) (h : video_clear env st0 = some st) :
    st.cx = 0 ∧ st.cy = 0 ∧ st.c_width = st0.c_width ∧ st.c_height = st0.c_height ∧
    st.height = st0.height ∧ st.glyph_cache = st0.glyph_cache := by
  by_cases hlt : u64 (st0.stride * st0.height) < 4294967296
  · rw [clear_eq env st0 hlt] at h
    simp only [Option.some.injEq] at h
    subst h
    refine ⟨rfl, rfl, ?_, ?_, ?_, ?_⟩
    · exact set_target_c_width _ _
    · exact set_target_c_height _ _
    · exact set_target_height _ _
    · exact set_target_glyph_cache _ _
  · simp only [video_clear, hlt, if_false] at h
    exact absurd h (by simp)

theorem small0_cache_wf : cache_wf small0 := by
  intro k _ hk
  simp [small0] at hk

/-- C17 (as amended). From the state left by video_clear (c_width >= 2, c_height >= 1, both
32-bit, a height whose low 32 bits are not 2^32 - 1, every valid cache entry with its
bitmap), every sequence of video_put_char calls returns, and after it cx <= c_width; after
a call whose byte is not a newline, a carriage return or a backspace, cy < c_height. And
video_scroll returns with cy < c_height from every state with the cell invariant. -/
theorem put_char_seq_cell (env : Env) (st0 st : VideoState) (calls : List (Nat × Nat))
    (hclear : video_clear env st0 = some st)
    (hw : 2 ≤ st0.c_width) (hw2 : st0.c_width < 4294967296)
    (hh : 1 ≤ st0.c_height) (hh2 : st0.c_height < 4294967296)
    (hH : u32 st0.height ≠ 4294967295) (hwf : cache_wf st0) :
    ∃ st1, put_char_seq env calls st = some st1 ∧
      st1.cx ≤ st1.c_width ∧ st1.c_width = st0.c_width ∧ st1.c_height = st0.c_height ∧
      (∀ pre c color, calls = pre ++ [(c, color)] → c ≠ 10 → c ≠ 13 → c ≠ 8 →
        st1.cy < st1.c_height) ∧
      (∀ s, cell_ok s → ∃ s1, video_scroll env s = some s1 ∧ s1.cy < s1.c_height) := by
  obtain ⟨hx, _, hcw, hch, hht, hgc⟩ := clear_cell env st0 st hclear
  have hok : cell_ok st := by
    refine ⟨?_, ?_, ?_, ?_, ?_, ?_, cache_wf_congr _ _ hgc hwf⟩
    · rw [hx]; exact Nat.zero_le _
    · rw [hcw]; omega
    · rw [hcw]; exact hw2
    · rw [hch]; exact hh
    · rw [hch]; exact hh2
    · rw [hht]; exact hH
  obtain ⟨st1, he, hok1, hcw1, hch1, hlast⟩ := put_char_seq_cell_ok env calls st hok
  refine ⟨st1, he, hok1.1, hcw1.trans hcw, hch1.trans hch, hlast, ?_⟩
  intro s hs
  obtain ⟨s1, h1, _, h2, _⟩ := scroll_cell env s hs
  exact ⟨s1, h1, h2⟩

/-- The bytes A, newline, tab, backspace, B on the cleared 18 x 40 console. -/
theorem put_char_seq_cell_witness :
    ∃ st, video_clear env0 small0 = some st ∧
      ∃ st1, put_char_seq env0 [(65, 0xAAAAAA), (10, 0), (9, 0), (8, 0), (66, 0xAAAAAA)] st
          = some st1 ∧
        st1.cx ≤ st1.c_width ∧ st1.c_width = small0.c_width ∧
        st1.c_height = small0.c_height ∧
        (∀ pre c color,
          [(65, 0xAAAAAA), (10, 0), (9, 0), (8, 0), (66, 0xAAAAAA)] = pre ++ [(c, color)] →
          c ≠ 10 → c ≠ 13 → c ≠ 8 → st1.cy < st1.c_height) ∧
        (∀ s, cell_ok s → ∃ s1, video_scroll env0 s = some s1 ∧ s1.cy < s1.c_height) :=
  ⟨_, clear_eq env0 small0 (by decide),
    put_char_seq_cell env0 small0 _ _ (clear_eq env0 small0 (by decide)) (by decide)
      (by decide) (by decide) (by decide) (by decide) small0_cache_wf⟩

/-- C17 as stated fails: on the 18 x 40 console (c_width = 2, c_height = 2) left by
video_clear, two bytes 'A' leave cx = 2 = c_width, and two newlines leave cy = 2 = c_height. -/
theorem put_char_cell_reaches_bounds :
    2 ≤ small0.c_width ∧ 1 ≤ small0.c_height ∧
    ((video_clear env0 small0).bind
        (put_char_seq env0 [(65, 0xAAAAAA), (65, 0xAAAAAA)])).map
      (fun s => (s.cx, s.c_width)) = some (2, 2) ∧
    ((video_clear env0 small0).bind (put_char_seq env0 [(10, 0), (10, 0)])).map
      (fun s => (s.cy, s.c_height)) = some (2, 2) := by
  decide

theorem back_buffer_set_target (st : VideoState) (m : Nat → Nat) :
    (set_target st m).back_buffer
      = if st.double_buffering_enabled then m else st.back_buffer := by
  unfold set_target
  cases st.double_buffering_enabled <;> rfl

/-- Function video_draw_rect on a rectangle inside the screen, with the 32-bit arithmetic
worked out. -/
theorem draw_rect_in_bounds_eq (st : VideoState) (x0 y0 x1 y1 c : Nat) (hok : screen_ok st)
    (hx : x0 ≤ x1) (hxw : x1 < st.width) (hy : y0 ≤ y1) (hyh : y1 < st.height) :
    video_draw_rect st { x := x0, y := y0 } { x := x1, y := y1 } c
      = some (video_mark_dirty
          (set_target st (rect_rows c st.stride x0 (x1 - x0 + 1) (y1 + 1 - y0) y0
            (target_buffer st))) x0 y0 (x1 - x0 + 1) (y1 - y0 + 1)) := by
  have hfit := hok.1
  have hsmall := hok.2.1
  have hH : st.height ≤ st.stride * st.height := Nat.le_mul_of_pos_left _ (by omega)
  have hS : st.stride ≤ st.stride * st.height := Nat.le_mul_of_pos_right _ (by omega)
  have ex0 : u32 x0 = x0 := u32_of_lt _ (by omega)
  have ex1 : u32 x1 = x1 := u32_of_lt _ (by omega)
  have ey0 : u32 y0 = y0 := u32_of_lt _ (by omega)
  have ey1 : u32 y1 = y1 := u32_of_lt _ (by omega)
  have ecx : u32 (sub32 x1 x0 + 1) = x1 - x0 + 1 := by unfold u32 sub32; omega
  have ecy : u32 (sub32 y1 y0 + 1) = y1 - y0 + 1 := by unfold u32 sub32; omega
  have hts := target_stride_ok st hok (by omega)
  have heq := draw_rect_eq st x0 y0 x1 y1 c (by rw [ey1]; omega)
  rw [ex0, ex1, ey0, ey1, ecx, ecy, hts] at heq
  exact heq

/-- One in-bounds drawing call: it returns, keeps the geometry and the cache invariant,
merges its rectangle (x, y, w, h) into the dirty rectangle, and changes no word of the back
buffer outside that rectangle. -/
theorem draw_call_step (env : Env) (st : VideoState) (d : draw_call) (hok : screen_ok st)
    (hwf : cache_wf st) (hin : call_in_bounds st.width st.height d) :
    ∃ st1 x y w h, run_draw_call env st d = some st1 ∧
      x + w ≤ st.width ∧ y + h ≤ st.height ∧
      screen_ok st1 ∧ cache_wf st1 ∧
      st1.width = st.width ∧ st1.height = st.height ∧ st1.stride = st.stride ∧
      st1.dirty_region
        = { x1 := if st.dirty_region.dirty then min st.dirty_region.x1 x else x,
            y1 := if st.dirty_region.dirty then min st.dirty_region.y1 y else y,
            x2 := min (if st.dirty_region.dirty then max st.dirty_region.x2 (x + w)
              else x + w) st.width,
            y2 := min (if st.dirty_region.dirty then max st.dirty_region.y2 (y + h)
              else y + h) st.height,
            dirty := true } ∧
      ∀ t, st1.back_buffer t ≠ st.back_buffer t →
        ∃ px py, t = py * st.stride + px ∧ x ≤ px ∧ px < x + w ∧ y ≤ py ∧ py < y + h := by
  have hfit := hok.1
  have hsmall := hok.2.1
  cases d with
  | rect p0 p1 color =>
    obtain ⟨x0, y0⟩ := p0
    obtain ⟨x1, y1⟩ := p1
    obtain ⟨hx, hxw, hy, hyh⟩ := hin
    simp only at hx hxw hy hyh
    have heq := draw_rect_in_bounds_eq st x0 y0 x1 y1 color hok hx hxw hy hyh
    have hH : st.height ≤ st.stride * st.height := Nat.le_mul_of_pos_left _ (by omega)
    have hS : st.stride ≤ st.stride * st.height := Nat.le_mul_of_pos_right _ (by omega)
    have hrow : ∀ yy, yy ≤ y1 → u32 (yy * st.stride) = yy * st.stride := fun yy hyy =>
      u32_of_lt _ (row_offset_lt _ _ yy (by omega) hsmall)
    refine ⟨_, x0, y0, x1 - x0 + 1, y1 - y0 + 1, heq, by omega, by omega, ?_, ?_, ?_, ?_, ?_,
      ?_, ?_⟩
    · unfold screen_ok at hok ⊢
      simpa using hok
    · exact cache_wf_congr _ st (by simp) hwf
    · simp
    · simp
    · simp
    · rw [mark_dirty_region_eq _ x0 y0 (x1 - x0 + 1) (y1 - y0 + 1) (by omega) (by omega)]
      simp only [set_target_dirty_region, set_target_width, set_target_height]
    · intro t ht
      rw [mark_dirty_back_buffer, back_buffer_set_target] at ht
      cases hd : st.double_buffering_enabled
      · rw [hd] at ht
        exact absurd rfl ht
      · rw [hd, if_pos rfl, target_buffer_of_dbe st hd] at ht
        by_contra hno
        apply ht
        apply rect_rows_miss
        intro yy h1 h2 k hk hc
        apply hno
        refine ⟨x0 + k, yy, ?_, by omega, by omega, h1, by omega⟩
        rw [hc, hrow yy (by omega)]
        omega
  | char c x y color =>
    obtain ⟨hx, hy⟩ := hin
    have hH : st.height ≤ st.stride * st.height := Nat.le_mul_of_pos_left _ (by omega)
    have hS : st.stride ≤ st.stride * st.height := Nat.le_mul_of_pos_right _ (by omega)
    have hts := target_stride_ok st hok (by omega)
    have hrow : u32 (y * st.stride) = y * st.stride :=
      u32_of_lt _ (row_offset_lt _ _ y (by omega) hsmall)
    refine ⟨_, x, y, 9, 16, draw_char_eq_drawn env st c x y color hwf, hx, hy,
      drawn_screen_ok env st c x y color hok, drawn_cache_wf env st c x y color hwf,
      drawn_width _ _ _ _ _ _, drawn_height _ _ _ _ _ _, drawn_stride _ _ _ _ _ _, ?_, ?_⟩
    · rw [drawn_dirty_region, mark_dirty_region_eq st x y 9 16 (by omega) (by omega)]
    · intro t ht
      cases hd : st.double_buffering_enabled
      · rw [(drawn_other_buffer env st c x y color).2 hd] at ht
        exact absurd rfl ht
      · have hd1 : (drawn env st c x y color).double_buffering_enabled = true := by
          rw [drawn_double_buffering_enabled]; exact hd
        rw [← target_buffer_of_dbe _ hd1, ← target_buffer_of_dbe st hd] at ht
        by_contra hno
        apply ht
        apply drawn_outside
        intro i hi j hj hc
        apply hno
        refine ⟨x + j, y + i, ?_, by omega, by omega, by omega, by omega⟩
        rw [hc, hts, hrow, Nat.add_mul]
        omega

/-- One in-bounds drawing call keeps the enclosure invariant and sets the dirty flag. -/
theorem draw_call_inv (env : Env) (st0 st : VideoState) (d : draw_call)
    (hinv : DrawInv st0 st) (hin : call_in_bounds st0.width st0.height d) :
    ∃ st1, run_draw_call env st d = some st1 ∧ DrawInv st0 st1 ∧
      st1.dirty_region.dirty = true := by
  have hin1 : call_in_bounds st.width st.height d := by
    rw [hinv.width_eq, hinv.height_eq]; exact hin
  obtain ⟨st1, x, y, w, h, he, hxw, hyh, hok1, hwf1, hw, hh, hs, hreg, hch⟩ :=
    draw_call_step env st d hinv.ok hinv.wf hin1
  have hW := hinv.width_eq
  have hH := hinv.height_eq
  have hfit := hinv.ok.1
  have hd1 : st1.dirty_region.dirty = true := by rw [hreg]
  have hx1 : st1.dirty_region.x1
      = if st.dirty_region.dirty then min st.dirty_region.x1 x else x := by rw [hreg]
  have hy1 : st1.dirty_region.y1
      = if st.dirty_region.dirty then min st.dirty_region.y1 y else y := by rw [hreg]
  have hx2 : st1.dirty_region.x2
      = min (if st.dirty_region.dirty then max st.dirty_region.x2 (x + w) else x + w)
          st.width := by rw [hreg]
  have hy2 : st1.dirty_region.y2
      = min (if st.dirty_region.dirty then max st.dirty_region.y2 (y + h) else y + h)
          st.height := by rw [hreg]
  refine ⟨st1, he, ?_, hd1⟩
  refine { ok := hok1, wf := hwf1, width_eq := hw.trans hW, height_eq := hh.trans hH,
           stride_eq := hs.trans hinv.stride_eq, clipped := ?_, enclosed := ?_ }
  · intro _
    rw [hx2, hy2]
    constructor
    · exact le_trans (Nat.min_le_right _ _) (le_of_eq hW)
    · exact le_trans (Nat.min_le_right _ _) (le_of_eq hH)
  · intro t ht
    refine ⟨hd1, ?_⟩
    by_cases hc : st1.back_buffer t = st.back_buffer t
    · rw [hc] at ht
      obtain ⟨hd, px, py, e, a1, a2, a3, a4⟩ := hinv.enclosed t ht
      obtain ⟨c1, c2⟩ := hinv.clipped hd
      refine ⟨px, py, e, ?_, ?_, ?_, ?_⟩
      · rw [hx1, hd, if_pos rfl]; omega
      · rw [hx2, hd, if_pos rfl]; omega
      · rw [hy1, hd, if_pos rfl]; omega
      · rw [hy2, hd, if_pos rfl]; omega
    · obtain ⟨px, py, e, a1, a2, a3, a4⟩ := hch t hc
      rw [hinv.stride_eq] at e
      refine ⟨px, py, e, ?_, ?_, ?_, ?_⟩
      · rw [hx1]; split <;> omega
      · rw [hx2]; split <;> omega
      · rw [hy1]; split <;> omega
      · rw [hy2]; split <;> omega

/-- A sequence of in-bounds drawing calls returns and keeps the enclosure invariant; the
dirty flag is set at the end when it was set before or the sequence is not empty. -/
theorem draw_calls_inv (env : Env) (st0 : VideoState) (calls : List draw_call) :
    ∀ st, DrawInv st0 st → (∀ d, d ∈ calls → call_in_bounds st0.width st0.height d) →
      ∃ st1, run_draw_calls env calls st = some st1 ∧ DrawInv st0 st1 ∧
        (calls ≠ [] ∨ st.dirty_region.dirty = true → st1.dirty_region.dirty = true) := by
  induction calls with
  | nil =>
    intro st hinv _
    refine ⟨st, rfl, hinv, ?_⟩
    intro h
    rcases h with h | h
    · exact absurd rfl h
    · exact h
  | cons d ds ih =>
    intro st hinv hin
    obtain ⟨s1, hs1, hinv1, hd1⟩ :=
      draw_call_inv env st0 st d hinv (hin d (List.mem_cons_self d ds))
    obtain ⟨st1, he, hinv2, hd2⟩ :=
      ih s1 hinv1 (fun e he => hin e (List.mem_cons_of_mem d he))
    refine ⟨st1, ?_, hinv2, fun _ => hd2 (Or.inr hd1)⟩
    rw [run_draw_calls, hs1]
    exact he

/-- C13. For every sequence of in-bounds video_draw_rect / video_draw_char calls run from a
state whose dirty flag is clear, the sequence returns; after a sequence of at least one
call the dirty flag is set, and every pixel (px, py) whose back-buffer word differs from
its value before the sequence lies in the dirty rectangle: the flag is set, x1 <= px < x2
and y1 <= py < y2. -/
theorem dirty_region_encloses (env : Env) (st : VideoState) (calls : List draw_call)
    (hok : screen_ok st) (hwf : cache_wf st) (hclean : st.dirty_region.dirty = false)
    (hin : ∀ d, d ∈ calls → call_in_bounds st.width st.height d) :
    ∃ st1, run_draw_calls env calls st = some st1 ∧
      (calls ≠ [] → st1.dirty_region.dirty = true) ∧
      ∀ px py, px < st.stride →
        st1.back_buffer (py * st.stride + px) ≠ st.back_buffer (py * st.stride + px) →
        st1.dirty_region.dirty = true ∧
        st1.dirty_region.x1 ≤ px ∧ px < st1.dirty_region.x2 ∧
        st1.dirty_region.y1 ≤ py ∧ py < st1.dirty_region.y2 := by
  have h0 : DrawInv st st :=
    { ok := hok, wf := hwf, width_eq := rfl, height_eq := rfl, stride_eq := rfl,
      clipped := fun h => by rw [hclean] at h; exact absurd h (by decide),
      enclosed := fun t ht => absurd rfl ht }
  obtain ⟨st1, he, hinv, hflag⟩ := draw_calls_inv env st calls st h0 hin
  refine ⟨st1, he, fun hne => hflag (Or.inl hne), ?_⟩
  intro px py hpx hne
  obtain ⟨hd, qx, qy, e, a1, a2, a3, a4⟩ := hinv.enclosed _ hne
  obtain ⟨c1, _⟩ := hinv.clipped hd
  have hfit := hok.1
  obtain ⟨e1, e2⟩ := row_col_inj st.stride px qx py qy hpx (by omega) e
  subst e1
  subst e2
  exact ⟨hd, a1, a2, a3, a4⟩

/-- A red rectangle and then a glyph on the clean 720 x 400 console. -/
theorem dirty_region_encloses_witness :
    ∃ st1, run_draw_calls env0
        [draw_call.rect { x := 10, y := 10 } { x := 19, y := 19 } 0xFF0000,
         draw_call.char 65 100 100 0xAAAAAA] console0 = some st1 ∧
      ([draw_call.rect { x := 10, y := 10 } { x := 19, y := 19 } 0xFF0000,
         draw_call.char 65 100 100 0xAAAAAA] ≠ [] → st1.dirty_region.dirty = true) ∧
      ∀ px py, px < console0.stride →
        st1.back_buffer (py * console0.stride + px)
          ≠ console0.back_buffer (py * console0.stride + px) →
        st1.dirty_region.dirty = true ∧
        st1.dirty_region.x1 ≤ px ∧ px < st1.dirty_region.x2 ∧
        st1.dirty_region.y1 ≤ py ∧ py < st1.dirty_region.y2 :=
  dirty_region_encloses env0 console0 _ console0_screen_ok console0_cache_wf rfl
    (by
      intro d hd
      simp only [List.mem_cons, List.mem_singleton, List.not_mem_nil, or_false] at hd
      rcases hd with hd | hd
      · subst hd
        exact ⟨by decide, by decide, by decide, by decide⟩
      · subst hd
        exact ⟨by decide, by decide⟩)

end Video
